import Mathlib

/-!
Finite-difference option pricer (`fofspot_pricer.cpp`).

A shallow embedding of the grid solver `fdm`, of its helpers `aj`, `bj`, `cj`, and of
the closed-form pricer `bs` with the normal-CDF helper `phi`.

* Floating-point values are elements of an arbitrary linearly ordered field `α`
  (exact arithmetic); the library functions `exp`, `sqrt` and `log` are the
  parameters `expf`, `sqrtf` and `logf`, and the decimal constants of `phi` are the
  rationals they denote. The real numbers with `Real.exp` are one instance, the
  rationals are an executable one.
* The array `values[]` is passed as its named entries `EA`, `CP`, `S`, `K`, `T`, `sig`,
  `r`, `q` (`values[1..8]`) and the two `int` conversions `M` (`values[9]`) and `N`
  (`values[10]`), which are natural numbers: negative step counts and `int` overflow
  are not modelled.
* The arrays `g`, `A` and `d` carry their dimensions; every read and write is
  bounds-checked and an access outside the array makes the whole run `none`.
  Fresh storage is zero-filled; the zeroing loops of the source are run all the same,
  and the lemmas about them hold for any initial content.
* Every index expression of the source (`j-1`, `i-1`, `M-1`, `M - M/mult`) is
  evaluated only after an access that already fails when the expression would be
  negative, so natural-number indices lose nothing.
* The only division whose divisor is computed by the solver is `a = 1/A(j,j)` of line 213.
  In `fdm` it is the total division of the field, for which `1/0 = 0`; `fdmChecked` is
  the same program with that division checked, so that a zero pivot makes the run
  `none`. The two return the same price when no pivot is zero (`fdmChecked_eq`), and
  `fdmChecked` fails exactly when one is (`fdmChecked_eq_none_iff`). A statement about
  `fdm` alone speaks for the program only where the pivots are non-zero.

The first part holds the definitions: the embedding, then the recurrences that the
forward pass and the back-substitution compute (`pivot`, `upper`, `dnorm`, `backVal`)
and the invariants of the loops. The second part proves that the bounds-checked program
returns `gridPrice`, relates it to the program with the division checked, and settles
the claims.
-/

namespace Pricer

variable {α : Type} [LinearOrderedField α] {σ : Type}

/-! ## Storage -/

/-- Modelled from the spec: the `Matrix` template of the header `fofspot_pricer.h`
(not part of the sources), a dense two-dimensional array addressed by
`(row, column)` pairs with bounds-checked accessors. -/
structure Matrix (α : Type) where
  rows : ℕ
  cols : ℕ
  cell : ℕ → ℕ → α

/-- A one-dimensional array such as `float d[M+1]`. -/
structure Vec (α : Type) where
  size : ℕ
  cell : ℕ → α

/-- Storage of a matrix with `r` rows and `c` columns. -/
def Matrix.alloc (r c : ℕ) : Matrix α := ⟨r, c, fun _ _ => 0⟩

/-- Storage of an array of length `n`. -/
def Vec.alloc (n : ℕ) : Vec α := ⟨n, fun _ => 0⟩

/-- The matrix `m` with cell `(i, j)` replaced by `x`. -/
def Matrix.upd (m : Matrix α) (i j : ℕ) (x : α) : Matrix α :=
  ⟨m.rows, m.cols, fun a b => if a = i ∧ b = j then x else m.cell a b⟩

/-- The array `v` with cell `i` replaced by `x`. -/
def Vec.upd (v : Vec α) (i : ℕ) (x : α) : Vec α :=
  ⟨v.size, fun a => if a = i then x else v.cell a⟩

/-- Checked read `m(i,j)`. -/
def Matrix.read (m : Matrix α) (i j : ℕ) : Option α :=
  if i < m.rows ∧ j < m.cols then some (m.cell i j) else none

/-- Checked write `m(i,j) = x`. -/
def Matrix.write (m : Matrix α) (i j : ℕ) (x : α) : Option (Matrix α) :=
  if i < m.rows ∧ j < m.cols then some (m.upd i j x) else none

/-- Checked read `v[i]`. -/
def Vec.read (v : Vec α) (i : ℕ) : Option α :=
  if i < v.size then some (v.cell i) else none

/-- Checked write `v[i] = x`. -/
def Vec.write (v : Vec α) (i : ℕ) (x : α) : Option (Vec α) :=
  if i < v.size then some (v.upd i x) else none

/-! ## Loops -/

/-- Runs `body j`, `body (j+1)`, ... for `n` consecutive indices. -/
def loopUp (body : ℕ → σ → Option σ) : ℕ → ℕ → σ → Option σ
  | 0, _, st => some st
  | n + 1, j, st => (body j st).bind (loopUp body n (j + 1))

/-- The loop `for (int j = lo; j < hi; j++) body`. -/
def forUp (lo hi : ℕ) (body : ℕ → σ → Option σ) (st : σ) : Option σ :=
  loopUp body (hi - lo) lo st

/-- The loop `for (int j = hi; j > 0; j--) body`. -/
def forDown (body : ℕ → σ → Option σ) : ℕ → σ → Option σ
  | 0, st => some st
  | n + 1, st => (body (n + 1) st).bind (forDown body n)

/-! ## Coefficients (lines 104-114) -/

/-- Sub-diagonal coefficient `aj`. -/
def aj (j M : ℕ) (sig r q t : α) : α :=
  -(1 / 2) * ((r - q) * ((M : α) - (j : α)) * t + (sig * ((M : α) - (j : α))) ^ 2 * t)

/-- Diagonal coefficient `bj`. -/
def bj (j M : ℕ) (sig r _q t : α) : α :=
  1 + (sig * ((M : α) - (j : α))) ^ 2 * t + r * t

/-- Super-diagonal coefficient `cj`. -/
def cj (j M : ℕ) (sig r q t : α) : α :=
  (1 / 2) * ((r - q) * ((M : α) - (j : α)) * t - (sig * ((M : α) - (j : α))) ^ 2 * t)

/-! ## The solver `fdm` (lines 117-245) -/

/-- The grid multiplier `mult`. -/
def mult : ℕ := 5

/-- The corrected number of price steps, `M -= (M % mult)`. -/
def adjM (M0 : ℕ) : ℕ := M0 - M0 % mult

/-- The row whose value is returned, `M - M/mult`. -/
def spotRow (M : ℕ) : ℕ := M - M / mult

/-- The price `(M-j)*s` of grid row `j`. -/
def rowPrice (M j : ℕ) (s : α) : α := ((M : α) - (j : α)) * s

/-- The value added to `g(0,i)` (line 153). -/
def topValue (expf : α → α) (CP K T r q Smax t : α) (i : ℕ) : α :=
  (1 - CP) * (Smax - K * expf (-(r - q) * (T - t * (i : α))))

/-- The value added to `g(M,i)` (line 154). -/
def bottomValue (expf : α → α) (CP K T r q t : α) (i : ℕ) : α :=
  CP * K * expf (-(r - q) * (T - t * (i : α)))

/-- The pay-off `(1-CP)*max(x-K,0) + CP*max(K-x,0)` at price `x` (lines 158, 165). -/
def payoff (CP K x : α) : α :=
  (1 - CP) * max (x - K) 0 + CP * max (K - x) 0

/-- The clamp of line 236 applied to the solved value `v` of row `j`. -/
def clampValue (EA CP K s : α) (M j : ℕ) (v : α) : α :=
  (1 - CP) * max v (EA * (rowPrice M j s - K)) + CP * max v (EA * (K - rowPrice M j s))

/-- Lines 144-148: every cell of the grid is set to zero. -/
def zeroGrid (M N : ℕ) (g : Matrix α) : Option (Matrix α) :=
  forUp 0 (M + 1) (fun i g => forUp 0 (N + 1) (fun j g => g.write i j 0) g) g

/-- Lines 152-155: the boundary rows `0` and `M`, for every column. -/
def setBoundary (expf : α → α) (CP K T r q Smax t : α) (M N : ℕ) (g : Matrix α) :
    Option (Matrix α) :=
  forUp 0 (N + 1) (fun i g => do
    let v0 ← g.read 0 i
    let g ← g.write 0 i (v0 + topValue expf CP K T r q Smax t i)
    let vM ← g.read M i
    g.write M i (vM + bottomValue expf CP K T r q t i)) g

/-- Lines 157-159: the terminal pay-off in column `N`, interior rows. -/
def setTerminal (CP K s : α) (M N : ℕ) (g : Matrix α) : Option (Matrix α) :=
  forUp 1 M (fun i g => g.write i N (payoff CP K (rowPrice M i s))) g

/-- Lines 164-165: the two writes to the spot row. -/
def anchorSpot (CP S K : α) (M N : ℕ) (g : Matrix α) : Option (Matrix α) := do
  let g ← g.write (M - M / mult) 0 S
  g.write (M - M / mult) N (payoff CP K S)

/-- Lines 180-184: `A` is set to zero. -/
def zeroA (M : ℕ) (A : Matrix α) : Option (Matrix α) :=
  forUp 0 (M + 1) (fun j A => forUp 0 (M + 1) (fun k A => A.write j k 0) A) A

/-- Lines 188-190: `d` is loaded with column `i` of the grid. -/
def loadD (M : ℕ) (g : Matrix α) (i : ℕ) (d : Vec α) : Option (Vec α) :=
  forUp 0 (M + 1) (fun j d => do
    let v ← g.read j i
    d.write j v) d

/-- Lines 193-197: the three diagonals of `A`, interior rows. -/
def populateA (M : ℕ) (sig r q t : α) (A : Matrix α) : Option (Matrix α) :=
  forUp 1 M (fun j A => do
    let A ← A.write j (j - 1) (aj j M sig r q t)
    let A ← A.write j j (bj j M sig r q t)
    A.write j (j + 1) (cj j M sig r q t)) A

/-- Lines 205-206: the known value `d[0]` is folded into row `1`. -/
def foldFirst (Ad : Matrix α × Vec α) : Option (Matrix α × Vec α) := do
  let d1 ← Ad.2.read 1
  let a10 ← Ad.1.read 1 0
  let d0 ← Ad.2.read 0
  let d ← Ad.2.write 1 (d1 - a10 * d0)
  let A ← Ad.1.write 1 0 0
  pure (A, d)

/-- Lines 213-216: row `j` of `A` and `d[j]` are divided by the pivot `A(j,j)`, with the
total division of the field (`1/0 = 0`); `scaleRowChecked` is the checked form. -/
def scaleRow (j : ℕ) (Ad : Matrix α × Vec α) : Option (Matrix α × Vec α) := do
  let p ← Ad.1.read j j
  let v ← Ad.1.read j j
  let A ← Ad.1.write j j (v * (1 / p))
  let v ← A.read j (j + 1)
  let A ← A.write j (j + 1) (v * (1 / p))
  let v ← Ad.2.read j
  let d ← Ad.2.write j (v * (1 / p))
  pure (A, d)

/-- Line 218: `A(j+1,j+1) -= A(j+1,j)*A(j,j+1)`. -/
def eliminateA (j : ℕ) (A : Matrix α) : Option (Matrix α) := do
  let x ← A.read (j + 1) (j + 1)
  let y ← A.read (j + 1) j
  let z ← A.read j (j + 1)
  A.write (j + 1) (j + 1) (x - y * z)

/-- Lines 219-221: `d[j+1] -= A(j+1,j)*d[j]` and `A(j+1,j) = 0`. -/
def eliminateD (j : ℕ) (Ad : Matrix α × Vec α) : Option (Matrix α × Vec α) := do
  let x ← Ad.2.read (j + 1)
  let y ← Ad.1.read (j + 1) j
  let z ← Ad.2.read j
  let d ← Ad.2.write (j + 1) (x - y * z)
  let A ← Ad.1.write (j + 1) j 0
  pure (A, d)

/-- Lines 213-221: one iteration of the forward pass. -/
def forwardBody (j : ℕ) (Ad : Matrix α × Vec α) : Option (Matrix α × Vec α) := do
  let Ad ← scaleRow j Ad
  let A ← eliminateA j Ad.1
  eliminateD j (A, Ad.2)

/-- Lines 212-222: the forward pass. -/
def forwardPass (M : ℕ) (Ad : Matrix α × Vec α) : Option (Matrix α × Vec α) :=
  forUp 1 M forwardBody Ad

/-- Lines 225-226: the known value `d[M]` is folded into row `M-1`. -/
def foldLast (M : ℕ) (Ad : Matrix α × Vec α) : Option (Matrix α × Vec α) := do
  let x ← Ad.2.read (M - 1)
  let y ← Ad.1.read (M - 1) M
  let z ← Ad.2.read M
  let d ← Ad.2.write (M - 1) (x - y * z)
  let A ← Ad.1.write (M - 1) M 0
  pure (A, d)

/-- Lines 231-232: one iteration of the back-substitution. -/
def backBody (j : ℕ) (Ad : Matrix α × Vec α) : Option (Matrix α × Vec α) := do
  let x ← Ad.2.read (j - 1)
  let y ← Ad.1.read (j - 1) j
  let z ← Ad.2.read j
  let d ← Ad.2.write (j - 1) (x - y * z)
  let A ← Ad.1.write (j - 1) j 0
  pure (A, d)

/-- Lines 230-233: the back-substitution. -/
def backPass (M : ℕ) (Ad : Matrix α × Vec α) : Option (Matrix α × Vec α) :=
  forDown backBody (M - 1) Ad

/-- Lines 180-233: the tridiagonal solve for column `i`; the solution is left in `d`. -/
def solveColumn (sig r q t : α) (M : ℕ) (g : Matrix α) (i : ℕ)
    (Ad : Matrix α × Vec α) : Option (Matrix α × Vec α) := do
  let A ← zeroA M Ad.1
  let d ← loadD M g i Ad.2
  let A ← populateA M sig r q t A
  let Ad ← foldFirst (A, d)
  let Ad ← forwardPass M Ad
  let Ad ← foldLast M Ad
  backPass M Ad

/-- Lines 235-237: the clamp, rows `0..M`. -/
def clampD (EA CP K s : α) (M : ℕ) (d : Vec α) : Option (Vec α) :=
  forUp 0 (M + 1) (fun j d => do
    let v ← d.read j
    d.write j (clampValue EA CP K s M j v)) d

/-- Lines 239-241: the interior of `d` is stored into column `i-1`. -/
def storeColumn (M i : ℕ) (d : Vec α) (g : Matrix α) : Option (Matrix α) :=
  forUp 1 M (fun j g => do
    let v ← d.read j
    g.write j (i - 1) v) g

/-- The arrays `g`, `A` and `d`. -/
structure Work (α : Type) where
  g : Matrix α
  A : Matrix α
  d : Vec α

/-- Lines 179-241: the body of the backward loop for column `i`. -/
def backwardStep (EA CP K sig r q s t : α) (M i : ℕ) (w : Work α) : Option (Work α) := do
  let Ad ← solveColumn sig r q t M w.g i (w.A, w.d)
  let d ← clampD EA CP K s M Ad.2
  let g ← storeColumn M i d w.g
  pure ⟨g, Ad.1, d⟩

/-- Lines 117-242: the grid when the backward loop has finished; the two writes of
lines 164-165 are performed when `anchor` is set. -/
def fdmGrid (anchor : Bool) (expf : α → α) (EA CP S K T sig r q : α) (M0 N : ℕ) :
    Option (Matrix α) := do
  let M := adjM M0
  let Smax := (mult : α) * S
  let s := Smax / (M : α)
  let t := T / (N : α)
  let g ← zeroGrid M N (Matrix.alloc (M + 1) (N + 1))
  let g ← setBoundary expf CP K T r q Smax t M N g
  let g ← setTerminal CP K s M N g
  let g ← if anchor then anchorSpot CP S K M N g else some g
  let w ← forDown (backwardStep EA CP K sig r q s t M) N
    ⟨g, Matrix.alloc (M + 1) (M + 1), Vec.alloc (M + 1)⟩
  pure w.g

/-- Lines 117-245: the solver returns the cell `(M - M/mult, 0)` of the final grid. -/
def fdmCore (anchor : Bool) (expf : α → α) (EA CP S K T sig r q : α) (M0 N : ℕ) :
    Option α := do
  let g ← fdmGrid anchor expf EA CP S K T sig r q M0 N
  g.read (spotRow (adjM M0)) 0

/-- The function `fdm` of the source, with the total division of the field at line 213. -/
def fdm (expf : α → α) (EA CP S K T sig r q : α) (M0 N : ℕ) : Option α :=
  fdmCore true expf EA CP S K T sig r q M0 N

/-- The same procedure with the two writes of lines 164-165 left out. -/
def fdmNoAnchor (expf : α → α) (EA CP S K T sig r q : α) (M0 N : ℕ) : Option α :=
  fdmCore false expf EA CP S K T sig r q M0 N

/-- Lines 143-155: the grid after the zeroing loops and the boundary loop. -/
def boundaryGrid (expf : α → α) (CP S K T r q : α) (M0 N : ℕ) : Option (Matrix α) := do
  let g ← zeroGrid (adjM M0) N (Matrix.alloc (adjM M0 + 1) (N + 1))
  setBoundary expf CP K T r q ((mult : α) * S) (T / (N : α)) (adjM M0) N g

/-- Lines 143-165: the grid when the backward loop starts. -/
def setupGrid (anchor : Bool) (expf : α → α) (CP S K T r q : α) (M0 N : ℕ) :
    Option (Matrix α) := do
  let g ← boundaryGrid expf CP S K T r q M0 N
  let g ← setTerminal CP K ((mult : α) * S / (adjM M0 : α)) (adjM M0) N g
  if anchor then anchorSpot CP S K (adjM M0) N g else some g

/-- Lines 177-242: the backward loop run from the grid `g`; the grid it leaves. -/
def sweepFrom (EA CP S K T sig r q : α) (M0 N : ℕ) (g : Matrix α) : Option (Matrix α) := do
  let w ← forDown (backwardStep EA CP K sig r q ((mult : α) * S / (adjM M0 : α))
    (T / (N : α)) (adjM M0)) N ⟨g, Matrix.alloc (adjM M0 + 1) (adjM M0 + 1),
    Vec.alloc (adjM M0 + 1)⟩
  pure w.g

/-! ## The closed-form pricer (lines 76-101 and 248-269) -/

/-- The function `phi` of the source; `sqrtf` stands for `sqrt` and `expf` for `exp`. -/
def phi (expf sqrtf : α → α) (x : α) : α :=
  let a1 : α := 254829592 / 1000000000
  let a2 : α := -(284496736 / 1000000000)
  let a3 : α := 1421413741 / 1000000000
  let a4 : α := -(1453152027 / 1000000000)
  let a5 : α := 1061405429 / 1000000000
  let p : α := 3275911 / 10000000
  let sign : α := if x < 0 then -1 else 1
  let x := |x| / sqrtf 2
  let t := 1 / (1 + p * x)
  let y := 1 - (((((a5 * t + a4) * t) + a3) * t + a2) * t + a1) * t * expf (-x * x)
  1 / 2 * (1 + sign * y)

/-- The constant `d1` of `bs` (line 88); `logf` stands for `log`. -/
def bsD1 (sqrtf logf : α → α) (S K tau sigma r a : α) : α :=
  1 / (sigma * sqrtf tau) * (logf (S / K) + (r - a + sigma ^ 2 / 2) * tau)

/-- The constant `d2` of `bs` (line 89). -/
def bsD2 (sqrtf logf : α → α) (S K tau sigma r a : α) : α :=
  1 / (sigma * sqrtf tau) * (logf (S / K) + (r - a - sigma ^ 2 / 2) * tau)

/-- The function `bs` of the source; `CP` is the `int` read from `values[2]`. -/
def bs (expf sqrtf logf : α → α) (CP : ℤ) (S K tau sigma r a : α) : α :=
  if CP = 0 then
    S * expf (-a * tau) * phi expf sqrtf (bsD1 sqrtf logf S K tau sigma r a) -
      K * expf (-r * tau) * phi expf sqrtf (bsD2 sqrtf logf S K tau sigma r a)
  else
    K * expf (-r * tau) * phi expf sqrtf (-bsD2 sqrtf logf S K tau sigma r a) -
      S * expf (-a * tau) * phi expf sqrtf (-bsD1 sqrtf logf S K tau sigma r a)

/-! ## The recurrences computed by the solver -/

/-- The entry `A(j,j-1)` after lines 180-197. -/
def subD (sig r q t : α) (M j : ℕ) : α := if 1 ≤ j ∧ j < M then aj j M sig r q t else 0

/-- The entry `A(j,j)` after lines 180-197. -/
def diagD (sig r q t : α) (M j : ℕ) : α := if 1 ≤ j ∧ j < M then bj j M sig r q t else 0

/-- The entry `A(j,j+1)` after lines 180-197. -/
def supD (sig r q t : α) (M j : ℕ) : α := if 1 ≤ j ∧ j < M then cj j M sig r q t else 0

/-- The value of `A(j,j)` at the moment the forward pass divides by it (lines 213, 218). -/
def pivot (a b c : ℕ → α) : ℕ → α
  | 0 => b 0
  | j + 1 => b (j + 1) - a (j + 1) * (c j * (1 / pivot a b c j))

/-- The value of `A(j,j+1)` after row `j` was scaled (line 215). -/
def upper (a b c : ℕ → α) (j : ℕ) : α := c j * (1 / pivot a b c j)

/-- The value of `d[j]` after row `j` was scaled (lines 205, 216, 219). -/
def dnorm (a b c rhs : ℕ → α) : ℕ → α
  | 0 => rhs 0
  | j + 1 => (rhs (j + 1) - a (j + 1) * dnorm a b c rhs j) * (1 / pivot a b c (j + 1))

/-- The value of `d[M-k]` after the back-substitution (lines 225, 231). -/
def backVal (a b c rhs : ℕ → α) (M : ℕ) : ℕ → α
  | 0 => rhs M
  | k + 1 => dnorm a b c rhs (M - (k + 1)) - upper a b c (M - (k + 1)) * backVal a b c rhs M k

/-- The value of `d[j]` after the back-substitution. -/
def solution (a b c rhs : ℕ → α) (M j : ℕ) : α := backVal a b c rhs M (M - j)

/-- The value of `d[j]` after the back-substitution, for the coefficients of the source. -/
def solved (sig r q t : α) (M : ℕ) (rhs : ℕ → α) (j : ℕ) : α :=
  solution (subD sig r q t M) (diagD sig r q t M) (supD sig r q t M) rhs M j

/-- Column `N - k` of the grid, rows `0..M`, as the backward loop reads it. -/
def colK (expf : α → α) (EA CP K T sig r q Smax s t : α) (M N : ℕ) : ℕ → ℕ → α
  | 0, j =>
    if j = 0 then topValue expf CP K T r q Smax t N
    else if j = M then bottomValue expf CP K T r q t N
    else payoff CP K (rowPrice M j s)
  | k + 1, j =>
    if j = 0 then topValue expf CP K T r q Smax t (N - (k + 1))
    else if j = M then bottomValue expf CP K T r q t (N - (k + 1))
    else clampValue EA CP K s M j
      (solved sig r q t M (colK expf EA CP K T sig r q Smax s t M N k) j)

/-- The value of `A(j,j)` read by iteration `j` of the forward pass of column `i`. -/
def pivotAt (sig r q t : α) (M : ℕ) (g : Matrix α) (i : ℕ) (Ad : Matrix α × Vec α)
    (j : ℕ) : Option α := do
  let A ← zeroA M Ad.1
  let d ← loadD M g i Ad.2
  let A ← populateA M sig r q t A
  let Ad ← foldFirst (A, d)
  let Ad ← forUp 1 j forwardBody Ad
  Ad.1.read j j

/-- The state of `A` and `d` when iteration `k` of the forward pass starts. -/
def FwdInv (a b c rhs : ℕ → α) (M k : ℕ) (Ad : Matrix α × Vec α) : Prop :=
  Ad.1.rows = M + 1 ∧ Ad.1.cols = M + 1 ∧ Ad.2.size = M + 1 ∧
  (∀ j, j < k → Ad.1.cell j (j + 1) = upper a b c j) ∧
  (∀ j, k ≤ j → j < M → Ad.1.cell j (j + 1) = c j) ∧
  Ad.1.cell k k = pivot a b c k ∧
  (∀ j, k < j → j ≤ M → Ad.1.cell j j = b j ∧ Ad.1.cell j (j - 1) = a j) ∧
  (∀ j, j < k → Ad.2.cell j = dnorm a b c rhs j) ∧
  Ad.2.cell k = rhs k - a k * dnorm a b c rhs (k - 1) ∧
  (∀ j, k < j → j ≤ M → Ad.2.cell j = rhs j)

/-- The state of `A` and `d` when iteration `k` of the back-substitution starts. -/
def BackInv (a b c rhs : ℕ → α) (M k : ℕ) (Ad : Matrix α × Vec α) : Prop :=
  Ad.1.rows = M + 1 ∧ Ad.1.cols = M + 1 ∧ Ad.2.size = M + 1 ∧
  (∀ j, j < k → Ad.1.cell j (j + 1) = upper a b c j) ∧
  (∀ j, j < k → Ad.2.cell j = dnorm a b c rhs j) ∧
  (∀ j, k ≤ j → j ≤ M → Ad.2.cell j = solution a b c rhs M j)

/-- The state of the arrays when the backward loop is about to process column `i`:
the boundary rows are set and the columns `i..N` hold `colK`. -/
def SweepInv (expf : α → α) (EA CP K T sig r q Smax s t : α) (M N i : ℕ) (w : Work α) :
    Prop :=
  w.g.rows = M + 1 ∧ w.g.cols = N + 1 ∧ w.A.rows = M + 1 ∧ w.A.cols = M + 1 ∧
  w.d.size = M + 1 ∧
  (∀ c, c ≤ N → w.g.cell 0 c = topValue expf CP K T r q Smax t c) ∧
  (∀ c, c ≤ N → w.g.cell M c = bottomValue expf CP K T r q t c) ∧
  ∀ c, i ≤ c → c ≤ N → ∀ j, 1 ≤ j → j < M →
    w.g.cell j c = colK expf EA CP K T sig r q Smax s t M N (N - c) j

/-- The value of the cell `(M - M/mult, 0)` when `fdm` returns, for `M ≥ mult`. -/
def gridPrice (expf : α → α) (EA CP S K T sig r q : α) (M0 N : ℕ) : α :=
  colK expf EA CP K T sig r q ((mult : α) * S) ((mult : α) * S / (adjM M0 : α))
    (T / (N : α)) (adjM M0) N N (spotRow (adjM M0))

/-- The sign conditions under which the tridiagonal solve is monotone: non-positive
off-diagonal entries and a diagonal that exceeds their absolute sum by `ρ > 0`. -/
def DiagDominant (a b c : ℕ → α) (M : ℕ) (ρ : α) : Prop :=
  0 < ρ ∧ c 0 = 0 ∧ ∀ j, 1 ≤ j → j < M → a j ≤ 0 ∧ c j ≤ 0 ∧ ρ - a j - c j ≤ b j

/-! ## The solver with the division checked -/

/-- The division `1/p` of line 213; it has no value at `p = 0`. -/
def recip (p : α) : Option α := if p = 0 then none else some (1 / p)

/-- Lines 213-216 with the division checked: `a = 1/A(j,j)` is computed first, and a zero
pivot `A(j,j)` makes the run `none`. -/
def scaleRowChecked (j : ℕ) (Ad : Matrix α × Vec α) : Option (Matrix α × Vec α) := do
  let p ← Ad.1.read j j
  let a ← recip p
  let v ← Ad.1.read j j
  let A ← Ad.1.write j j (v * a)
  let v ← A.read j (j + 1)
  let A ← A.write j (j + 1) (v * a)
  let v ← Ad.2.read j
  let d ← Ad.2.write j (v * a)
  pure (A, d)

/-- Lines 213-221 with the division checked. -/
def forwardBodyChecked (j : ℕ) (Ad : Matrix α × Vec α) : Option (Matrix α × Vec α) := do
  let Ad ← scaleRowChecked j Ad
  let A ← eliminateA j Ad.1
  eliminateD j (A, Ad.2)

/-- Lines 212-222 with the division checked. -/
def forwardPassChecked (M : ℕ) (Ad : Matrix α × Vec α) : Option (Matrix α × Vec α) :=
  forUp 1 M forwardBodyChecked Ad

/-- Lines 180-233 with the division checked. -/
def solveColumnChecked (sig r q t : α) (M : ℕ) (g : Matrix α) (i : ℕ)
    (Ad : Matrix α × Vec α) : Option (Matrix α × Vec α) := do
  let A ← zeroA M Ad.1
  let d ← loadD M g i Ad.2
  let A ← populateA M sig r q t A
  let Ad ← foldFirst (A, d)
  let Ad ← forwardPassChecked M Ad
  let Ad ← foldLast M Ad
  backPass M Ad

/-- Lines 179-241 with the division checked. -/
def backwardStepChecked (EA CP K sig r q s t : α) (M i : ℕ) (w : Work α) :
    Option (Work α) := do
  let Ad ← solveColumnChecked sig r q t M w.g i (w.A, w.d)
  let d ← clampD EA CP K s M Ad.2
  let g ← storeColumn M i d w.g
  pure ⟨g, Ad.1, d⟩

/-- The function `fdm` of the source with the division of line 213 checked: the run is
`none` when an array access is out of bounds or a pivot of a forward pass is zero. -/
def fdmChecked (expf : α → α) (EA CP S K T sig r q : α) (M0 N : ℕ) : Option α := do
  let M := adjM M0
  let Smax := (mult : α) * S
  let s := Smax / (M : α)
  let t := T / (N : α)
  let g ← zeroGrid M N (Matrix.alloc (M + 1) (N + 1))
  let g ← setBoundary expf CP K T r q Smax t M N g
  let g ← setTerminal CP K s M N g
  let g ← anchorSpot CP S K M N g
  let w ← forDown (backwardStepChecked EA CP K sig r q s t M) N
    ⟨g, Matrix.alloc (M + 1) (M + 1), Vec.alloc (M + 1)⟩
  w.g.read (spotRow M) 0

/-- The pivot `A(j,j)` that iteration `j` of every forward pass divides by (line 213), for
the coefficients of the source; it depends on the step `t = T/N` and on `M` but not on
the grid. -/
def fdmPivot (sig r q t : α) (M j : ℕ) : α :=
  pivot (subD sig r q t M) (diagD sig r q t M) (supD sig r q t M) j

/-! ## Storage and loop lemmas -/

set_option linter.unusedSectionVars false

@[simp] theorem Matrix.upd_rows (m : Matrix α) (i j : ℕ) (x : α) : (m.upd i j x).rows = m.rows := rfl

@[simp] theorem Matrix.upd_cols (m : Matrix α) (i j : ℕ) (x : α) : (m.upd i j x).cols = m.cols := rfl

theorem Matrix.upd_cell (m : Matrix α) (i j : ℕ) (x : α) (a b : ℕ) :
    (m.upd i j x).cell a b = if a = i ∧ b = j then x else m.cell a b := rfl

@[simp] theorem Vec.upd_size (v : Vec α) (i : ℕ) (x : α) : (v.upd i x).size = v.size := rfl

theorem Vec.vupd_cell (v : Vec α) (i : ℕ) (x : α) (a : ℕ) :
    (v.upd i x).cell a = if a = i then x else v.cell a := rfl

theorem Matrix.read_of_lt (m : Matrix α) (i j : ℕ) (hi : i < m.rows) (hj : j < m.cols) :
    m.read i j = some (m.cell i j) := by
  simp [Matrix.read, hi, hj]

theorem Matrix.write_of_lt (m : Matrix α) (i j : ℕ) (x : α) (hi : i < m.rows)
    (hj : j < m.cols) : m.write i j x = some (m.upd i j x) := by
  simp [Matrix.write, hi, hj]

theorem Vec.vread_of_lt (v : Vec α) (i : ℕ) (hi : i < v.size) : v.read i = some (v.cell i) := by
  simp [Vec.read, hi]

theorem Vec.vwrite_of_lt (v : Vec α) (i : ℕ) (x : α) (hi : i < v.size) :
    v.write i x = some (v.upd i x) := by
  simp [Vec.write, hi]

theorem Vec.vread_of_le (v : Vec α) (i : ℕ) (hi : v.size ≤ i) : v.read i = none := by
  simp [Vec.read, Nat.not_lt.mpr hi]

/-- Invariant rule for `loopUp`. -/
theorem loopUp_spec (body : ℕ → σ → Option σ) (I : ℕ → σ → Prop) :
    ∀ (n lo : ℕ) (st : σ), I lo st →
      (∀ j s, lo ≤ j → j < lo + n → I j s → ∃ s', body j s = some s' ∧ I (j + 1) s') →
      ∃ s', loopUp body n lo st = some s' ∧ I (lo + n) s' := by
  intro n
  induction n with
  | zero => intro lo st h0 _; exact ⟨st, rfl, by simpa using h0⟩
  | succ n ih =>
    intro lo st h0 hstep
    obtain ⟨s1, hb, h1⟩ := hstep lo st (le_refl _) (by omega) h0
    obtain ⟨s2, hl, h2⟩ := ih (lo + 1) s1 h1
      (fun j s hj1 hj2 hI => hstep j s (by omega) (by omega) hI)
    refine ⟨s2, ?_, ?_⟩
    · simp [loopUp, hb, hl]
    · have : lo + (n + 1) = lo + 1 + n := by omega
      rw [this]; exact h2

/-- Invariant rule for `forUp`. -/
theorem forUp_spec (body : ℕ → σ → Option σ) (I : ℕ → σ → Prop) (lo hi : ℕ) (st : σ)
    (hle : lo ≤ hi) (h0 : I lo st)
    (hstep : ∀ j s, lo ≤ j → j < hi → I j s → ∃ s', body j s = some s' ∧ I (j + 1) s') :
    ∃ s', forUp lo hi body st = some s' ∧ I hi s' := by
  obtain ⟨s', h1, h2⟩ := loopUp_spec body I (hi - lo) lo st h0
    (fun j s hj1 hj2 hI => hstep j s hj1 (by omega) hI)
  refine ⟨s', h1, ?_⟩
  have : lo + (hi - lo) = hi := by omega
  rw [this] at h2; exact h2

/-- Invariant rule for `forDown`. -/
theorem forDown_spec (body : ℕ → σ → Option σ) (I : ℕ → σ → Prop) :
    ∀ (hi : ℕ) (st : σ), I hi st →
      (∀ j s, 1 ≤ j → j ≤ hi → I j s → ∃ s', body j s = some s' ∧ I (j - 1) s') →
      ∃ s', forDown body hi st = some s' ∧ I 0 s' := by
  intro hi
  induction hi with
  | zero => intro st h0 _; exact ⟨st, rfl, h0⟩
  | succ n ih =>
    intro st h0 hstep
    obtain ⟨s1, hb, h1⟩ := hstep (n + 1) st (by omega) (le_refl _) h0
    obtain ⟨s2, hl, h2⟩ := ih s1 (by simpa using h1)
      (fun j s hj1 hj2 hI => hstep j s hj1 (by omega) hI)
    exact ⟨s2, by simp [forDown, hb, hl], h2⟩


/-! ## Grid set-up (lines 143-165) -/

/-- The zeroing loops of lines 144-148 and 180-184. -/
theorem zeroLoop_spec (R C : ℕ) (m : Matrix α) (hr : m.rows = R) (hc : m.cols = C) :
    ∃ m', forUp 0 R (fun i g => forUp 0 C (fun j g => g.write i j 0) g) m = some m' ∧
      m'.rows = R ∧ m'.cols = C ∧ ∀ i j, i < R → j < C → m'.cell i j = 0 := by
  obtain ⟨m', h, hI⟩ := forUp_spec
    (fun i g => forUp 0 C (fun j g => g.write i j 0) g)
    (fun i (g : Matrix α) => g.rows = R ∧ g.cols = C ∧
      ∀ a b, a < i → b < C → g.cell a b = 0) 0 R m (Nat.zero_le _)
    ⟨hr, hc, fun a b ha _ => absurd ha (Nat.not_lt_zero _)⟩
    (by
      intro i g _ hi ⟨hgr, hgc, hz⟩
      obtain ⟨g', h', hI'⟩ := forUp_spec (fun j (g : Matrix α) => g.write i j 0)
        (fun j (g : Matrix α) => g.rows = R ∧ g.cols = C ∧
          (∀ a b, a < i → b < C → g.cell a b = 0) ∧ ∀ b, b < j → g.cell i b = 0)
        0 C g (Nat.zero_le _) ⟨hgr, hgc, hz, fun b hb => absurd hb (Nat.not_lt_zero _)⟩
        (by
          intro j g1 _ hj ⟨h1, h2, h3, h4⟩
          refine ⟨g1.upd i j 0, Matrix.write_of_lt g1 i j 0 (by omega) (by omega), h1, h2, ?_, ?_⟩
          · intro a b ha hb
            rw [Matrix.upd_cell, if_neg (by omega)]; exact h3 a b ha hb
          · intro b hb
            rw [Matrix.upd_cell]
            by_cases hbj : b = j
            · simp [hbj]
            · rw [if_neg (by omega)]; exact h4 b (by omega))
      obtain ⟨h1, h2, h3, h4⟩ := hI'
      refine ⟨g', h', h1, h2, ?_⟩
      intro a b ha hb
      by_cases hai : a = i
      · subst hai; exact h4 b hb
      · exact h3 a b (by omega) hb)
  exact ⟨m', h, hI⟩

/-- Lines 144-148. -/
theorem zeroGrid_spec (M N : ℕ) (g : Matrix α) (hr : g.rows = M + 1) (hc : g.cols = N + 1) :
    ∃ g', zeroGrid M N g = some g' ∧ g'.rows = M + 1 ∧ g'.cols = N + 1 ∧
      ∀ i j, i ≤ M → j ≤ N → g'.cell i j = 0 := by
  obtain ⟨g', h, h1, h2, h3⟩ := zeroLoop_spec (M + 1) (N + 1) g hr hc
  exact ⟨g', h, h1, h2, fun i j hi hj => h3 i j (by omega) (by omega)⟩

/-- Lines 180-184. -/
theorem zeroA_spec (M : ℕ) (A : Matrix α) (hr : A.rows = M + 1) (hc : A.cols = M + 1) :
    ∃ A', zeroA M A = some A' ∧ A'.rows = M + 1 ∧ A'.cols = M + 1 ∧
      ∀ i j, i ≤ M → j ≤ M → A'.cell i j = 0 := by
  obtain ⟨A', h, h1, h2, h3⟩ := zeroLoop_spec (M + 1) (M + 1) A hr hc
  exact ⟨A', h, h1, h2, fun i j hi hj => h3 i j (by omega) (by omega)⟩

/-- Lines 152-155: rows `0` and `M` receive the boundary values, the other rows are
left alone. -/
theorem setBoundary_spec (expf : α → α) (CP K T r q Smax t : α) (M N : ℕ) (g : Matrix α)
    (hr : g.rows = M + 1) (hc : g.cols = N + 1) :
    ∃ g', setBoundary expf CP K T r q Smax t M N g = some g' ∧
      g'.rows = M + 1 ∧ g'.cols = N + 1 ∧
      (∀ j c, j ≠ 0 → j ≠ M → g'.cell j c = g.cell j c) ∧
      (0 < M → ∀ c, c ≤ N →
        g'.cell 0 c = g.cell 0 c + topValue expf CP K T r q Smax t c ∧
        g'.cell M c = g.cell M c + bottomValue expf CP K T r q t c) := by
  obtain ⟨g', h, hI⟩ := forUp_spec (fun i (g : Matrix α) => do
      let v0 ← g.read 0 i
      let g ← g.write 0 i (v0 + topValue expf CP K T r q Smax t i)
      let vM ← g.read M i
      g.write M i (vM + bottomValue expf CP K T r q t i))
    (fun i (g1 : Matrix α) => g1.rows = M + 1 ∧ g1.cols = N + 1 ∧
      (∀ j c, j ≠ 0 → j ≠ M → g1.cell j c = g.cell j c) ∧
      (∀ c, i ≤ c → g1.cell 0 c = g.cell 0 c ∧ g1.cell M c = g.cell M c) ∧
      (0 < M → ∀ c, c < i →
        g1.cell 0 c = g.cell 0 c + topValue expf CP K T r q Smax t c ∧
        g1.cell M c = g.cell M c + bottomValue expf CP K T r q t c))
    0 (N + 1) g (Nat.zero_le _)
    ⟨hr, hc, fun _ _ _ _ => rfl, fun _ _ => ⟨rfl, rfl⟩,
      fun _ c hc0 => absurd hc0 (Nat.not_lt_zero _)⟩
    (by
      intro i g1 _ hi ⟨h1, h2, h3, h4, h5⟩
      refine ⟨(g1.upd 0 i (g1.cell 0 i + topValue expf CP K T r q Smax t i)).upd M i
        ((g1.upd 0 i (g1.cell 0 i + topValue expf CP K T r q Smax t i)).cell M i +
          bottomValue expf CP K T r q t i), ?_, ?_, ?_, ?_, ?_, ?_⟩
      · beta_reduce
        rw [Matrix.read_of_lt g1 0 i (by omega) (by omega)]
        simp only [Option.bind_eq_bind, Option.some_bind]
        rw [Matrix.write_of_lt g1 0 i _ (by omega) (by omega)]
        simp only [Option.some_bind]
        rw [Matrix.read_of_lt _ M i (by simp; omega) (by simp; omega)]
        simp only [Option.some_bind]
        rw [Matrix.write_of_lt _ M i _ (by simp; omega) (by simp; omega)]
      · simpa using h1
      · simpa using h2
      · intro j c hj0 hjM
        rw [Matrix.upd_cell, if_neg (by tauto), Matrix.upd_cell, if_neg (by tauto)]
        exact h3 j c hj0 hjM
      · intro c hc1
        have hci : c ≠ i := by omega
        constructor
        · rw [Matrix.upd_cell, if_neg (by tauto), Matrix.upd_cell, if_neg (by tauto)]
          exact (h4 c (by omega)).1
        · rw [Matrix.upd_cell, if_neg (by tauto), Matrix.upd_cell, if_neg (by tauto)]
          exact (h4 c (by omega)).2
      · intro hM c hc1
        have hM0 : M ≠ 0 := by omega
        by_cases hci : c = i
        · subst hci
          constructor
          · rw [Matrix.upd_cell, if_neg (by omega), Matrix.upd_cell, if_pos ⟨rfl, rfl⟩,
              (h4 c (le_refl _)).1]
          · rw [Matrix.upd_cell, if_pos ⟨rfl, rfl⟩, Matrix.upd_cell, if_neg (by omega),
              (h4 c (le_refl _)).2]
        · constructor
          · rw [Matrix.upd_cell, if_neg (by tauto), Matrix.upd_cell, if_neg (by tauto)]
            exact (h5 hM c (by omega)).1
          · rw [Matrix.upd_cell, if_neg (by tauto), Matrix.upd_cell, if_neg (by tauto)]
            exact (h5 hM c (by omega)).2)
  obtain ⟨h1, h2, h3, _, h5⟩ := hI
  exact ⟨g', h, h1, h2, h3, fun hM c hc1 => h5 hM c (by omega)⟩

/-! ## The tridiagonal solve (lines 180-233) -/

theorem scaleRow_eq (M j : ℕ) (A : Matrix α) (d : Vec α) (hr : A.rows = M + 1)
    (hc : A.cols = M + 1) (hd : d.size = M + 1) (hj : j < M) :
    scaleRow j (A, d) = some
      ((A.upd j j (A.cell j j * (1 / A.cell j j))).upd j (j + 1)
          (A.cell j (j + 1) * (1 / A.cell j j)),
        d.upd j (d.cell j * (1 / A.cell j j))) := by
  have e1 : j < A.rows := by omega
  have e2 : j < A.cols := by omega
  have e3 : j + 1 < A.cols := by omega
  have e4 : j < d.size := by omega
  simp [scaleRow, Matrix.read_of_lt, Matrix.write_of_lt, Vec.vread_of_lt, Vec.vwrite_of_lt,
    e1, e2, e3, e4, Matrix.upd_cell]

theorem eliminateA_eq (M j : ℕ) (A : Matrix α) (hr : A.rows = M + 1)
    (hc : A.cols = M + 1) (hj : j < M) :
    eliminateA j A = some
      (A.upd (j + 1) (j + 1) (A.cell (j + 1) (j + 1) - A.cell (j + 1) j * A.cell j (j + 1))) := by
  have e1 : j < A.rows := by omega
  have e2 : j < A.cols := by omega
  have e3 : j + 1 < A.cols := by omega
  have e4 : j + 1 < A.rows := by omega
  simp [eliminateA, Matrix.read_of_lt, Matrix.write_of_lt, e1, e2, e3, e4]

theorem eliminateD_eq (M j : ℕ) (A : Matrix α) (d : Vec α) (hr : A.rows = M + 1)
    (hc : A.cols = M + 1) (hd : d.size = M + 1) (hj : j < M) :
    eliminateD j (A, d) = some
      (A.upd (j + 1) j 0, d.upd (j + 1) (d.cell (j + 1) - A.cell (j + 1) j * d.cell j)) := by
  have e1 : j < A.cols := by omega
  have e2 : j + 1 < A.rows := by omega
  have e3 : j < d.size := by omega
  have e4 : j + 1 < d.size := by omega
  simp [eliminateD, Matrix.read_of_lt, Matrix.write_of_lt, Vec.vread_of_lt, Vec.vwrite_of_lt,
    e1, e2, e3, e4]

theorem forwardBody_eq (M j : ℕ) (A : Matrix α) (d : Vec α) (hr : A.rows = M + 1)
    (hc : A.cols = M + 1) (hd : d.size = M + 1) (hj : j < M) :
    forwardBody j (A, d) = some
      ((((A.upd j j (A.cell j j * (1 / A.cell j j))).upd j (j + 1)
          (A.cell j (j + 1) * (1 / A.cell j j))).upd (j + 1) (j + 1)
          (A.cell (j + 1) (j + 1) - A.cell (j + 1) j * (A.cell j (j + 1) * (1 / A.cell j j)))).upd
          (j + 1) j 0,
        (d.upd j (d.cell j * (1 / A.cell j j))).upd (j + 1)
          (d.cell (j + 1) - A.cell (j + 1) j * (d.cell j * (1 / A.cell j j)))) := by
  simp only [forwardBody, Option.bind_eq_bind, scaleRow_eq M j A d hr hc hd hj,
    Option.some_bind]
  rw [eliminateA_eq M j _ (by simpa using hr) (by simpa using hc) hj]
  simp only [Option.some_bind]
  rw [eliminateD_eq M j _ _ (by simpa using hr) (by simpa using hc) (by simpa using hd) hj]
  simp [Matrix.upd_cell, Vec.vupd_cell]

theorem foldFirst_eq (M : ℕ) (A : Matrix α) (d : Vec α) (hr : A.rows = M + 1)
    (hc : A.cols = M + 1) (hd : d.size = M + 1) (hM : 1 ≤ M) :
    foldFirst (A, d) = some (A.upd 1 0 0, d.upd 1 (d.cell 1 - A.cell 1 0 * d.cell 0)) := by
  have e1 : 1 < A.rows := by omega
  have e2 : 0 < A.cols := by omega
  have e3 : 0 < d.size := by omega
  have e4 : 1 < d.size := by omega
  simp [foldFirst, Matrix.read_of_lt, Matrix.write_of_lt, Vec.vread_of_lt, Vec.vwrite_of_lt,
    e1, e2, e3, e4]

theorem foldLast_eq (M : ℕ) (A : Matrix α) (d : Vec α) (hr : A.rows = M + 1)
    (hc : A.cols = M + 1) (hd : d.size = M + 1) :
    foldLast M (A, d) = some
      (A.upd (M - 1) M 0, d.upd (M - 1) (d.cell (M - 1) - A.cell (M - 1) M * d.cell M)) := by
  have e1 : M - 1 < A.rows := by omega
  have e2 : M < A.cols := by omega
  have e3 : M < d.size := by omega
  have e4 : M - 1 < d.size := by omega
  simp [foldLast, Matrix.read_of_lt, Matrix.write_of_lt, Vec.vread_of_lt, Vec.vwrite_of_lt,
    e1, e2, e3, e4]

theorem backBody_eq (M j : ℕ) (A : Matrix α) (d : Vec α) (hr : A.rows = M + 1)
    (hc : A.cols = M + 1) (hd : d.size = M + 1) (hj : j ≤ M) :
    backBody j (A, d) = some
      (A.upd (j - 1) j 0, d.upd (j - 1) (d.cell (j - 1) - A.cell (j - 1) j * d.cell j)) := by
  have e1 : j - 1 < A.rows := by omega
  have e2 : j < A.cols := by omega
  have e3 : j < d.size := by omega
  have e4 : j - 1 < d.size := by omega
  simp [backBody, Matrix.read_of_lt, Matrix.write_of_lt, Vec.vread_of_lt, Vec.vwrite_of_lt,
    e1, e2, e3, e4]

/-- Lines 188-190. -/
theorem loadD_spec (M : ℕ) (g : Matrix α) (i : ℕ) (d : Vec α) (hr : g.rows = M + 1)
    (hi : i < g.cols) (hd : d.size = M + 1) :
    ∃ d', loadD M g i d = some d' ∧ d'.size = M + 1 ∧ ∀ j, j ≤ M → d'.cell j = g.cell j i := by
  obtain ⟨d', h, hI⟩ := forUp_spec (fun j (d : Vec α) => do
      let v ← g.read j i
      d.write j v)
    (fun j (d1 : Vec α) => d1.size = M + 1 ∧ ∀ k, k < j → d1.cell k = g.cell k i)
    0 (M + 1) d (Nat.zero_le _) ⟨hd, fun k hk => absurd hk (Nat.not_lt_zero _)⟩
    (by
      intro j d1 _ hj ⟨h1, h2⟩
      have e1 : j < g.rows := by omega
      have e2 : j < d1.size := by omega
      refine ⟨d1.upd j (g.cell j i), by
        simp [Matrix.read_of_lt, Vec.vwrite_of_lt, e1, e2, hi], h1, ?_⟩
      intro k hk
      rw [Vec.vupd_cell]
      by_cases hkj : k = j
      · simp [hkj]
      · rw [if_neg hkj]; exact h2 k (by omega))
  exact ⟨d', h, hI.1, fun j hj => hI.2 j (by omega)⟩

theorem forUp_of_le (body : ℕ → σ → Option σ) (lo hi : ℕ) (st : σ) (h : hi ≤ lo) :
    forUp lo hi body st = some st := by
  have : hi - lo = 0 := by omega
  simp [forUp, this, loopUp]

/-- Lines 193-197. -/
theorem populateA_spec (M : ℕ) (sig r q t : α) (A : Matrix α) (hr : A.rows = M + 1)
    (hc : A.cols = M + 1) (hz : ∀ i j, i ≤ M → j ≤ M → A.cell i j = 0) :
    ∃ A', populateA M sig r q t A = some A' ∧ A'.rows = M + 1 ∧ A'.cols = M + 1 ∧
      (∀ j, j ≤ M → A'.cell j j = diagD sig r q t M j) ∧
      (∀ j, 1 ≤ j → j ≤ M → A'.cell j (j - 1) = subD sig r q t M j) ∧
      (∀ j, j < M → A'.cell j (j + 1) = supD sig r q t M j) := by
  rcases Nat.eq_zero_or_pos M with hM | hM
  · subst hM
    refine ⟨A, forUp_of_le _ _ _ _ (by omega), hr, hc, ?_, ?_, ?_⟩
    · intro j hj; simp [diagD, hz j j hj hj]
    · intro j h1 h2; omega
    · intro j hj; omega
  obtain ⟨A', h, hI⟩ := forUp_spec (fun j (A : Matrix α) => do
      let A ← A.write j (j - 1) (aj j M sig r q t)
      let A ← A.write j j (bj j M sig r q t)
      A.write j (j + 1) (cj j M sig r q t))
    (fun k (A1 : Matrix α) => A1.rows = M + 1 ∧ A1.cols = M + 1 ∧
      (∀ j c, k ≤ j → j ≤ M → c ≤ M → A1.cell j c = 0) ∧
      (∀ j, j < k → A1.cell j j = diagD sig r q t M j ∧
        (1 ≤ j → A1.cell j (j - 1) = subD sig r q t M j) ∧
        A1.cell j (j + 1) = supD sig r q t M j))
    1 M A hM
    ⟨hr, hc, fun j c _ hj hc1 => hz j c hj hc1, by
      intro j hj
      have hj0 : j = 0 := by omega
      subst hj0
      refine ⟨?_, fun h => absurd h (by omega), ?_⟩
      · simp [diagD, hz 0 0 (by omega) (by omega)]
      · simp [supD, hz 0 1 (by omega) (by omega)]⟩
    (by
      intro k A1 hk1 hkM ⟨h1, h2, h3, h4⟩
      have e1 : k < A1.rows := by omega
      have e2 : k < A1.cols := by omega
      have e3 : k - 1 < A1.cols := by omega
      have e4 : k + 1 < A1.cols := by omega
      refine ⟨((A1.upd k (k - 1) (aj k M sig r q t)).upd k k (bj k M sig r q t)).upd k (k + 1)
        (cj k M sig r q t), by simp [Matrix.write_of_lt, e1, e2, e3, e4], by simpa using h1,
        by simpa using h2, ?_, ?_⟩
      · intro j c hj1 hj2 hc1
        simp only [Matrix.upd_cell]
        rw [if_neg (by omega), if_neg (by omega), if_neg (by omega)]
        exact h3 j c (by omega) hj2 hc1
      · intro j hj
        by_cases hjk : j = k
        · subst hjk
          simp only [Matrix.upd_cell]
          refine ⟨?_, fun _ => ?_, ?_⟩
          · rw [if_neg (by omega), if_pos (by simp)]; simp [diagD, hk1, hkM]
          · rw [if_neg (by omega), if_neg (by omega), if_pos (by simp)]
            simp [subD, hk1, hkM]
          · rw [if_pos (by simp)]; simp [supD, hk1, hkM]
        · obtain ⟨h5, h6, h7⟩ := h4 j (by omega)
          simp only [Matrix.upd_cell]
          refine ⟨?_, fun hj1 => ?_, ?_⟩
          · rw [if_neg (by omega), if_neg (by omega), if_neg (by omega)]; exact h5
          · rw [if_neg (by omega), if_neg (by omega), if_neg (by omega)]; exact h6 hj1
          · rw [if_neg (by omega), if_neg (by omega), if_neg (by omega)]; exact h7)
  obtain ⟨h1, h2, h3, h4⟩ := hI
  refine ⟨A', h, h1, h2, ?_, ?_, ?_⟩
  · intro j hj
    rcases Nat.lt_or_ge j M with hlt | hge
    · exact (h4 j hlt).1
    · have : j = M := by omega
      subst this
      simp [diagD, h3 j j (le_refl _) (le_refl _) (le_refl _)]
  · intro j hj1 hj
    rcases Nat.lt_or_ge j M with hlt | hge
    · exact (h4 j hlt).2.1 hj1
    · have : j = M := by omega
      subst this
      simp [subD, h3 j (j - 1) (le_refl _) (le_refl _) (by omega)]
  · intro j hj; exact (h4 j hj).2.2

/-- One iteration of the forward pass keeps the forward invariant. -/
theorem forwardBody_inv (a b c rhs : ℕ → α) (M j : ℕ) (Ad : Matrix α × Vec α)
    (hj1 : 1 ≤ j) (hjM : j < M) (h : FwdInv a b c rhs M j Ad) :
    ∃ Ad', forwardBody j Ad = some Ad' ∧ FwdInv a b c rhs M (j + 1) Ad' := by
  obtain ⟨A, d⟩ := Ad
  obtain ⟨hr, hc, hd, h1, h2, h3, h4, h5, h6, h7⟩ := h
  simp only at hr hc hd h1 h2 h3 h4 h5 h6 h7
  obtain ⟨k, rfl⟩ : ∃ k, j = k + 1 := ⟨j - 1, by omega⟩
  refine ⟨_, forwardBody_eq M (k + 1) A d hr hc hd hjM, ?_⟩
  have hup : A.cell (k + 1) (k + 1 + 1) = c (k + 1) := h2 (k + 1) (le_refl _) hjM
  have hb := (h4 (k + 1 + 1) (by omega) (by omega)).1
  have ha : A.cell (k + 1 + 1) (k + 1) = a (k + 1 + 1) :=
    (h4 (k + 1 + 1) (by omega) (by omega)).2
  refine ⟨by simpa using hr, by simpa using hc, by simpa using hd, ?_, ?_, ?_, ?_, ?_, ?_, ?_⟩
  · intro i hi
    simp only [Matrix.upd_cell]
    rw [if_neg (by omega), if_neg (by omega)]
    by_cases hik : i = k + 1
    · subst hik
      rw [if_pos (by simp), hup, h3, upper]
    · rw [if_neg (by omega), if_neg (by omega)]
      exact h1 i (by omega)
  · intro i hi1 hi2
    simp only [Matrix.upd_cell]
    rw [if_neg (by omega), if_neg (by omega), if_neg (by omega), if_neg (by omega)]
    exact h2 i (by omega) hi2
  · simp only [Matrix.upd_cell]
    rw [if_neg (by omega), if_pos (by simp), hb, ha, hup, h3]
    rfl
  · intro i hi1 hi2
    simp only [Matrix.upd_cell]
    constructor
    · rw [if_neg (by omega), if_neg (by omega), if_neg (by omega), if_neg (by omega)]
      exact (h4 i (by omega) hi2).1
    · rw [if_neg (by omega), if_neg (by omega), if_neg (by omega), if_neg (by omega)]
      exact (h4 i (by omega) hi2).2
  · intro i hi
    simp only [Vec.vupd_cell]
    rw [if_neg (by omega)]
    by_cases hik : i = k + 1
    · subst hik
      rw [if_pos (by simp), h6, h3]
      rfl
    · rw [if_neg hik]; exact h5 i (by omega)
  · simp only [Vec.vupd_cell]
    rw [if_pos (by simp), h7 (k + 1 + 1) (by omega) (by omega), ha, h6, h3]
    rfl
  · intro i hi1 hi2
    simp only [Vec.vupd_cell]
    rw [if_neg (by omega), if_neg (by omega)]
    exact h7 i (by omega) hi2

/-- Lines 212-222, run up to iteration `k`. -/
theorem forwardPrefix_spec (a b c rhs : ℕ → α) (M k : ℕ) (Ad : Matrix α × Vec α)
    (hk1 : 1 ≤ k) (hkM : k ≤ M) (h : FwdInv a b c rhs M 1 Ad) :
    ∃ Ad', forUp 1 k forwardBody Ad = some Ad' ∧ FwdInv a b c rhs M k Ad' :=
  forUp_spec forwardBody (fun j s => FwdInv a b c rhs M j s) 1 k Ad hk1 h
    (fun j s hj1 hj2 hI => forwardBody_inv a b c rhs M j s hj1 (by omega) hI)

/-- One iteration of the back-substitution keeps the backward invariant. -/
theorem backBody_inv (a b c rhs : ℕ → α) (M j : ℕ) (Ad : Matrix α × Vec α)
    (hj1 : 1 ≤ j) (hjM : j ≤ M) (h : BackInv a b c rhs M j Ad) :
    ∃ Ad', backBody j Ad = some Ad' ∧ BackInv a b c rhs M (j - 1) Ad' := by
  obtain ⟨A, d⟩ := Ad
  obtain ⟨hr, hc, hd, h1, h2, h3⟩ := h
  simp only at hr hc hd h1 h2 h3
  obtain ⟨k, rfl⟩ : ∃ k, j = k + 1 := ⟨j - 1, by omega⟩
  refine ⟨_, backBody_eq M (k + 1) A d hr hc hd hjM, ?_⟩
  simp only [Nat.add_sub_cancel]
  refine ⟨by simpa using hr, by simpa using hc, by simpa using hd, ?_, ?_, ?_⟩
  · intro i hi
    simp only [Matrix.upd_cell]
    rw [if_neg (by omega)]
    exact h1 i (by omega)
  · intro i hi
    simp only [Vec.vupd_cell]
    rw [if_neg (by omega)]
    exact h2 i (by omega)
  · intro i hi1 hi2
    simp only [Vec.vupd_cell]
    by_cases hik : i = k
    · subst hik
      rw [if_pos (by simp), h1 i (by omega), h2 i (by omega), h3 (i + 1) (le_refl _) hjM]
      obtain ⟨n, hn⟩ : ∃ n, M - i = n + 1 := ⟨M - i - 1, by omega⟩
      have e1 : M - (i + 1) = n := by omega
      have e2 : M - (n + 1) = i := by omega
      simp only [solution, hn, e1, backVal, e2]
    · rw [if_neg hik]; exact h3 i (by omega) hi2

/-- Lines 230-233. -/
theorem backPass_spec (a b c rhs : ℕ → α) (M : ℕ) (Ad : Matrix α × Vec α)
    (h : BackInv a b c rhs M (M - 1) Ad) :
    ∃ Ad', backPass M Ad = some Ad' ∧ BackInv a b c rhs M 0 Ad' :=
  forDown_spec backBody (fun j s => BackInv a b c rhs M j s) (M - 1) Ad h
    (fun j s hj1 hj2 hI => backBody_inv a b c rhs M j s hj1 (by omega) hI)

theorem supD_zero (sig r q t : α) (M : ℕ) : supD sig r q t M 0 = 0 := by simp [supD]

theorem subD_top (sig r q t : α) (M : ℕ) : subD sig r q t M M = 0 := by simp [subD]

theorem upper_zero (sig r q t : α) (M : ℕ) :
    upper (subD sig r q t M) (diagD sig r q t M) (supD sig r q t M) 0 = 0 := by
  simp [upper, supD_zero]

/-- Lines 180-206: after `A` and `d` are filled and `d[0]` is folded in, the forward
invariant holds at iteration `1`. -/
theorem prepare_spec (sig r q t : α) (M : ℕ) (g : Matrix α) (i : ℕ) (Ad : Matrix α × Vec α)
    (hM : 1 ≤ M) (hgr : g.rows = M + 1) (hi : i < g.cols)
    (hr : Ad.1.rows = M + 1) (hc : Ad.1.cols = M + 1) (hd : Ad.2.size = M + 1) :
    ∃ A1 d1 A2 Ad3, zeroA M Ad.1 = some A1 ∧ loadD M g i Ad.2 = some d1 ∧
      populateA M sig r q t A1 = some A2 ∧ foldFirst (A2, d1) = some Ad3 ∧
      FwdInv (subD sig r q t M) (diagD sig r q t M) (supD sig r q t M)
        (fun j => g.cell j i) M 1 Ad3 := by
  have a1 : ∀ j, 1 ≤ j → ¬(j = 1 ∧ j + 1 = 0) := fun j hj => by omega
  have a2 : ∀ j, 1 < j → ¬(j = 1 ∧ j = 0) := fun j hj => by omega
  have a3 : ∀ j, 1 < j → ¬(j = 1 ∧ j - 1 = 0) := fun j hj => by omega
  have a4 : ∀ j, 1 < j → j ≠ 1 := fun j hj => by omega
  have a5 : ∀ j, 1 < j → 1 ≤ j := fun j hj => by omega
  obtain ⟨A1, e1, hr1, hc1, hz1⟩ := zeroA_spec M Ad.1 hr hc
  obtain ⟨d1, e2, hd1, hv1⟩ := loadD_spec M g i Ad.2 hgr hi hd
  obtain ⟨A2, e3, hr2, hc2, hdiag, hsub, hsup⟩ := populateA_spec M sig r q t A1 hr1 hc1 hz1
  refine ⟨A1, d1, A2, _, e1, e2, e3, foldFirst_eq M A2 d1 hr2 hc2 hd1 hM, ?_⟩
  refine ⟨by simpa using hr2, by simpa using hc2, by simpa using hd1, ?_, ?_, ?_, ?_, ?_, ?_, ?_⟩
  · intro j hj
    have hj0 : j = 0 := Nat.lt_one_iff.mp hj
    subst hj0
    simp only [Matrix.upd_cell]
    rw [if_neg (by simp), hsup 0 hM, upper_zero, supD_zero]
  · intro j hj1 hj2
    simp only [Matrix.upd_cell]
    rw [if_neg (a1 j hj1)]
    exact hsup j hj2
  · simp only [Matrix.upd_cell]
    rw [if_neg (by simp), hdiag 1 hM]
    simp [pivot, supD_zero]
  · intro j hj1 hj2
    simp only [Matrix.upd_cell]
    rw [if_neg (a2 j hj1), if_neg (a3 j hj1)]
    exact ⟨hdiag j hj2, hsub j (a5 j hj1) hj2⟩
  · intro j hj
    have hj0 : j = 0 := Nat.lt_one_iff.mp hj
    subst hj0
    simp only [Vec.vupd_cell]
    rw [if_neg (by simp), hv1 0 (Nat.zero_le _)]
    rfl
  · simp only [Vec.vupd_cell]
    rw [if_pos (by simp), hv1 1 hM, hv1 0 (Nat.zero_le _), hsub 1 (le_refl _) hM]
    rfl
  · intro j hj1 hj2
    simp only [Vec.vupd_cell]
    rw [if_neg (a4 j hj1)]
    exact hv1 j hj2

/-- Lines 180-233: the solve succeeds and leaves `solved` in `d`. -/
theorem solveColumn_spec (sig r q t : α) (M : ℕ) (g : Matrix α) (i : ℕ)
    (Ad : Matrix α × Vec α) (hM : 1 ≤ M) (hgr : g.rows = M + 1) (hi : i < g.cols)
    (hr : Ad.1.rows = M + 1) (hc : Ad.1.cols = M + 1) (hd : Ad.2.size = M + 1) :
    ∃ Ad', solveColumn sig r q t M g i Ad = some Ad' ∧
      Ad'.1.rows = M + 1 ∧ Ad'.1.cols = M + 1 ∧ Ad'.2.size = M + 1 ∧
      ∀ j, j ≤ M → Ad'.2.cell j = solved sig r q t M (fun j => g.cell j i) j := by
  have a1 : M - 1 < M := by omega
  have a2 : M - 1 + 1 = M := by omega
  have a3 : M - (M - 1) = 0 + 1 := by omega
  have a4 : M ≠ M - 1 := by omega
  have a5 : ∀ j, j < M - 1 → j < M := fun j hj => by omega
  have a6 : ∀ j, j < M - 1 → ¬(j = M - 1 ∧ j + 1 = M) := fun j hj => by omega
  have a7 : ∀ j, j < M - 1 → j ≠ M - 1 := fun j hj => by omega
  have a8 : ∀ j, M - 1 ≤ j → j ≤ M → j ≠ M → j = M - 1 := fun j h1 h2 h3 => by omega
  obtain ⟨A1, d1, A2, Ad3, e1, e2, e3, e4, hF⟩ :=
    prepare_spec sig r q t M g i Ad hM hgr hi hr hc hd
  obtain ⟨Ad4, e5, hF4⟩ := forwardPrefix_spec _ _ _ _ M M Ad3 hM (le_refl _) hF
  obtain ⟨A4, d4⟩ := Ad4
  obtain ⟨hr4, hc4, hd4, h1, _, _, _, h5, h6, _⟩ := hF4
  simp only at hr4 hc4 hd4 h1 h5 h6
  have hB : BackInv (subD sig r q t M) (diagD sig r q t M) (supD sig r q t M)
      (fun j => g.cell j i) M (M - 1)
      (A4.upd (M - 1) M 0, d4.upd (M - 1) (d4.cell (M - 1) - A4.cell (M - 1) M * d4.cell M)) := by
    have hdM : d4.cell M = g.cell M i := by rw [h6, subD_top]; simp
    refine ⟨by simpa using hr4, by simpa using hc4, by simpa using hd4, ?_, ?_, ?_⟩
    · intro j hj
      simp only [Matrix.upd_cell]
      rw [if_neg (a6 j hj)]
      exact h1 j (a5 j hj)
    · intro j hj
      simp only [Vec.vupd_cell]
      rw [if_neg (a7 j hj)]
      exact h5 j (a5 j hj)
    · intro j hj1 hj2
      simp only [Vec.vupd_cell]
      by_cases hjM : j = M
      · subst hjM
        rw [if_neg a4, hdM]
        simp [solution, backVal]
      · have hj' : j = M - 1 := a8 j hj1 hj2 hjM
        subst hj'
        have hA := h1 (M - 1) a1
        rw [a2] at hA
        rw [if_pos (by simp), hA, h5 (M - 1) a1, hdM]
        simp only [solution, a3, backVal]
  obtain ⟨Ad5, e6, hr5, hc5, hd5, _, _, h8⟩ := backPass_spec _ _ _ _ M _ hB
  refine ⟨Ad5, ?_, hr5, hc5, hd5, fun j hj => h8 j (Nat.zero_le _) hj⟩
  simp only [solveColumn, Option.bind_eq_bind, e1, e2, e3, e4, Option.some_bind, forwardPass,
    e5, foldLast_eq M A4 d4 hr4 hc4 hd4, e6]

/-- The value `A(j,j)` read by iteration `j` of the forward pass is `pivot`. -/
theorem pivotAt_eq (sig r q t : α) (M : ℕ) (g : Matrix α) (i : ℕ) (Ad : Matrix α × Vec α)
    (j : ℕ) (hj1 : 1 ≤ j) (hjM : j ≤ M) (hgr : g.rows = M + 1) (hi : i < g.cols)
    (hr : Ad.1.rows = M + 1) (hc : Ad.1.cols = M + 1) (hd : Ad.2.size = M + 1) :
    pivotAt sig r q t M g i Ad j =
      some (pivot (subD sig r q t M) (diagD sig r q t M) (supD sig r q t M) j) := by
  obtain ⟨A1, d1, A2, Ad3, e1, e2, e3, e4, hF⟩ :=
    prepare_spec sig r q t M g i Ad (by omega) hgr hi hr hc hd
  obtain ⟨Ad4, e5, hF4⟩ := forwardPrefix_spec _ _ _ _ M j Ad3 hj1 hjM hF
  obtain ⟨hr4, hc4, _, _, _, h3, _⟩ := hF4
  simp only [pivotAt, Option.bind_eq_bind, e1, e2, e3, e4, Option.some_bind, e5]
  rw [Matrix.read_of_lt _ j j (by omega) (by omega), h3]

/-! ## Clamp and store (lines 235-241) -/

/-- Lines 235-237. -/
theorem clampD_spec (EA CP K s : α) (M : ℕ) (d : Vec α) (hd : d.size = M + 1) :
    ∃ d', clampD EA CP K s M d = some d' ∧ d'.size = M + 1 ∧
      ∀ j, j ≤ M → d'.cell j = clampValue EA CP K s M j (d.cell j) := by
  obtain ⟨d', h, hI⟩ := forUp_spec (fun j (d : Vec α) => do
      let v ← d.read j
      d.write j (clampValue EA CP K s M j v))
    (fun k (d1 : Vec α) => d1.size = M + 1 ∧
      (∀ j, j < k → d1.cell j = clampValue EA CP K s M j (d.cell j)) ∧
      ∀ j, k ≤ j → d1.cell j = d.cell j)
    0 (M + 1) d (Nat.zero_le _) ⟨hd, fun j hj => absurd hj (Nat.not_lt_zero _), fun _ _ => rfl⟩
    (by
      intro k d1 _ hk ⟨h1, h2, h3⟩
      have e1 : k < d1.size := by omega
      refine ⟨d1.upd k (clampValue EA CP K s M k (d1.cell k)), by
        simp [Vec.vread_of_lt, Vec.vwrite_of_lt, e1], h1, ?_, ?_⟩
      · intro j hj
        rw [Vec.vupd_cell]
        by_cases hjk : j = k
        · subst hjk; rw [if_pos rfl, h3 j (le_refl _)]
        · rw [if_neg hjk]; exact h2 j (by omega)
      · intro j hj
        rw [Vec.vupd_cell, if_neg (by omega)]
        exact h3 j (by omega))
  exact ⟨d', h, hI.1, fun j hj => hI.2.1 j (by omega)⟩

/-- Lines 239-241: only the interior cells of column `i-1` change. -/
theorem storeColumn_spec (M i : ℕ) (d : Vec α) (g : Matrix α) (hM : 1 ≤ M)
    (hd : d.size = M + 1) (hr : g.rows = M + 1) (hi : i - 1 < g.cols) :
    ∃ g', storeColumn M i d g = some g' ∧ g'.rows = g.rows ∧ g'.cols = g.cols ∧
      (∀ j, 1 ≤ j → j < M → g'.cell j (i - 1) = d.cell j) ∧
      (∀ j c, ¬(1 ≤ j ∧ j < M ∧ c = i - 1) → g'.cell j c = g.cell j c) := by
  obtain ⟨g', h, hI⟩ := forUp_spec (fun j (g : Matrix α) => do
      let v ← d.read j
      g.write j (i - 1) v)
    (fun k (g1 : Matrix α) => g1.rows = g.rows ∧ g1.cols = g.cols ∧
      (∀ j, 1 ≤ j → j < k → g1.cell j (i - 1) = d.cell j) ∧
      (∀ j c, ¬(1 ≤ j ∧ j < k ∧ c = i - 1) → g1.cell j c = g.cell j c))
    1 M g hM ⟨rfl, rfl, fun j h1 h2 => absurd h2 (by omega), fun _ _ _ => rfl⟩
    (by
      intro k g1 hk1 hkM ⟨h1, h2, h3, h4⟩
      have e1 : k < d.size := by omega
      have e2 : k < g1.rows := by omega
      have e3 : i - 1 < g1.cols := by omega
      refine ⟨g1.upd k (i - 1) (d.cell k), by
        simp [Vec.vread_of_lt, Matrix.write_of_lt, e1, e2, e3], by simpa using h1,
        by simpa using h2, ?_, ?_⟩
      · intro j hj1 hj2
        rw [Matrix.upd_cell]
        by_cases hjk : j = k
        · subst hjk; rw [if_pos ⟨rfl, rfl⟩]
        · rw [if_neg (by omega)]; exact h3 j hj1 (by omega)
      · intro j c hjc
        rw [Matrix.upd_cell, if_neg (by omega)]
        exact h4 j c (by omega))
  exact ⟨g', h, hI⟩

/-- Lines 179-241: one backward step succeeds, writes the clamped solution of column `i`
into the interior of column `i-1`, and changes no other cell of the grid. -/
theorem backwardStep_spec (EA CP K sig r q s t : α) (M N i : ℕ) (w : Work α)
    (hM : 1 ≤ M) (hi : i ≤ N)
    (hgr : w.g.rows = M + 1) (hgc : w.g.cols = N + 1) (hAr : w.A.rows = M + 1)
    (hAc : w.A.cols = M + 1) (hd : w.d.size = M + 1) :
    ∃ w', backwardStep EA CP K sig r q s t M i w = some w' ∧
      w'.g.rows = M + 1 ∧ w'.g.cols = N + 1 ∧ w'.A.rows = M + 1 ∧ w'.A.cols = M + 1 ∧
      w'.d.size = M + 1 ∧
      (∀ j, 1 ≤ j → j < M → w'.g.cell j (i - 1) =
        clampValue EA CP K s M j (solved sig r q t M (fun j => w.g.cell j i) j)) ∧
      (∀ j c, ¬(1 ≤ j ∧ j < M ∧ c = i - 1) → w'.g.cell j c = w.g.cell j c) := by
  have a1 : i < w.g.cols := by omega
  have a2 : i - 1 < w.g.cols := by omega
  obtain ⟨Ad, e1, hr1, hc1, hd1, hv1⟩ := solveColumn_spec sig r q t M w.g i (w.A, w.d) hM hgr
    a1 hAr hAc hd
  obtain ⟨d2, e2, hd2, hv2⟩ := clampD_spec EA CP K s M Ad.2 hd1
  obtain ⟨g3, e3, hr3, hc3, hv3, hf3⟩ := storeColumn_spec M i d2 w.g hM hd2 hgr a2
  refine ⟨⟨g3, Ad.1, d2⟩, ?_, hr3.trans hgr, hc3.trans hgc, hr1, hc1, hd2, ?_, hf3⟩
  · simp only [backwardStep, Option.bind_eq_bind, e1, Option.some_bind, e2, e3]
    rfl
  · intro j hj1 hj2
    rw [hv3 j hj1 hj2, hv2 j (Nat.le_of_lt hj2), hv1 j (Nat.le_of_lt hj2)]

/-! ## Grid sizing (lines 133-140) -/

theorem adjM_facts (M0 : ℕ) (h : 5 ≤ M0) :
    5 ≤ adjM M0 ∧ adjM M0 % 5 = 0 ∧ adjM M0 ≤ M0 := by
  unfold adjM mult
  omega

theorem spotRow_interior (M : ℕ) (h : 5 ≤ M) : 1 ≤ spotRow M ∧ spotRow M ≤ M - 1 := by
  unfold spotRow mult
  omega

theorem rowPrice_spotRow (M : ℕ) (S : α) (h5 : 5 ≤ M) (hdiv : M % 5 = 0) :
    rowPrice M (spotRow M) ((mult : α) * S / (M : α)) = S := by
  obtain ⟨k, rfl⟩ : ∃ k, M = 5 * k := ⟨M / 5, by omega⟩
  have hk : (k : α) ≠ 0 := by
    have : 0 < k := by omega
    exact_mod_cast this.ne'
  have e : spotRow (5 * k) = 4 * k := by unfold spotRow mult; omega
  rw [rowPrice, e]
  simp only [mult]
  push_cast
  field_simp
  ring

/-! ## The columns of the grid -/

theorem dnorm_congr (a b c rhs rhs' : ℕ → α) (M : ℕ) (h : ∀ j, j ≤ M → rhs j = rhs' j) :
    ∀ j, j ≤ M → dnorm a b c rhs j = dnorm a b c rhs' j := by
  intro j
  induction j with
  | zero => intro _; simp [dnorm, h 0 (Nat.zero_le _)]
  | succ j ih => intro hj; simp [dnorm, h (j + 1) hj, ih (by omega)]

theorem backVal_congr (a b c rhs rhs' : ℕ → α) (M : ℕ) (h : ∀ j, j ≤ M → rhs j = rhs' j) :
    ∀ k, backVal a b c rhs M k = backVal a b c rhs' M k := by
  intro k
  induction k with
  | zero => simp [backVal, h M (le_refl _)]
  | succ k ih => simp [backVal, ih, dnorm_congr a b c rhs rhs' M h (M - (k + 1)) (by omega)]

/-- The solution depends on the right-hand side through rows `0..M` only. -/
theorem solved_congr (sig r q t : α) (M : ℕ) (rhs rhs' : ℕ → α)
    (h : ∀ j, j ≤ M → rhs j = rhs' j) (j : ℕ) :
    solved sig r q t M rhs j = solved sig r q t M rhs' j :=
  backVal_congr _ _ _ rhs rhs' M h (M - j)

theorem colK_top (expf : α → α) (EA CP K T sig r q Smax s t : α) (M N k : ℕ) :
    colK expf EA CP K T sig r q Smax s t M N k 0 = topValue expf CP K T r q Smax t (N - k) := by
  cases k <;> simp [colK]

theorem colK_bottom (expf : α → α) (EA CP K T sig r q Smax s t : α) (M N k : ℕ)
    (hM : M ≠ 0) :
    colK expf EA CP K T sig r q Smax s t M N k M = bottomValue expf CP K T r q t (N - k) := by
  cases k <;> simp [colK, hM]

/-! ## The backward loop and the whole solver -/

/-- One backward step keeps the sweep invariant. -/
theorem sweep_step (expf : α → α) (EA CP K T sig r q Smax s t : α) (M N i : ℕ) (w1 : Work α)
    (hM : 1 ≤ M) (hi1 : 1 ≤ i) (hiN : i ≤ N)
    (hI : SweepInv expf EA CP K T sig r q Smax s t M N i w1) :
    ∃ w2, backwardStep EA CP K sig r q s t M i w1 = some w2 ∧
      SweepInv expf EA CP K T sig r q Smax s t M N (i - 1) w2 := by
  have hn : N - (i - 1) = (N - i) + 1 := by omega
  have hn' : N - (N - i) = i := by omega
  have hc1 : ∀ c, i - 1 ≤ c → c ≠ i - 1 → i ≤ c := fun c h1 h2 => by omega
  obtain ⟨h1, h2, h3, h4, h5, h6, h7, h8⟩ := hI
  obtain ⟨w2, e, k1, k2, k3, k4, k5, k6, k7⟩ :=
    backwardStep_spec EA CP K sig r q s t M N i w1 hM hiN h1 h2 h3 h4 h5
  have hM0 : M ≠ 0 := Nat.one_le_iff_ne_zero.mp hM
  refine ⟨w2, e, k1, k2, k3, k4, k5, ?_, ?_, ?_⟩
  · intro c hc; rw [k7 0 c (fun h => absurd h.1 (by decide))]; exact h6 c hc
  · intro c hc; rw [k7 M c (fun h => absurd h.2.1 (lt_irrefl M))]; exact h7 c hc
  · intro c hci hcN j hj1 hj2
    have hj0 : j ≠ 0 := Nat.one_le_iff_ne_zero.mp hj1
    have hjM : j ≠ M := Nat.ne_of_lt hj2
    by_cases hc : c = i - 1
    · subst hc
      rw [k6 j hj1 hj2, hn, colK, if_neg hj0, if_neg hjM]
      congr 1
      apply solved_congr
      intro j' hj'
      rcases Nat.eq_zero_or_pos j' with h0 | h0
      · subst h0
        rw [h6 i hiN, colK_top, hn']
      · rcases Nat.lt_or_ge j' M with hlt | hge
        · rw [h8 i (le_refl _) hiN j' h0 hlt]
        · have : j' = M := Nat.le_antisymm hj' hge
          subst this
          rw [h7 i hiN, colK_bottom _ _ _ _ _ _ _ _ _ _ _ _ _ _ hM0, hn']
    · rw [k7 j c (fun h => hc h.2.2)]
      exact h8 c (hc1 c hci hc) hcN j hj1 hj2

/-- Lines 177-242: after the backward loop the interior of column `0` is `colK N`. -/
theorem sweep_spec (expf : α → α) (EA CP K T sig r q Smax s t : α) (M N : ℕ) (w : Work α)
    (hM : 1 ≤ M) (hI : SweepInv expf EA CP K T sig r q Smax s t M N N w) :
    ∃ w', forDown (backwardStep EA CP K sig r q s t M) N w = some w' ∧
      SweepInv expf EA CP K T sig r q Smax s t M N 0 w' := by
  obtain ⟨w', h, hI'⟩ := forDown_spec (backwardStep EA CP K sig r q s t M)
    (fun i (w1 : Work α) => i ≤ N → SweepInv expf EA CP K T sig r q Smax s t M N i w1)
    N w (fun _ => hI)
    (by
      intro i w1 hi1 hiN hI1
      obtain ⟨w2, e, hI2⟩ := sweep_step expf EA CP K T sig r q Smax s t M N i w1 hM hi1 hiN
        (hI1 hiN)
      exact ⟨w2, e, fun _ => hI2⟩)
  exact ⟨w', h, hI' (Nat.zero_le _)⟩

/-- Lines 157-159: only the interior cells of column `N` change. -/
theorem setTerminal_spec (CP K s : α) (M N : ℕ) (g : Matrix α) (hM : 1 ≤ M)
    (hr : g.rows = M + 1) (hc : g.cols = N + 1) :
    ∃ g', setTerminal CP K s M N g = some g' ∧ g'.rows = M + 1 ∧ g'.cols = N + 1 ∧
      (∀ j, 1 ≤ j → j < M → g'.cell j N = payoff CP K (rowPrice M j s)) ∧
      (∀ j c, ¬(1 ≤ j ∧ j < M ∧ c = N) → g'.cell j c = g.cell j c) := by
  obtain ⟨g', h, hI⟩ := forUp_spec
    (fun i (g : Matrix α) => g.write i N (payoff CP K (rowPrice M i s)))
    (fun k (g1 : Matrix α) => g1.rows = M + 1 ∧ g1.cols = N + 1 ∧
      (∀ j, 1 ≤ j → j < k → g1.cell j N = payoff CP K (rowPrice M j s)) ∧
      (∀ j c, ¬(1 ≤ j ∧ j < k ∧ c = N) → g1.cell j c = g.cell j c))
    1 M g hM ⟨hr, hc, fun j h1 h2 => absurd h2 (by omega), fun _ _ _ => rfl⟩
    (by
      intro k g1 hk1 hkM ⟨h1, h2, h3, h4⟩
      refine ⟨g1.upd k N (payoff CP K (rowPrice M k s)),
        Matrix.write_of_lt g1 k N _ (by omega) (by omega), by simpa using h1,
        by simpa using h2, ?_, ?_⟩
      · intro j hj1 hj2
        rw [Matrix.upd_cell]
        by_cases hjk : j = k
        · subst hjk; rw [if_pos ⟨rfl, rfl⟩]
        · rw [if_neg (by omega)]; exact h3 j hj1 (by omega)
      · intro j c hjc
        rw [Matrix.upd_cell, if_neg (by omega)]
        exact h4 j c (by omega))
  exact ⟨g', h, hI⟩

theorem anchorSpot_eq (CP S K : α) (M N : ℕ) (g : Matrix α)
    (hr : g.rows = M + 1) (hc : g.cols = N + 1) :
    anchorSpot CP S K M N g =
      some ((g.upd (M - M / mult) 0 S).upd (M - M / mult) N (payoff CP K S)) := by
  have e1 : M - M / mult < g.rows := by unfold mult; omega
  have e2 : 0 < g.cols := by omega
  have e3 : N < g.cols := by omega
  simp [anchorSpot, Matrix.write_of_lt, e1, e2, e3]

/-- Lines 143-165: after the set-up the sweep invariant holds at column `N`. -/
theorem setup_spec (anchor : Bool) (expf : α → α) (EA CP S K T sig r q t : α) (M N : ℕ)
    (h5 : 5 ≤ M) (hdiv : M % 5 = 0) :
    ∃ g1 g2 g3 g4, zeroGrid M N (Matrix.alloc (M + 1) (N + 1)) = some g1 ∧
      setBoundary expf CP K T r q ((mult : α) * S) t M N g1 = some g2 ∧
      setTerminal CP K ((mult : α) * S / (M : α)) M N g2 = some g3 ∧
      (if anchor then anchorSpot CP S K M N g3 else some g3) = some g4 ∧
      SweepInv expf EA CP K T sig r q ((mult : α) * S) ((mult : α) * S / (M : α)) t M N N
        ⟨g4, Matrix.alloc (M + 1) (M + 1), Vec.alloc (M + 1)⟩ := by
  obtain ⟨g1, e1, r1, c1, z1⟩ := zeroGrid_spec M N (Matrix.alloc (M + 1) (N + 1) : Matrix α)
    rfl rfl
  obtain ⟨g2, e2, r2, c2, f2, b2⟩ :=
    setBoundary_spec expf CP K T r q ((mult : α) * S) t M N g1 r1 c1
  obtain ⟨g3, e3, r3, c3, v3, f3⟩ :=
    setTerminal_spec CP K ((mult : α) * S / (M : α)) M N g2 (by omega) r2 c2
  have hsp := spotRow_interior M h5
  have hsp' : M - M / mult = spotRow M := rfl
  have htop3 : ∀ c, c ≤ N → g3.cell 0 c = topValue expf CP K T r q ((mult : α) * S) t c := by
    intro c hc
    rw [f3 0 c (by omega), (b2 (by omega) c hc).1, z1 0 c (by omega) hc, zero_add]
  have hbot3 : ∀ c, c ≤ N → g3.cell M c = bottomValue expf CP K T r q t c := by
    intro c hc
    rw [f3 M c (by omega), (b2 (by omega) c hc).2, z1 M c (by omega) hc, zero_add]
  cases anchor with
  | false =>
    refine ⟨g1, g2, g3, g3, e1, e2, e3, rfl, r3, c3, rfl, rfl, rfl, htop3, hbot3, ?_⟩
    intro c hc1 hc2 j hj1 hj2
    have hcN : c = N := Nat.le_antisymm hc2 hc1
    subst hcN
    have hj0 : j ≠ 0 := by omega
    have hjM : j ≠ M := by omega
    simp only [Nat.sub_self, colK, if_neg hj0, if_neg hjM]
    exact v3 j hj1 hj2
  | true =>
    refine ⟨g1, g2, g3, _, e1, e2, e3, anchorSpot_eq CP S K M N g3 r3 c3, by simpa using r3,
      by simpa using c3, rfl, rfl, rfl, ?_, ?_, ?_⟩
    · intro c hc
      simp only [Matrix.upd_cell, hsp']
      rw [if_neg (by omega), if_neg (by omega)]
      exact htop3 c hc
    · intro c hc
      simp only [Matrix.upd_cell, hsp']
      rw [if_neg (by omega), if_neg (by omega)]
      exact hbot3 c hc
    · intro c hc1 hc2 j hj1 hj2
      have hcN : c = N := Nat.le_antisymm hc2 hc1
      subst hcN
      have hj0 : j ≠ 0 := by omega
      have hjM : j ≠ M := by omega
      by_cases hjs : j = spotRow M
      · subst hjs
        simp [colK, hj0, hjM, Matrix.upd_cell, hsp', rowPrice_spotRow M S h5 hdiv]
      · simp only [Nat.sub_self, colK, if_neg hj0, if_neg hjM, Matrix.upd_cell, hsp']
        rw [if_neg (by tauto), if_neg (by tauto)]
        exact v3 j hj1 hj2

/-- For at least five price steps the backward loop finishes; in the final grid the
boundary rows hold the boundary values and column `c` holds `colK (N - c)`. -/
theorem fdmGrid_spec (anchor : Bool) (expf : α → α) (EA CP S K T sig r q : α) (M0 N : ℕ)
    (hM : 5 ≤ M0) :
    ∃ g, fdmGrid anchor expf EA CP S K T sig r q M0 N = some g ∧
      g.rows = adjM M0 + 1 ∧ g.cols = N + 1 ∧
      (∀ c, c ≤ N → g.cell 0 c =
        topValue expf CP K T r q ((mult : α) * S) (T / (N : α)) c) ∧
      (∀ c, c ≤ N → g.cell (adjM M0) c = bottomValue expf CP K T r q (T / (N : α)) c) ∧
      (∀ c, c ≤ N → ∀ j, 1 ≤ j → j < adjM M0 → g.cell j c =
        colK expf EA CP K T sig r q ((mult : α) * S) ((mult : α) * S / (adjM M0 : α))
          (T / (N : α)) (adjM M0) N (N - c) j) := by
  obtain ⟨h5, hdiv, _⟩ := adjM_facts M0 hM
  have h1 : 1 ≤ adjM M0 := by omega
  cases anchor with
  | false =>
    obtain ⟨g1, g2, g3, g4, e1, e2, e3, e4, hI⟩ :=
      setup_spec false expf EA CP S K T sig r q (T / (N : α)) (adjM M0) N h5 hdiv
    obtain ⟨w', e5, r5, c5, _, _, _, t5, b5, v5⟩ := sweep_spec expf EA CP K T sig r q
      ((mult : α) * S) ((mult : α) * S / (adjM M0 : α)) (T / (N : α)) (adjM M0) N _ h1 hI
    simp only [Bool.false_eq_true, if_false, if_true] at e4
    refine ⟨w'.g, ?_, r5, c5, t5, b5, fun c hc => v5 c (Nat.zero_le _) hc⟩
    simp only [fdmGrid, Option.bind_eq_bind, e1, e2, e3, e4, Option.some_bind, e5,
      Bool.false_eq_true, if_false, if_true]
    rfl
  | true =>
    obtain ⟨g1, g2, g3, g4, e1, e2, e3, e4, hI⟩ :=
      setup_spec true expf EA CP S K T sig r q (T / (N : α)) (adjM M0) N h5 hdiv
    obtain ⟨w', e5, r5, c5, _, _, _, t5, b5, v5⟩ := sweep_spec expf EA CP K T sig r q
      ((mult : α) * S) ((mult : α) * S / (adjM M0 : α)) (T / (N : α)) (adjM M0) N _ h1 hI
    simp only [Bool.false_eq_true, if_false, if_true] at e4
    refine ⟨w'.g, ?_, r5, c5, t5, b5, fun c hc => v5 c (Nat.zero_le _) hc⟩
    simp only [fdmGrid, Option.bind_eq_bind, e1, e2, e3, e4, Option.some_bind, e5,
      Bool.false_eq_true, if_false, if_true]
    rfl

/-- For at least five price steps the solver returns, and what it returns is `gridPrice`:
the clamped solution of the last backward step at the spot row (or the pay-off at `S`
when there is no step). -/
theorem fdmCore_eq (anchor : Bool) (expf : α → α) (EA CP S K T sig r q : α) (M0 N : ℕ)
    (hM : 5 ≤ M0) :
    fdmCore anchor expf EA CP S K T sig r q M0 N =
      some (gridPrice expf EA CP S K T sig r q M0 N) := by
  obtain ⟨h5, _, _⟩ := adjM_facts M0 hM
  have hsp := spotRow_interior (adjM M0) h5
  have a1 : spotRow (adjM M0) < adjM M0 + 1 := by omega
  have a2 : spotRow (adjM M0) < adjM M0 := by omega
  obtain ⟨g, e, hr, hc, _, _, hv⟩ := fdmGrid_spec anchor expf EA CP S K T sig r q M0 N hM
  simp only [fdmCore, Option.bind_eq_bind, e, Option.some_bind]
  rw [Matrix.read_of_lt _ _ _ (hr ▸ a1) (hc ▸ Nat.succ_pos N), hv 0 (Nat.zero_le _) _ hsp.1 a2]
  rfl

/-! ## The Thomas recurrences solve the tridiagonal system -/

theorem solution_top (a b c rhs : ℕ → α) (M : ℕ) : solution a b c rhs M M = rhs M := by
  simp [solution, backVal]

theorem solution_step (a b c rhs : ℕ → α) (M j : ℕ) (hj : j < M) :
    solution a b c rhs M j =
      dnorm a b c rhs j - upper a b c j * solution a b c rhs M (j + 1) := by
  have e1 : M - j = (M - (j + 1)) + 1 := by omega
  have e2 : M - (M - (j + 1) + 1) = j := by omega
  simp only [solution]
  rw [e1, backVal, e2]

theorem solution_zero (a b c rhs : ℕ → α) (M : ℕ) (hM : 0 < M) (hc : c 0 = 0) :
    solution a b c rhs M 0 = rhs 0 := by
  rw [solution_step a b c rhs M 0 hM]
  simp [upper, hc, dnorm]

/-- The interior equations hold for the computed solution when the pivot is not zero. -/
theorem solution_eqn (a b c rhs : ℕ → α) (M j : ℕ) (hj1 : 1 ≤ j) (hjM : j < M)
    (hp : pivot a b c j ≠ 0) :
    a j * solution a b c rhs M (j - 1) + b j * solution a b c rhs M j +
      c j * solution a b c rhs M (j + 1) = rhs j := by
  obtain ⟨k, rfl⟩ : ∃ k, j = k + 1 := ⟨j - 1, by omega⟩
  have hk : k < M := by omega
  simp only [Nat.add_sub_cancel]
  rw [solution_step a b c rhs M k hk, solution_step a b c rhs M (k + 1) hjM]
  have hpiv : pivot a b c (k + 1) = b (k + 1) - a (k + 1) * upper a b c k := rfl
  have hup : upper a b c (k + 1) = c (k + 1) * (1 / pivot a b c (k + 1)) := rfl
  have hdn : dnorm a b c rhs (k + 1) =
      (rhs (k + 1) - a (k + 1) * dnorm a b c rhs k) * (1 / pivot a b c (k + 1)) := rfl
  rw [hup, hdn]
  generalize solution a b c rhs M (k + 1 + 1) = Y
  generalize dnorm a b c rhs k = D at *
  generalize upper a b c k = U at *
  generalize pivot a b c (k + 1) = p at *
  have hb : b (k + 1) = p + a (k + 1) * U := by rw [hpiv]; ring
  rw [hb]
  field_simp
  ring

/-! ## Shape of the returned price -/

theorem clampValue_call (EA K s : α) (M j : ℕ) (v : α) :
    clampValue EA 0 K s M j v = max v (EA * (rowPrice M j s - K)) := by
  simp [clampValue]

theorem clampValue_put (EA K s : α) (M j : ℕ) (v : α) :
    clampValue EA 1 K s M j v = max v (EA * (K - rowPrice M j s)) := by
  simp [clampValue]

/-- With at least one time step the returned price is the clamp of the value solved for
the spot row in the last backward step. -/
theorem gridPrice_last (expf : α → α) (EA CP S K T sig r q : α) (M0 N : ℕ)
    (hM : 5 ≤ M0) (hN : 1 ≤ N) :
    gridPrice expf EA CP S K T sig r q M0 N =
      clampValue EA CP K ((mult : α) * S / (adjM M0 : α)) (adjM M0) (spotRow (adjM M0))
        (solved sig r q (T / (N : α)) (adjM M0)
          (colK expf EA CP K T sig r q ((mult : α) * S) ((mult : α) * S / (adjM M0 : α))
            (T / (N : α)) (adjM M0) N (N - 1)) (spotRow (adjM M0))) := by
  obtain ⟨h5, _, _⟩ := adjM_facts M0 hM
  have hsp := spotRow_interior (adjM M0) h5
  have h0 : spotRow (adjM M0) ≠ 0 := by omega
  have h1 : spotRow (adjM M0) ≠ adjM M0 := by omega
  obtain ⟨n, rfl⟩ : ∃ n, N = n + 1 := ⟨N - 1, by omega⟩
  simp only [gridPrice, colK, if_neg h0, if_neg h1, Nat.add_sub_cancel]

/-- In a grid without interior rows the first fold of the solve reads outside `d`. -/
theorem fdmCore_small (anchor : Bool) (expf : α → α) (EA CP S K T sig r q : α) (M0 N : ℕ)
    (hM : M0 < 5) (hN : 1 ≤ N) :
    fdmCore anchor expf EA CP S K T sig r q M0 N = none := by
  have hadj : adjM M0 = 0 := by unfold adjM mult; omega
  obtain ⟨n, rfl⟩ : ∃ n, N = n + 1 := ⟨N - 1, by omega⟩
  have hn : n + 1 < n + 1 + 1 := by omega
  obtain ⟨g1, e1, r1, c1, _⟩ :=
    zeroGrid_spec 0 (n + 1) (Matrix.alloc (0 + 1) (n + 1 + 1) : Matrix α) rfl rfl
  obtain ⟨g2, e2, r2, c2, _, _⟩ := setBoundary_spec expf CP K T r q ((mult : α) * S)
    (T / ((n + 1 : ℕ) : α)) 0 (n + 1) g1 r1 c1
  have e3 : ∀ s : α, setTerminal CP K s 0 (n + 1) g2 = some g2 :=
    fun s => forUp_of_le _ 1 0 g2 (by decide)
  have key : ∀ (g : Matrix α) (s : α), g.rows = 0 + 1 → g.cols = n + 1 + 1 →
      forDown (backwardStep EA CP K sig r q s (T / ((n + 1 : ℕ) : α)) 0) (n + 1)
        ⟨g, Matrix.alloc (0 + 1) (0 + 1), Vec.alloc (0 + 1)⟩ = none := by
    intro g s hr hc
    obtain ⟨A1, f1, hr1, hc1, hz1⟩ :=
      zeroA_spec 0 (Matrix.alloc (0 + 1) (0 + 1) : Matrix α) rfl rfl
    obtain ⟨d1, f2, hd1, _⟩ := loadD_spec 0 g (n + 1) (Vec.alloc (0 + 1) : Vec α) hr
      (hc ▸ hn) rfl
    obtain ⟨A2, f3, _, _, _, _, _⟩ :=
      populateA_spec 0 sig r q (T / ((n + 1 : ℕ) : α)) A1 hr1 hc1 hz1
    have f4 : foldFirst (A2, d1) = none := by
      simp [foldFirst, Vec.vread_of_le d1 1 (by rw [hd1])]
    simp only [forDown, backwardStep, solveColumn, Option.bind_eq_bind, f1, f2, f3, f4,
      Option.some_bind, Option.none_bind]
  cases anchor with
  | false =>
    simp only [fdmCore, fdmGrid, hadj, Option.bind_eq_bind, e1, e2, e3, Option.some_bind,
      Bool.false_eq_true, if_false]
    rw [key g2 _ r2 c2]
    rfl
  | true =>
    simp only [fdmCore, fdmGrid, hadj, Option.bind_eq_bind, e1, e2, e3, Option.some_bind,
      if_true, anchorSpot_eq CP S K 0 (n + 1) g2 r2 c2]
    rw [key _ _ (by simpa using r2) (by simpa using c2)]
    rfl

/-! ## Monotonicity of the solve under diagonal dominance -/

/-- Under diagonal dominance every pivot is at least `ρ - c j > 0` and the scaled
super-diagonal lies in `[-1, 0]`. -/
theorem pivot_upper_bounds (a b c : ℕ → α) (M : ℕ) (ρ : α) (h : DiagDominant a b c M ρ) :
    ∀ j, j < M → (1 ≤ j → ρ - c j ≤ pivot a b c j ∧ 0 < pivot a b c j) ∧
      -1 ≤ upper a b c j ∧ upper a b c j ≤ 0 := by
  obtain ⟨hρ, hc0, hco⟩ := h
  intro j
  induction j with
  | zero =>
    intro _
    refine ⟨fun h1 => absurd h1 (by decide), ?_, ?_⟩ <;> simp [upper, hc0]
  | succ j ih =>
    intro hj
    obtain ⟨_, hu1, hu2⟩ := ih (by omega)
    obtain ⟨ha, hc, hb⟩ := hco (j + 1) (by omega) hj
    have hpiv : pivot a b c (j + 1) = b (j + 1) - a (j + 1) * upper a b c j := rfl
    have hup : upper a b c (j + 1) = c (j + 1) * (1 / pivot a b c (j + 1)) := rfl
    have h1 : 0 ≤ -a (j + 1) * (1 + upper a b c j) :=
      mul_nonneg (by linarith) (by linarith)
    have hp : ρ - c (j + 1) ≤ pivot a b c (j + 1) := by rw [hpiv]; nlinarith
    have hp0 : 0 < pivot a b c (j + 1) := by linarith
    refine ⟨fun _ => ⟨hp, hp0⟩, ?_, ?_⟩
    · rw [hup, mul_one_div, le_div_iff₀ hp0]; linarith
    · rw [hup, mul_one_div]
      exact div_nonpos_of_nonpos_of_nonneg hc hp0.le

theorem dnorm_mono (a b c rhs rhs' : ℕ → α) (M : ℕ) (ρ : α) (h : DiagDominant a b c M ρ)
    (hle : ∀ j, j ≤ M → rhs j ≤ rhs' j) :
    ∀ j, j < M → dnorm a b c rhs j ≤ dnorm a b c rhs' j := by
  intro j
  induction j with
  | zero => intro _; exact hle 0 (Nat.zero_le _)
  | succ j ih =>
    intro hj
    have ih' := ih (by omega)
    obtain ⟨ha, _, _⟩ := h.2.2 (j + 1) (by omega) hj
    obtain ⟨hp, _, _⟩ := pivot_upper_bounds a b c M ρ h (j + 1) hj
    have hp0 := (hp (by omega)).2
    have hr := hle (j + 1) (by omega)
    simp only [dnorm]
    apply mul_le_mul_of_nonneg_right _ (by positivity)
    nlinarith

theorem backVal_mono (a b c rhs rhs' : ℕ → α) (M : ℕ) (ρ : α) (h : DiagDominant a b c M ρ)
    (hle : ∀ j, j ≤ M → rhs j ≤ rhs' j) :
    ∀ k, k ≤ M → backVal a b c rhs M k ≤ backVal a b c rhs' M k := by
  intro k
  induction k with
  | zero => intro _; exact hle M (le_refl _)
  | succ k ih =>
    intro hk
    have ih' := ih (by omega)
    have hj : M - (k + 1) < M := by omega
    obtain ⟨_, _, hu⟩ := pivot_upper_bounds a b c M ρ h (M - (k + 1)) hj
    have hd := dnorm_mono a b c rhs rhs' M ρ h hle (M - (k + 1)) hj
    simp only [backVal]
    nlinarith

/-- A larger right-hand side gives a larger solution, row by row. -/
theorem solution_mono (a b c rhs rhs' : ℕ → α) (M : ℕ) (ρ : α) (h : DiagDominant a b c M ρ)
    (hle : ∀ j, j ≤ M → rhs j ≤ rhs' j) (j : ℕ) :
    solution a b c rhs M j ≤ solution a b c rhs' M j :=
  backVal_mono a b c rhs rhs' M ρ h hle (M - j) (Nat.sub_le M j)

theorem solution_of_zero (a b c : ℕ → α) (M j : ℕ) :
    solution a b c (fun _ => 0) M j = 0 := by
  have hd : ∀ i, dnorm a b c (fun _ => (0 : α)) i = 0 := by
    intro i
    induction i with
    | zero => rfl
    | succ i ih => simp [dnorm, ih]
  have hb : ∀ k, backVal a b c (fun _ => (0 : α)) M k = 0 := by
    intro k
    induction k with
    | zero => rfl
    | succ k ih => simp [backVal, ih, hd]
  exact hb (M - j)

/-- A non-negative right-hand side gives a non-negative solution. -/
theorem solution_nonneg (a b c rhs : ℕ → α) (M : ℕ) (ρ : α) (h : DiagDominant a b c M ρ)
    (h0 : ∀ j, j ≤ M → 0 ≤ rhs j) (j : ℕ) : 0 ≤ solution a b c rhs M j := by
  have := solution_mono a b c (fun _ => 0) rhs M ρ h h0 j
  rwa [solution_of_zero] at this

/-- The coefficients of the source are diagonally dominant when `sig² ≥ |r - q|`,
`t ≥ 0` and `1 + r t > 0`. -/
theorem coeff_diagDominant (sig r q t : α) (M : ℕ) (ht : 0 ≤ t) (hsig : |r - q| ≤ sig ^ 2)
    (hr : 0 < 1 + r * t) :
    DiagDominant (subD sig r q t M) (diagD sig r q t M) (supD sig r q t M) M (1 + r * t) := by
  refine ⟨hr, supD_zero sig r q t M, ?_⟩
  intro j hj1 hj2
  have hm : (1 : α) ≤ (M : α) - (j : α) := by
    have : j + 1 ≤ M := hj2
    have h' : ((j + 1 : ℕ) : α) ≤ (M : α) := by exact_mod_cast this
    push_cast at h'
    linarith
  obtain ⟨h1, h2⟩ := abs_le.mp hsig
  have hs0 : 0 ≤ sig ^ 2 := sq_nonneg sig
  have hm0 : 0 ≤ (M : α) - (j : α) := by linarith
  have e1 : 0 ≤ (r - q) + sig ^ 2 * ((M : α) - (j : α)) := by nlinarith
  have e2 : 0 ≤ sig ^ 2 * ((M : α) - (j : α)) - (r - q) := by nlinarith
  have e3 : 0 ≤ t * ((M : α) - (j : α)) := mul_nonneg ht hm0
  simp only [subD, diagD, supD, hj1, hj2, and_self, if_true, aj, bj, cj]
  refine ⟨?_, ?_, ?_⟩
  · have := mul_nonneg e3 e1
    nlinarith
  · have := mul_nonneg e3 e2
    nlinarith
  · apply le_of_eq
    ring

/-! ## Comparison of grids -/

theorem rowPrice_mono (M j : ℕ) (s1 s2 : α) (hj : j ≤ M) (hs : s1 ≤ s2) :
    rowPrice M j s1 ≤ rowPrice M j s2 := by
  have h : (0 : α) ≤ (M : α) - (j : α) := by
    have : (j : α) ≤ (M : α) := by exact_mod_cast hj
    linarith
  exact mul_le_mul_of_nonneg_left hs h

/-- Call grids are ordered like their spots when the solve is monotone. -/
theorem colK_mono_call (expf : α → α) (EA K T sig r q Smax1 Smax2 s1 s2 t ρ : α) (M N : ℕ)
    (hD : DiagDominant (subD sig r q t M) (diagD sig r q t M) (supD sig r q t M) M ρ)
    (hEA : 0 ≤ EA) (hS : Smax1 ≤ Smax2) (hs : s1 ≤ s2) :
    ∀ k j, j ≤ M → colK expf EA 0 K T sig r q Smax1 s1 t M N k j ≤
      colK expf EA 0 K T sig r q Smax2 s2 t M N k j := by
  intro k
  induction k with
  | zero =>
    intro j hj
    have hrp := rowPrice_mono M j s1 s2 hj hs
    simp only [colK]
    split_ifs
    · simp only [topValue]; linarith
    · exact le_refl _
    · simp only [payoff, sub_zero, one_mul, zero_mul, add_zero]
      exact max_le_max (by linarith) (le_refl _)
  | succ k ih =>
    intro j hj
    have hrp := rowPrice_mono M j s1 s2 hj hs
    simp only [colK]
    split_ifs
    · simp only [topValue]; linarith
    · exact le_refl _
    · rw [clampValue_call, clampValue_call]
      exact max_le_max (solution_mono _ _ _ _ _ M ρ hD ih j)
        (mul_le_mul_of_nonneg_left (by linarith) hEA)

/-- Put grids are ordered against their spots when the solve is monotone. -/
theorem colK_anti_put (expf : α → α) (EA K T sig r q Smax1 Smax2 s1 s2 t ρ : α) (M N : ℕ)
    (hD : DiagDominant (subD sig r q t M) (diagD sig r q t M) (supD sig r q t M) M ρ)
    (hEA : 0 ≤ EA) (hs : s1 ≤ s2) :
    ∀ k j, j ≤ M → colK expf EA 1 K T sig r q Smax2 s2 t M N k j ≤
      colK expf EA 1 K T sig r q Smax1 s1 t M N k j := by
  intro k
  induction k with
  | zero =>
    intro j hj
    have hrp := rowPrice_mono M j s1 s2 hj hs
    simp only [colK]
    split_ifs
    · simp [topValue]
    · exact le_refl _
    · simp only [payoff, sub_self, zero_mul, one_mul, zero_add]
      exact max_le_max (by linarith) (le_refl _)
  | succ k ih =>
    intro j hj
    have hrp := rowPrice_mono M j s1 s2 hj hs
    simp only [colK]
    split_ifs
    · simp [topValue]
    · exact le_refl _
    · rw [clampValue_put, clampValue_put]
      exact max_le_max (solution_mono _ _ _ _ _ M ρ hD ih j)
        (mul_le_mul_of_nonneg_left (by linarith) hEA)

theorem payoff_nonneg (CP K x : α) (hCP : CP = 0 ∨ CP = 1) : 0 ≤ payoff CP K x := by
  rcases hCP with h | h <;> simp [payoff, h]

theorem clampValue_european (CP K s : α) (M j : ℕ) (v : α) (hCP : CP = 0 ∨ CP = 1) :
    clampValue 0 CP K s M j v = max v 0 := by
  rcases hCP with h | h <;> simp [clampValue, h]

theorem clampValue_ge (EA CP K s : α) (M j : ℕ) (v : α) (hCP : CP = 0 ∨ CP = 1) :
    v ≤ clampValue EA CP K s M j v := by
  rcases hCP with h | h <;> simp [clampValue, h]

/-- With non-negative boundary values in the columns `1..N` the European grid is
non-negative there and the American grid lies above the European one. -/
theorem colK_european_le (expf : α → α) (CP K T sig r q Smax s t ρ : α) (M N : ℕ)
    (hD : DiagDominant (subD sig r q t M) (diagD sig r q t M) (supD sig r q t M) M ρ)
    (hCP : CP = 0 ∨ CP = 1)
    (hb : ∀ c, 1 ≤ c → c ≤ N → 0 ≤ topValue expf CP K T r q Smax t c ∧
      0 ≤ bottomValue expf CP K T r q t c) :
    ∀ k, k ≤ N →
      (∀ j, j ≤ M → colK expf 0 CP K T sig r q Smax s t M N k j ≤
        colK expf 1 CP K T sig r q Smax s t M N k j) ∧
      (k < N → ∀ j, j ≤ M → 0 ≤ colK expf 0 CP K T sig r q Smax s t M N k j) := by
  intro k
  induction k with
  | zero =>
    intro _
    constructor
    · intro j _; simp only [colK]; exact le_refl _
    · intro hN j _
      obtain ⟨h1, h2⟩ := hb N hN (le_refl _)
      simp only [colK]
      split_ifs
      · exact h1
      · exact h2
      · exact payoff_nonneg CP K _ hCP
  | succ k ih =>
    intro hk
    have hkN : k < N := hk
    have hk1 : 1 ≤ N - (k + 1) ∨ N - (k + 1) = 0 := by omega
    have hk2 : N - (k + 1) ≤ N := Nat.sub_le _ _
    have hk3 : k + 1 < N → 1 ≤ N - (k + 1) := fun h => by omega
    obtain ⟨ihP, ihQ⟩ := ih (Nat.le_of_lt hkN)
    have ihQ' := ihQ hkN
    have hxE : ∀ j, 0 ≤ solved sig r q t M (colK expf 0 CP K T sig r q Smax s t M N k) j :=
      fun j => solution_nonneg _ _ _ _ M ρ hD ihQ' j
    have hxA : ∀ j, solved sig r q t M (colK expf 0 CP K T sig r q Smax s t M N k) j ≤
        solved sig r q t M (colK expf 1 CP K T sig r q Smax s t M N k) j :=
      fun j => solution_mono _ _ _ _ _ M ρ hD ihP j
    constructor
    · intro j _
      simp only [colK]
      split_ifs
      · exact le_refl _
      · exact le_refl _
      · rw [clampValue_european CP K s M j _ hCP]
        have := clampValue_ge 1 CP K s M j
          (solved sig r q t M (colK expf 1 CP K T sig r q Smax s t M N k) j) hCP
        exact max_le (le_trans (hxA j) this) (le_trans (le_trans (hxE j) (hxA j)) this)
    · intro hN j _
      obtain ⟨h1, h2⟩ := hb (N - (k + 1)) (hk3 hN) hk2
      simp only [colK]
      split_ifs
      · exact h1
      · exact h2
      · rw [clampValue_european CP K s M j _ hCP]
        exact le_max_right _ _

theorem rowPrice_zero (M : ℕ) (S : α) (hM : 0 < M) :
    rowPrice M 0 (5 * S / (M : α)) = 5 * S := by
  have hM' : (M : α) ≠ 0 := by exact_mod_cast hM.ne'
  simp only [rowPrice, Nat.cast_zero, sub_zero]
  field_simp

/-! ## The grid before and after the backward loop -/

/-- Lines 143-155: after the boundary loop row `0` holds `topValue`, row `M` holds
`bottomValue` and every other cell of the grid is zero. -/
theorem boundaryGrid_spec (expf : α → α) (CP S K T r q : α) (M0 N : ℕ) (hM : 5 ≤ M0) :
    ∃ gb, boundaryGrid expf CP S K T r q M0 N = some gb ∧
      gb.rows = adjM M0 + 1 ∧ gb.cols = N + 1 ∧
      (∀ c, c ≤ N → gb.cell 0 c =
        topValue expf CP K T r q ((mult : α) * S) (T / (N : α)) c) ∧
      (∀ c, c ≤ N → gb.cell (adjM M0) c = bottomValue expf CP K T r q (T / (N : α)) c) ∧
      (∀ j c, 1 ≤ j → j < adjM M0 → c ≤ N → gb.cell j c = 0) := by
  obtain ⟨h5, _, _⟩ := adjM_facts M0 hM
  have hpos : 0 < adjM M0 := by omega
  have a1 : ∀ j, 1 ≤ j → j < adjM M0 → j ≠ 0 ∧ j ≠ adjM M0 ∧ j ≤ adjM M0 :=
    fun j h1 h2 => by omega
  obtain ⟨g1, e1, r1, c1, z1⟩ :=
    zeroGrid_spec (adjM M0) N (Matrix.alloc (adjM M0 + 1) (N + 1) : Matrix α) rfl rfl
  obtain ⟨g2, e2, r2, c2, f2, b2⟩ :=
    setBoundary_spec expf CP K T r q ((mult : α) * S) (T / (N : α)) (adjM M0) N g1 r1 c1
  refine ⟨g2, ?_, r2, c2, ?_, ?_, ?_⟩
  · simp only [boundaryGrid, Option.bind_eq_bind, e1, Option.some_bind, e2]
  · intro c hc
    rw [(b2 hpos c hc).1, z1 0 c (Nat.zero_le _) hc, zero_add]
  · intro c hc
    rw [(b2 hpos c hc).2, z1 (adjM M0) c (le_refl _) hc, zero_add]
  · intro j c hj1 hj2 hc
    obtain ⟨b1, b3, b4⟩ := a1 j hj1 hj2
    rw [f2 j c b1 b3, z1 j c b4 hc]

/-- Lines 143-165: the set-up succeeds, the solver is the backward loop run from the grid
it leaves, and the sweep invariant holds for that grid at column `N`. -/
theorem setupGrid_spec (anchor : Bool) (expf : α → α) (EA CP S K T sig r q : α) (M0 N : ℕ)
    (hM : 5 ≤ M0) :
    ∃ g0, setupGrid anchor expf CP S K T r q M0 N = some g0 ∧
      fdmGrid anchor expf EA CP S K T sig r q M0 N =
        sweepFrom EA CP S K T sig r q M0 N g0 ∧
      SweepInv expf EA CP K T sig r q ((mult : α) * S) ((mult : α) * S / (adjM M0 : α))
        (T / (N : α)) (adjM M0) N N
        ⟨g0, Matrix.alloc (adjM M0 + 1) (adjM M0 + 1), Vec.alloc (adjM M0 + 1)⟩ := by
  obtain ⟨h5, hdiv, _⟩ := adjM_facts M0 hM
  cases anchor with
  | false =>
    obtain ⟨g1, g2, g3, g4, e1, e2, e3, e4, hI⟩ :=
      setup_spec false expf EA CP S K T sig r q (T / (N : α)) (adjM M0) N h5 hdiv
    simp only [Bool.false_eq_true, if_false] at e4
    refine ⟨g4, ?_, ?_, hI⟩
    · simp only [setupGrid, boundaryGrid, Option.bind_eq_bind, e1, e2, e3, e4,
        Option.some_bind, Bool.false_eq_true, if_false]
    · simp only [fdmGrid, sweepFrom, Option.bind_eq_bind, e1, e2, e3, e4, Option.some_bind,
        Bool.false_eq_true, if_false]
  | true =>
    obtain ⟨g1, g2, g3, g4, e1, e2, e3, e4, hI⟩ :=
      setup_spec true expf EA CP S K T sig r q (T / (N : α)) (adjM M0) N h5 hdiv
    simp only [if_true] at e4
    refine ⟨g4, ?_, ?_, hI⟩
    · simp only [setupGrid, boundaryGrid, Option.bind_eq_bind, e1, e2, e3, e4,
        Option.some_bind, if_true]
    · simp only [fdmGrid, sweepFrom, Option.bind_eq_bind, e1, e2, e3, e4, Option.some_bind,
        if_true]

theorem payoff_call (K x : α) : payoff 0 K x = max (x - K) 0 := by
  simp [payoff]

theorem payoff_put (K x : α) : payoff 1 K x = max (K - x) 0 := by
  simp [payoff]

/-- Every cell of the final grid, boundary rows included, is `colK`. -/
theorem fdmGrid_cols (anchor : Bool) (expf : α → α) (EA CP S K T sig r q : α) (M0 N : ℕ)
    (hM : 5 ≤ M0) :
    ∃ g, fdmGrid anchor expf EA CP S K T sig r q M0 N = some g ∧
      ∀ c, c ≤ N → ∀ j, j ≤ adjM M0 → g.cell j c =
        colK expf EA CP K T sig r q ((mult : α) * S) ((mult : α) * S / (adjM M0 : α))
          (T / (N : α)) (adjM M0) N (N - c) j := by
  obtain ⟨h5, _, _⟩ := adjM_facts M0 hM
  have hM0 : adjM M0 ≠ 0 := by omega
  have a1 : ∀ c, c ≤ N → N - (N - c) = c := fun c hc => by omega
  obtain ⟨g, e, _, _, ht, hb, hv⟩ := fdmGrid_spec anchor expf EA CP S K T sig r q M0 N hM
  refine ⟨g, e, ?_⟩
  intro c hc j hj
  rcases Nat.eq_zero_or_pos j with h0 | h0
  · subst h0
    rw [ht c hc, colK_top, a1 c hc]
  · rcases Nat.lt_or_ge j (adjM M0) with hlt | hge
    · exact hv c hc j h0 hlt
    · have : j = adjM M0 := Nat.le_antisymm hj hge
      subst this
      rw [hb c hc, colK_bottom _ _ _ _ _ _ _ _ _ _ _ _ _ _ hM0, a1 c hc]

/-- Lines 179-241: one backward step, with the content of `d` it leaves: the clamped
solution in every row `0..M`. -/
theorem backwardStep_full (EA CP K sig r q s t : α) (M N i : ℕ) (w : Work α)
    (hM : 1 ≤ M) (hi : i ≤ N)
    (hgr : w.g.rows = M + 1) (hgc : w.g.cols = N + 1) (hAr : w.A.rows = M + 1)
    (hAc : w.A.cols = M + 1) (hd : w.d.size = M + 1) :
    ∃ w', backwardStep EA CP K sig r q s t M i w = some w' ∧
      w'.g.rows = M + 1 ∧ w'.g.cols = N + 1 ∧
      (∀ j, j ≤ M → w'.d.cell j =
        clampValue EA CP K s M j (solved sig r q t M (fun j => w.g.cell j i) j)) ∧
      (∀ j, 1 ≤ j → j < M → w'.g.cell j (i - 1) = w'.d.cell j) ∧
      (∀ j c, ¬(1 ≤ j ∧ j < M ∧ c = i - 1) → w'.g.cell j c = w.g.cell j c) := by
  have a1 : i < w.g.cols := by omega
  have a2 : i - 1 < w.g.cols := by omega
  obtain ⟨Ad, e1, hr1, hc1, hd1, hv1⟩ := solveColumn_spec sig r q t M w.g i (w.A, w.d) hM hgr
    a1 hAr hAc hd
  obtain ⟨d2, e2, hd2, hv2⟩ := clampD_spec EA CP K s M Ad.2 hd1
  obtain ⟨g3, e3, hr3, hc3, hv3, hf3⟩ := storeColumn_spec M i d2 w.g hM hd2 hgr a2
  refine ⟨⟨g3, Ad.1, d2⟩, ?_, hr3.trans hgr, hc3.trans hgc, ?_, hv3, hf3⟩
  · simp only [backwardStep, Option.bind_eq_bind, e1, Option.some_bind, e2, e3]
    rfl
  · intro j hj
    rw [hv2 j hj, hv1 j hj]

theorem solved_zero (sig r q t : α) (M : ℕ) (rhs : ℕ → α) (hM : 0 < M) :
    solved sig r q t M rhs 0 = rhs 0 :=
  solution_zero _ _ _ rhs M hM (supD_zero sig r q t M)

theorem solved_top (sig r q t : α) (M : ℕ) (rhs : ℕ → α) :
    solved sig r q t M rhs M = rhs M :=
  solution_top _ _ _ rhs M

/-- With at least one time step every interior cell of column `0` of the final grid is
the clamp of the value solved from column `1` of that grid, and that column is `colK`. -/
theorem fdmGrid_last_step (anchor : Bool) (expf : α → α) (EA CP S K T sig r q : α)
    (M0 N : ℕ) (hM : 5 ≤ M0) (hN : 1 ≤ N) :
    ∃ g, fdmGrid anchor expf EA CP S K T sig r q M0 N = some g ∧
      (∀ j, solved sig r q (T / (N : α)) (adjM M0) (fun j => g.cell j 1) j =
        solved sig r q (T / (N : α)) (adjM M0)
          (colK expf EA CP K T sig r q ((mult : α) * S) ((mult : α) * S / (adjM M0 : α))
            (T / (N : α)) (adjM M0) N (N - 1)) j) ∧
      (∀ j, 1 ≤ j → j < adjM M0 → g.cell j 0 =
        clampValue EA CP K ((mult : α) * S / (adjM M0 : α)) (adjM M0) j
          (solved sig r q (T / (N : α)) (adjM M0) (fun j => g.cell j 1) j)) := by
  have a1 : ∀ j, 1 ≤ j → j < adjM M0 → j ≠ 0 ∧ j ≠ adjM M0 ∧ j ≤ adjM M0 :=
    fun j h1 h2 => by omega
  obtain ⟨n, rfl⟩ : ∃ n, N = n + 1 := ⟨N - 1, by omega⟩
  obtain ⟨g, e, hv⟩ := fdmGrid_cols anchor expf EA CP S K T sig r q M0 (n + 1) hM
  have hcong : ∀ j, solved sig r q (T / ((n + 1 : ℕ) : α)) (adjM M0) (fun j => g.cell j 1) j =
      solved sig r q (T / ((n + 1 : ℕ) : α)) (adjM M0)
        (colK expf EA CP K T sig r q ((mult : α) * S) ((mult : α) * S / (adjM M0 : α))
          (T / ((n + 1 : ℕ) : α)) (adjM M0) (n + 1) (n + 1 - 1)) j := by
    intro j
    apply solved_congr
    intro j' hj'
    exact hv 1 (Nat.succ_le_succ (Nat.zero_le n)) j' hj'
  refine ⟨g, e, hcong, ?_⟩
  intro j hj1 hj2
  obtain ⟨b1, b2, b3⟩ := a1 j hj1 hj2
  rw [hcong j, hv 0 (Nat.zero_le _) j b3]
  simp only [Nat.sub_zero, Nat.add_sub_cancel, colK, if_neg b1, if_neg b2]

/-! ## The normal-CDF helper and the closed-form pricer -/

theorem phi_neg (expf sqrtf : α → α) (x : α) (hx : x ≠ 0) :
    phi expf sqrtf (-x) = 1 - phi expf sqrtf x := by
  rcases lt_or_gt_of_ne hx with h | h
  · have h' : ¬(-x < 0) := by simp [h.le]
    simp only [phi, abs_neg, h, h', if_true, if_false]
    ring
  · have h' : -x < 0 := by simp [h]
    have h'' : ¬(x < 0) := not_lt.mpr h.le
    simp only [phi, abs_neg, h', h'', if_true, if_false]
    ring

theorem phi_zero (expf sqrtf : α → α) (hexp : expf 0 = 1) :
    phi expf sqrtf 0 = 5000000005 / 10000000000 := by
  simp only [phi, abs_zero, zero_div, mul_zero, add_zero, lt_self_iff_false, if_false,
    neg_zero, hexp]
  norm_num

/-- Put-call parity of `bs` when neither `d1` nor `d2` is zero. -/
theorem bs_parity (expf sqrtf logf : α → α) (CP : ℤ) (S K tau sigma r a : α) (hCP : CP ≠ 0)
    (h1 : bsD1 sqrtf logf S K tau sigma r a ≠ 0)
    (h2 : bsD2 sqrtf logf S K tau sigma r a ≠ 0) :
    bs expf sqrtf logf 0 S K tau sigma r a - bs expf sqrtf logf CP S K tau sigma r a =
      S * expf (-a * tau) - K * expf (-r * tau) := by
  simp only [bs, if_true, if_neg hCP, phi_neg expf sqrtf _ h1, phi_neg expf sqrtf _ h2]
  ring

/-! ## Prices under diagonal dominance -/

theorem boundary_nonneg (expf : α → α) (CP S K T r q t : α) (N : ℕ)
    (hCP : CP = 0 ∨ CP = 1) (hK : 0 ≤ K) (hexp : ∀ x, 0 ≤ expf x)
    (hb : CP = 0 → ∀ c, 1 ≤ c → c ≤ N → K * expf (-(r - q) * (T - t * (c : α))) ≤ 5 * S) :
    ∀ c, 1 ≤ c → c ≤ N → 0 ≤ topValue expf CP K T r q ((mult : α) * S) t c ∧
      0 ≤ bottomValue expf CP K T r q t c := by
  have hcast : ((mult : ℕ) : α) = 5 := by simp [mult]
  intro c hc1 hc2
  rcases hCP with h | h
  · have := hb h c hc1 hc2
    subst h
    simp only [topValue, bottomValue, hcast, sub_zero, one_mul, zero_mul, le_refl, and_true]
    linarith
  · subst h
    simp only [topValue, bottomValue, sub_self, zero_mul, le_refl, true_and, one_mul]
    exact mul_nonneg hK (hexp _)

theorem step_pos (T : α) (N : ℕ) (hT : 0 < T) (hN : 1 ≤ N) : 0 < T / (N : α) :=
  div_pos hT (by exact_mod_cast hN)

/-- American and European prices under diagonal dominance and non-negative boundary. -/
theorem gridPrice_european_le (expf : α → α) (CP S K T sig r q : α) (M0 N : ℕ)
    (hT : 0 < T) (hN : 1 ≤ N) (hCP : CP = 0 ∨ CP = 1) (hK : 0 ≤ K)
    (hsig : |r - q| ≤ sig ^ 2) (hr : 0 < 1 + r * (T / (N : α))) (hexp : ∀ x, 0 ≤ expf x)
    (hb : CP = 0 → ∀ c, 1 ≤ c → c ≤ N →
      K * expf (-(r - q) * (T - T / (N : α) * (c : α))) ≤ 5 * S) :
    gridPrice expf 0 CP S K T sig r q M0 N ≤ gridPrice expf 1 CP S K T sig r q M0 N := by
  have hD := coeff_diagDominant sig r q (T / (N : α)) (adjM M0) (step_pos T N hT hN).le hsig hr
  have hB := boundary_nonneg expf CP S K T r q (T / (N : α)) N hCP hK hexp hb
  exact (colK_european_le expf CP K T sig r q _ _ _ _ (adjM M0) N hD hCP hB N (le_refl _)).1
    (spotRow (adjM M0)) (Nat.sub_le _ _)

theorem spacing_mono (S1 S2 : α) (M : ℕ) (hS : S1 ≤ S2) :
    (mult : α) * S1 ≤ (mult : α) * S2 ∧
      (mult : α) * S1 / (M : α) ≤ (mult : α) * S2 / (M : α) := by
  have h5 : (0 : α) ≤ (mult : α) := Nat.cast_nonneg _
  have h := mul_le_mul_of_nonneg_left hS h5
  exact ⟨h, div_le_div_of_nonneg_right h (Nat.cast_nonneg _)⟩

theorem gridPrice_european_nonneg (expf : α → α) (CP S K T sig r q : α) (M0 N : ℕ)
    (hM : 5 ≤ M0) (hN : 1 ≤ N) (hCP : CP = 0 ∨ CP = 1) :
    0 ≤ gridPrice expf 0 CP S K T sig r q M0 N := by
  rw [gridPrice_last expf 0 CP S K T sig r q M0 N hM hN, clampValue_european _ _ _ _ _ _ hCP]
  exact le_max_right _ _

/-- In the three runs used below to refute C1, C2 and C3 (`timeSteps = 1`, hence `t = T`)
no pivot of the forward pass is zero, so none of them divides by zero. -/
theorem example_pivots_ne_zero :
    (∀ j, 1 ≤ j → j < 5 → pivot (subD (1 / 5 : ℝ) (1 / 20) (1 / 20) 1 5)
      (diagD (1 / 5 : ℝ) (1 / 20) (1 / 20) 1 5) (supD (1 / 5 : ℝ) (1 / 20) (1 / 20) 1 5) j ≠ 0) ∧
    (∀ j, 1 ≤ j → j < 5 → pivot (subD (1 / 10 : ℝ) 0 (1 / 20) 2 5)
      (diagD (1 / 10 : ℝ) 0 (1 / 20) 2 5) (supD (1 / 10 : ℝ) 0 (1 / 20) 2 5) j ≠ 0) ∧
    (∀ j, 1 ≤ j → j < 5 → pivot (subD (1 / 5 : ℝ) (1 / 10) (1 / 20) (1 / 2) 5)
      (diagD (1 / 5 : ℝ) (1 / 10) (1 / 20) (1 / 2) 5)
      (supD (1 / 5 : ℝ) (1 / 10) (1 / 20) (1 / 2) 5) j ≠ 0) := by
  refine ⟨?_, ?_, ?_⟩ <;>
  · intro j h1 h2
    interval_cases j <;> norm_num [pivot, subD, diagD, supD, aj, bj, cj]

/-! ## The checked division -/

/-- Two loop bodies that agree on the states of an invariant run the same loop. -/
theorem loopUp_congr (body1 body2 : ℕ → σ → Option σ) (I : ℕ → σ → Prop) :
    ∀ (n lo : ℕ) (st : σ), I lo st →
      (∀ j s, lo ≤ j → j < lo + n → I j s →
        body1 j s = body2 j s ∧ ∀ s', body2 j s = some s' → I (j + 1) s') →
      loopUp body1 n lo st = loopUp body2 n lo st := by
  intro n
  induction n with
  | zero => intro lo st _ _; rfl
  | succ n ih =>
    intro lo st h0 hstep
    obtain ⟨he, hp⟩ := hstep lo st (le_refl _) (by omega) h0
    simp only [loopUp, he]
    cases hb : body2 lo st with
    | none => rfl
    | some s1 =>
      simp only [Option.some_bind]
      exact ih (lo + 1) s1 (hp s1 hb) (fun j s hj1 hj2 hI => hstep j s (by omega) (by omega) hI)

/-- A loop whose body fails at an index it reaches fails. -/
theorem loopUp_none (body : ℕ → σ → Option σ) (I : ℕ → σ → Prop) (k : ℕ) :
    ∀ (n lo : ℕ) (st : σ), I lo st → lo ≤ k → k < lo + n →
      (∀ j s, lo ≤ j → j < k → I j s → ∃ s', body j s = some s' ∧ I (j + 1) s') →
      (∀ s, I k s → body k s = none) →
      loopUp body n lo st = none := by
  intro n
  induction n with
  | zero => intro lo st _ h1 h2 _ _; omega
  | succ n ih =>
    intro lo st h0 h1 h2 hstep hfail
    rcases Nat.eq_or_lt_of_le h1 with h | h
    · subst h
      simp only [loopUp, hfail st h0, Option.none_bind]
    · obtain ⟨s1, hb, hI⟩ := hstep lo st (le_refl _) h h0
      simp only [loopUp, hb, Option.some_bind]
      exact ih (lo + 1) s1 hI h (by omega)
        (fun j s hj1 hj2 hI => hstep j s (by omega) hj2 hI) hfail

/-- Two loop bodies that agree on the states of an invariant run the same loop. -/
theorem forDown_congr (body1 body2 : ℕ → σ → Option σ) (I : ℕ → σ → Prop) :
    ∀ (hi : ℕ) (st : σ), I hi st →
      (∀ j s, 1 ≤ j → j ≤ hi → I j s →
        body1 j s = body2 j s ∧ ∀ s', body2 j s = some s' → I (j - 1) s') →
      forDown body1 hi st = forDown body2 hi st := by
  intro hi
  induction hi with
  | zero => intro st _ _; rfl
  | succ n ih =>
    intro st h0 hstep
    obtain ⟨he, hp⟩ := hstep (n + 1) st (by omega) (le_refl _) h0
    simp only [forDown, he]
    cases hb : body2 (n + 1) st with
    | none => rfl
    | some s1 =>
      simp only [Option.some_bind]
      exact ih s1 (by simpa using hp s1 hb) (fun j s hj1 hj2 hI => hstep j s hj1 (by omega) hI)

/-- With a non-zero pivot the checked scaling of row `j` is the scaling of row `j`. -/
theorem scaleRowChecked_of_ne (j : ℕ) (Ad : Matrix α × Vec α) (p : α)
    (h : Ad.1.read j j = some p) (hp : p ≠ 0) : scaleRowChecked j Ad = scaleRow j Ad := by
  simp only [scaleRowChecked, scaleRow, h, recip, if_neg hp, Option.bind_eq_bind,
    Option.some_bind]

/-- With a zero pivot the checked scaling of row `j` fails. -/
theorem scaleRowChecked_of_zero (j : ℕ) (Ad : Matrix α × Vec α)
    (h : Ad.1.read j j = some 0) : scaleRowChecked j Ad = none := by
  simp only [scaleRowChecked, h, recip, if_true, Option.bind_eq_bind, Option.some_bind,
    Option.none_bind]

/-- Iteration `j` of the checked forward pass: with a non-zero pivot it is iteration `j`
of the forward pass, with a zero pivot it fails. -/
theorem forwardBodyChecked_inv (a b c rhs : ℕ → α) (M j : ℕ) (Ad : Matrix α × Vec α)
    (hjM : j < M) (h : FwdInv a b c rhs M j Ad) :
    (pivot a b c j ≠ 0 → forwardBodyChecked j Ad = forwardBody j Ad) ∧
    (pivot a b c j = 0 → forwardBodyChecked j Ad = none) := by
  obtain ⟨hr, hc, _, _, _, h3, _⟩ := h
  have hread : Ad.1.read j j = some (pivot a b c j) := by
    rw [Matrix.read_of_lt _ j j (by omega) (by omega), h3]
  constructor
  · intro hp
    simp only [forwardBodyChecked, forwardBody, scaleRowChecked_of_ne j Ad _ hread hp]
  · intro hp
    rw [hp] at hread
    simp only [forwardBodyChecked, scaleRowChecked_of_zero j Ad hread, Option.bind_eq_bind,
      Option.none_bind]

/-- Lines 212-222: when no pivot is zero the checked forward pass is the forward pass. -/
theorem forwardPassChecked_eq (a b c rhs : ℕ → α) (M : ℕ) (Ad : Matrix α × Vec α)
    (h : FwdInv a b c rhs M 1 Ad) (hp : ∀ j, 1 ≤ j → j < M → pivot a b c j ≠ 0) :
    forwardPassChecked M Ad = forwardPass M Ad := by
  unfold forwardPassChecked forwardPass forUp
  apply loopUp_congr forwardBodyChecked forwardBody (fun j s => FwdInv a b c rhs M j s)
    (M - 1) 1 Ad h
  intro j s hj1 hj2 hI
  have hjM : j < M := by omega
  refine ⟨(forwardBodyChecked_inv a b c rhs M j s hjM hI).1 (hp j hj1 hjM), ?_⟩
  intro s' hs'
  obtain ⟨s2, e, hI2⟩ := forwardBody_inv a b c rhs M j s hj1 hjM hI
  rw [e] at hs'
  cases hs'
  exact hI2

/-- Lines 212-222: when a pivot is zero the checked forward pass fails. -/
theorem forwardPassChecked_none (a b c rhs : ℕ → α) (M : ℕ) (Ad : Matrix α × Vec α)
    (h : FwdInv a b c rhs M 1 Ad) (hz : ∃ j, 1 ≤ j ∧ j < M ∧ pivot a b c j = 0) :
    forwardPassChecked M Ad = none := by
  classical
  have hk := Nat.find_spec hz
  have hmin : ∀ j, j < Nat.find hz → ¬(1 ≤ j ∧ j < M ∧ pivot a b c j = 0) :=
    fun j hj => Nat.find_min hz hj
  generalize Nat.find hz = k at hk hmin
  obtain ⟨hk1, hkM, hk0⟩ := hk
  unfold forwardPassChecked forUp
  apply loopUp_none forwardBodyChecked (fun j s => FwdInv a b c rhs M j s) k (M - 1) 1 Ad h
    hk1 (by omega)
  · intro j s hj1 hj2 hI
    have hjM : j < M := by omega
    have hpj : pivot a b c j ≠ 0 := fun h0 => hmin j hj2 ⟨hj1, hjM, h0⟩
    rw [(forwardBodyChecked_inv a b c rhs M j s hjM hI).1 hpj]
    exact forwardBody_inv a b c rhs M j s hj1 hjM hI
  · intro s hI
    exact (forwardBodyChecked_inv a b c rhs M k s hkM hI).2 hk0

/-- Lines 180-233: when no pivot is zero the checked solve is the solve. -/
theorem solveColumnChecked_eq (sig r q t : α) (M : ℕ) (g : Matrix α) (i : ℕ)
    (Ad : Matrix α × Vec α) (hM : 1 ≤ M) (hgr : g.rows = M + 1) (hi : i < g.cols)
    (hr : Ad.1.rows = M + 1) (hc : Ad.1.cols = M + 1) (hd : Ad.2.size = M + 1)
    (hp : ∀ j, 1 ≤ j → j < M → fdmPivot sig r q t M j ≠ 0) :
    solveColumnChecked sig r q t M g i Ad = solveColumn sig r q t M g i Ad := by
  obtain ⟨A1, d1, A2, Ad3, e1, e2, e3, e4, hF⟩ :=
    prepare_spec sig r q t M g i Ad hM hgr hi hr hc hd
  simp only [solveColumnChecked, solveColumn, Option.bind_eq_bind, e1, e2, e3, e4,
    Option.some_bind, forwardPassChecked_eq _ _ _ _ M Ad3 hF hp]

/-- Lines 180-233: when a pivot is zero the checked solve fails. -/
theorem solveColumnChecked_none (sig r q t : α) (M : ℕ) (g : Matrix α) (i : ℕ)
    (Ad : Matrix α × Vec α) (hM : 1 ≤ M) (hgr : g.rows = M + 1) (hi : i < g.cols)
    (hr : Ad.1.rows = M + 1) (hc : Ad.1.cols = M + 1) (hd : Ad.2.size = M + 1)
    (hz : ∃ j, 1 ≤ j ∧ j < M ∧ fdmPivot sig r q t M j = 0) :
    solveColumnChecked sig r q t M g i Ad = none := by
  obtain ⟨A1, d1, A2, Ad3, e1, e2, e3, e4, hF⟩ :=
    prepare_spec sig r q t M g i Ad hM hgr hi hr hc hd
  simp only [solveColumnChecked, Option.bind_eq_bind, e1, e2, e3, e4,
    Option.some_bind, forwardPassChecked_none _ _ _ _ M Ad3 hF hz, Option.none_bind]

/-- Lines 179-241: a checked backward step, with no zero pivot and with one. -/
theorem backwardStepChecked_spec (EA CP K sig r q s t : α) (M N i : ℕ) (w : Work α)
    (hM : 1 ≤ M) (hi : i ≤ N)
    (hgr : w.g.rows = M + 1) (hgc : w.g.cols = N + 1) (hAr : w.A.rows = M + 1)
    (hAc : w.A.cols = M + 1) (hd : w.d.size = M + 1) :
    ((∀ j, 1 ≤ j → j < M → fdmPivot sig r q t M j ≠ 0) →
      backwardStepChecked EA CP K sig r q s t M i w =
        backwardStep EA CP K sig r q s t M i w) ∧
    ((∃ j, 1 ≤ j ∧ j < M ∧ fdmPivot sig r q t M j = 0) →
      backwardStepChecked EA CP K sig r q s t M i w = none) := by
  have a1 : i < w.g.cols := by omega
  constructor
  · intro hp
    simp only [backwardStepChecked, backwardStep,
      solveColumnChecked_eq sig r q t M w.g i (w.A, w.d) hM hgr a1 hAr hAc hd hp]
  · intro hz
    simp only [backwardStepChecked,
      solveColumnChecked_none sig r q t M w.g i (w.A, w.d) hM hgr a1 hAr hAc hd hz,
      Option.bind_eq_bind, Option.none_bind]

/-- When no pivot is zero the checked solver returns what `fdm` returns. -/
theorem fdmChecked_eq (expf : α → α) (EA CP S K T sig r q : α) (M0 N : ℕ) (hM : 5 ≤ M0)
    (hp : ∀ j, 1 ≤ j → j < adjM M0 → fdmPivot sig r q (T / (N : α)) (adjM M0) j ≠ 0) :
    fdmChecked expf EA CP S K T sig r q M0 N = fdm expf EA CP S K T sig r q M0 N := by
  obtain ⟨h5, hdiv, _⟩ := adjM_facts M0 hM
  have h1 : 1 ≤ adjM M0 := by omega
  obtain ⟨g1, g2, g3, g4, e1, e2, e3, e4, hI⟩ :=
    setup_spec true expf EA CP S K T sig r q (T / (N : α)) (adjM M0) N h5 hdiv
  simp only [if_true] at e4
  obtain ⟨k1, k2, k3, k4, k5, _⟩ := hI
  have hloop : forDown (backwardStepChecked EA CP K sig r q ((mult : α) * S / (adjM M0 : α))
        (T / (N : α)) (adjM M0)) N
        ⟨g4, Matrix.alloc (adjM M0 + 1) (adjM M0 + 1), Vec.alloc (adjM M0 + 1)⟩ =
      forDown (backwardStep EA CP K sig r q ((mult : α) * S / (adjM M0 : α))
        (T / (N : α)) (adjM M0)) N
        ⟨g4, Matrix.alloc (adjM M0 + 1) (adjM M0 + 1), Vec.alloc (adjM M0 + 1)⟩ := by
    apply forDown_congr _ _ (fun i (w : Work α) => i ≤ N → (w.g.rows = adjM M0 + 1 ∧
      w.g.cols = N + 1 ∧ w.A.rows = adjM M0 + 1 ∧ w.A.cols = adjM M0 + 1 ∧
      w.d.size = adjM M0 + 1)) N _ (fun _ => ⟨k1, k2, k3, k4, k5⟩)
    intro i w hi1 hiN hw
    obtain ⟨b1, b2, b3, b4, b5⟩ := hw hiN
    refine ⟨(backwardStepChecked_spec EA CP K sig r q _ _ (adjM M0) N i w h1 hiN b1 b2 b3 b4
      b5).1 hp, ?_⟩
    intro w' hw' _
    obtain ⟨w2, e, c1, c2, c3, c4, c5, _⟩ := backwardStep_spec EA CP K sig r q
      ((mult : α) * S / (adjM M0 : α)) (T / (N : α)) (adjM M0) N i w h1 hiN b1 b2 b3 b4 b5
    rw [e] at hw'
    cases hw'
    exact ⟨c1, c2, c3, c4, c5⟩
  simp only [fdmChecked, fdm, fdmCore, fdmGrid, Option.bind_eq_bind, e1, e2, e3, e4,
    Option.some_bind, if_true, hloop]
  cases forDown (backwardStep EA CP K sig r q ((mult : α) * S / (adjM M0 : α))
        (T / (N : α)) (adjM M0)) N
        ⟨g4, Matrix.alloc (adjM M0 + 1) (adjM M0 + 1), Vec.alloc (adjM M0 + 1)⟩ <;> rfl

/-- When a pivot is zero and there is at least one time step, the checked solver fails:
the first backward step divides by that pivot. -/
theorem fdmChecked_none (expf : α → α) (EA CP S K T sig r q : α) (M0 N : ℕ) (hM : 5 ≤ M0)
    (hN : 1 ≤ N)
    (hz : ∃ j, 1 ≤ j ∧ j < adjM M0 ∧ fdmPivot sig r q (T / (N : α)) (adjM M0) j = 0) :
    fdmChecked expf EA CP S K T sig r q M0 N = none := by
  obtain ⟨h5, hdiv, _⟩ := adjM_facts M0 hM
  have h1 : 1 ≤ adjM M0 := by omega
  obtain ⟨g1, g2, g3, g4, e1, e2, e3, e4, hI⟩ :=
    setup_spec true expf EA CP S K T sig r q (T / (N : α)) (adjM M0) N h5 hdiv
  simp only [if_true] at e4
  obtain ⟨k1, k2, k3, k4, k5, _⟩ := hI
  obtain ⟨n, hn⟩ : ∃ n, N = n + 1 := ⟨N - 1, by omega⟩
  have hstep := (backwardStepChecked_spec EA CP K sig r q ((mult : α) * S / (adjM M0 : α))
    (T / (N : α)) (adjM M0) N N
    ⟨g4, Matrix.alloc (adjM M0 + 1) (adjM M0 + 1), Vec.alloc (adjM M0 + 1)⟩ h1 (le_refl _)
    k1 k2 k3 k4 k5).2 hz
  simp only [fdmChecked, Option.bind_eq_bind, e1, e2, e3, e4, Option.some_bind]
  subst hn
  simp only [forDown, hstep, Option.none_bind]

/-- Under diagonal dominance no pivot is zero. -/
theorem fdmPivot_pos (sig r q t : α) (M : ℕ) (ht : 0 ≤ t) (hsig : |r - q| ≤ sig ^ 2)
    (hr : 0 < 1 + r * t) : ∀ j, 1 ≤ j → j < M → 0 < fdmPivot sig r q t M j := by
  intro j hj1 hj2
  exact ((pivot_upper_bounds _ _ _ M _ (coeff_diagDominant sig r q t M ht hsig hr) j hj2).1
    hj1).2

/-- With at least one time step the checked solver fails exactly when a pivot is zero. -/
theorem fdmChecked_eq_none_iff (expf : α → α) (EA CP S K T sig r q : α) (M0 N : ℕ)
    (hM : 5 ≤ M0) (hN : 1 ≤ N) :
    fdmChecked expf EA CP S K T sig r q M0 N = none ↔
      ∃ j, 1 ≤ j ∧ j < adjM M0 ∧ fdmPivot sig r q (T / (N : α)) (adjM M0) j = 0 := by
  constructor
  · intro hnone
    by_contra hz
    have hp : ∀ j, 1 ≤ j → j < adjM M0 → fdmPivot sig r q (T / (N : α)) (adjM M0) j ≠ 0 :=
      fun j h1 h2 h0 => hz ⟨j, h1, h2, h0⟩
    rw [fdmChecked_eq expf EA CP S K T sig r q M0 N hM hp, fdm,
      fdmCore_eq true expf EA CP S K T sig r q M0 N hM] at hnone
    cases hnone
  · exact fdmChecked_none expf EA CP S K T sig r q M0 N hM hN

/-! ## Claims -/

/-- C1, as stated, fails: a call with `S = 1`, `K = 100` (so that the upper boundary
value `5*S - K` is negative), `T = 1`, `sigma = 1/5`, `r = q = 1/20` on the grid
`priceSteps = 5`, `timeSteps = 1` is priced at `-19456/6747981` with early exercise and at
`0` without. -/
theorem C1_counterexample :
    fdm Real.exp (1 : ℝ) 0 1 100 1 (1 / 5) (1 / 20) (1 / 20) 5 1 = some (-19456 / 6747981) ∧
      fdm Real.exp (0 : ℝ) 0 1 100 1 (1 / 5) (1 / 20) (1 / 20) 5 1 = some 0 ∧
      (-19456 / 6747981 : ℝ) < 0 := by
  refine ⟨?_, ?_, by norm_num⟩
  · rw [fdm, fdmCore_eq _ _ _ _ _ _ _ _ _ _ _ _ (by decide)]
    norm_num [gridPrice, colK, adjM, mult, spotRow, solved, solution, backVal, dnorm, upper,
      pivot, subD, diagD, supD, aj, bj, cj, clampValue, payoff, rowPrice, topValue,
      bottomValue, Real.exp_zero]
  · rw [fdm, fdmCore_eq _ _ _ _ _ _ _ _ _ _ _ _ (by decide)]
    norm_num [gridPrice, colK, adjM, mult, spotRow, solved, solution, backVal, dnorm, upper,
      pivot, subD, diagD, supD, aj, bj, cj, clampValue, payoff, rowPrice, topValue,
      bottomValue, Real.exp_zero]

/-- C1, amended (American ≥ European): for `K > 0`, `T > 0`, `priceSteps ≥ 5`,
`timeSteps = N ≥ 1` and either option type, if `sigma² ≥ |r - q|`, `1 + r*T/N > 0` and,
for a call, the upper boundary value `5*S - K*exp(-(r-q)*(T - (T/N)*i))` is non-negative
in every column `i = 1..N`, then the price with `EA = 1` is at least the price with
`EA = 0`. The function `expf` stands for `exp`; only its non-negativity is used. -/
theorem C1_american_ge_european (expf : α → α) (CP S K T sig r q : α) (M0 N : ℕ)
    (hM : 5 ≤ M0) (hN : 1 ≤ N) (hCP : CP = 0 ∨ CP = 1) (hK : 0 < K) (hT : 0 < T)
    (hsig : |r - q| ≤ sig ^ 2) (hr : 0 < 1 + r * (T / (N : α))) (hexp : ∀ x, 0 ≤ expf x)
    (hb : CP = 0 → ∀ c, 1 ≤ c → c ≤ N →
      K * expf (-(r - q) * (T - T / (N : α) * (c : α))) ≤ 5 * S) :
    ∃ pA pE, fdm expf 1 CP S K T sig r q M0 N = some pA ∧
      fdm expf 0 CP S K T sig r q M0 N = some pE ∧ pE ≤ pA :=
  ⟨_, _, fdmCore_eq true expf 1 CP S K T sig r q M0 N hM,
    fdmCore_eq true expf 0 CP S K T sig r q M0 N hM,
    gridPrice_european_le expf CP S K T sig r q M0 N hT hN hCP hK.le hsig hr hexp hb⟩

/-- C1, amended, instance: a call with `S = 100`, `K = 120`, `T = 1`, `sigma = 1/2`,
`r = 1/10`, `q = 1/20` on the grid `priceSteps = 5`, `timeSteps = 1`, over the reals. -/
theorem C1_american_ge_european_witness :
    |(1 / 10 : ℝ) - 1 / 20| ≤ (1 / 2) ^ 2 ∧
      ∃ pA pE, fdm Real.exp (1 : ℝ) 0 100 120 1 (1 / 2) (1 / 10) (1 / 20) 5 1 = some pA ∧
        fdm Real.exp (0 : ℝ) 0 100 120 1 (1 / 2) (1 / 10) (1 / 20) 5 1 = some pE ∧ pE ≤ pA := by
  have h1 : |(1 / 10 : ℝ) - 1 / 20| ≤ (1 / 2) ^ 2 := by
    rw [abs_le]; constructor <;> norm_num
  refine ⟨h1, C1_american_ge_european Real.exp (0 : ℝ) 100 120 1 (1 / 2) (1 / 10) (1 / 20) 5 1
    (by decide) (by decide) (Or.inl rfl) (by norm_num) (by norm_num) h1 (by norm_num)
    (fun x => (Real.exp_pos x).le) ?_⟩
  intro _ c hc1 hc2
  have hc : c = 1 := Nat.le_antisymm hc2 hc1
  subst hc
  norm_num [Real.exp_zero]

/-- C2, as stated, fails: for a European call with `K = 100`, `T = 2`, `sigma = 1/10`,
`r = 0`, `q = 1/20` (so that `sigma² < |r - q|`) on the grid `priceSteps = 5`,
`timeSteps = 1`, the price at `S = 40` is `2880/92077` and the price at `S = 60` is `0`. -/
theorem C2_counterexample :
    (40 : ℝ) ≤ 60 ∧
      fdm Real.exp (0 : ℝ) 0 40 100 2 (1 / 10) 0 (1 / 20) 5 1 = some (2880 / 92077) ∧
      fdm Real.exp (0 : ℝ) 0 60 100 2 (1 / 10) 0 (1 / 20) 5 1 = some 0 ∧
      (0 : ℝ) < 2880 / 92077 := by
  refine ⟨by norm_num, ?_, ?_, by norm_num⟩
  · rw [fdm, fdmCore_eq _ _ _ _ _ _ _ _ _ _ _ _ (by decide)]
    norm_num [gridPrice, colK, adjM, mult, spotRow, solved, solution, backVal, dnorm, upper,
      pivot, subD, diagD, supD, aj, bj, cj, clampValue, payoff, rowPrice, topValue,
      bottomValue, Real.exp_zero]
  · rw [fdm, fdmCore_eq _ _ _ _ _ _ _ _ _ _ _ _ (by decide)]
    norm_num [gridPrice, colK, adjM, mult, spotRow, solved, solution, backVal, dnorm, upper,
      pivot, subD, diagD, supD, aj, bj, cj, clampValue, payoff, rowPrice, topValue,
      bottomValue, Real.exp_zero]

/-- C2, amended (monotonicity in spot): for `EA` in `{0,1}`, `T > 0`, `priceSteps ≥ 5`,
`timeSteps = N ≥ 1` and spots `S1 ≤ S2`, if `sigma² ≥ |r - q|` and `1 + r*T/N > 0`, then
the call price at `S1` is at most the call price at `S2` and the put price at `S1` is at
least the put price at `S2`. -/
theorem C2_monotone_in_spot (expf : α → α) (EA S1 S2 K T sig r q : α) (M0 N : ℕ)
    (hM : 5 ≤ M0) (hN : 1 ≤ N) (hEA : EA = 0 ∨ EA = 1) (hT : 0 < T)
    (hsig : |r - q| ≤ sig ^ 2) (hr : 0 < 1 + r * (T / (N : α))) (hS : S1 ≤ S2) :
    (∃ p1 p2, fdm expf EA 0 S1 K T sig r q M0 N = some p1 ∧
      fdm expf EA 0 S2 K T sig r q M0 N = some p2 ∧ p1 ≤ p2) ∧
    (∃ p1 p2, fdm expf EA 1 S1 K T sig r q M0 N = some p1 ∧
      fdm expf EA 1 S2 K T sig r q M0 N = some p2 ∧ p2 ≤ p1) := by
  have hD := coeff_diagDominant sig r q (T / (N : α)) (adjM M0) (step_pos T N hT hN).le hsig hr
  have hEA0 : 0 ≤ EA := by rcases hEA with h | h <;> simp [h]
  obtain ⟨hS5, hs⟩ := spacing_mono S1 S2 (adjM M0) hS
  refine ⟨⟨_, _, fdmCore_eq true expf EA 0 S1 K T sig r q M0 N hM,
      fdmCore_eq true expf EA 0 S2 K T sig r q M0 N hM, ?_⟩,
    ⟨_, _, fdmCore_eq true expf EA 1 S1 K T sig r q M0 N hM,
      fdmCore_eq true expf EA 1 S2 K T sig r q M0 N hM, ?_⟩⟩
  · exact colK_mono_call expf EA K T sig r q _ _ _ _ _ _ (adjM M0) N hD hEA0 hS5 hs N
      (spotRow (adjM M0)) (Nat.sub_le _ _)
  · exact colK_anti_put expf EA K T sig r q _ _ _ _ _ _ (adjM M0) N hD hEA0 hs N
      (spotRow (adjM M0)) (Nat.sub_le _ _)

/-- C2, amended, instance: American options with `K = 120`, `T = 1`, `sigma = 1/2`,
`r = 1/10`, `q = 1/20`, spots `100 ≤ 110`, grid `priceSteps = 5`, `timeSteps = 1`. -/
theorem C2_monotone_in_spot_witness :
    |(1 / 10 : ℝ) - 1 / 20| ≤ (1 / 2) ^ 2 ∧ (100 : ℝ) ≤ 110 ∧
      (∃ p1 p2, fdm Real.exp (1 : ℝ) 0 100 120 1 (1 / 2) (1 / 10) (1 / 20) 5 1 = some p1 ∧
        fdm Real.exp (1 : ℝ) 0 110 120 1 (1 / 2) (1 / 10) (1 / 20) 5 1 = some p2 ∧ p1 ≤ p2) ∧
      (∃ p1 p2, fdm Real.exp (1 : ℝ) 1 100 120 1 (1 / 2) (1 / 10) (1 / 20) 5 1 = some p1 ∧
        fdm Real.exp (1 : ℝ) 1 110 120 1 (1 / 2) (1 / 10) (1 / 20) 5 1 = some p2 ∧ p2 ≤ p1) := by
  have h1 : |(1 / 10 : ℝ) - 1 / 20| ≤ (1 / 2) ^ 2 := by
    rw [abs_le]; constructor <;> norm_num
  have h2 : (100 : ℝ) ≤ 110 := by norm_num
  exact ⟨h1, h2, C2_monotone_in_spot Real.exp (1 : ℝ) 100 110 120 1 (1 / 2) (1 / 10) (1 / 20)
    5 1 (by decide) (by decide) (Or.inr rfl) (by norm_num) h1 (by norm_num) h2⟩

/-- C3, as stated, fails: the American call with the parameters of `main`
(`K = 120`, `T = 1/2`, `sigma = 1/5`, `r = 1/10`, `q = 1/20`) at the spot `S = 10` on the
grid `priceSteps = 5`, `timeSteps = 1` is priced at `-83538/61407403`. -/
theorem C3_counterexample :
    fdm Real.exp (1 : ℝ) 0 10 120 (1 / 2) (1 / 5) (1 / 10) (1 / 20) 5 1 =
        some (-83538 / 61407403) ∧
      (-83538 / 61407403 : ℝ) < 0 := by
  refine ⟨?_, by norm_num⟩
  rw [fdm, fdmCore_eq _ _ _ _ _ _ _ _ _ _ _ _ (by decide)]
  norm_num [gridPrice, colK, adjM, mult, spotRow, solved, solution, backVal, dnorm, upper,
    pivot, subD, diagD, supD, aj, bj, cj, clampValue, payoff, rowPrice, topValue,
    bottomValue, Real.exp_zero]

/-- C3, amended (non-negative output): for `K > 0`, `T > 0`, `priceSteps ≥ 5`,
`timeSteps = N ≥ 1` and either option type the solver returns a price `≥ 0` when `EA = 0`
and no pivot `A(j,j)` of the forward pass, `j = 1..M-1`, is zero, and also when `EA = 1`
provided `sigma² ≥ |r - q|`, `1 + r*T/N > 0` (which make every pivot positive) and, for a
call, the upper boundary value `5*S - K*exp(-(r-q)*(T - (T/N)*i))` is non-negative in
every column `i = 1..N`. The price is the one returned with the division of line 213
checked, and `fdm` returns the same. The function `expf` stands for `exp`; only its
non-negativity is used. -/
theorem C3_nonneg_output (expf : α → α) (EA CP S K T sig r q : α) (M0 N : ℕ)
    (hM : 5 ≤ M0) (hN : 1 ≤ N) (hCP : CP = 0 ∨ CP = 1) (hK : 0 < K) (hT : 0 < T)
    (hcond : (EA = 0 ∧
        ∀ j, 1 ≤ j → j < adjM M0 → fdmPivot sig r q (T / (N : α)) (adjM M0) j ≠ 0) ∨
      (EA = 1 ∧ |r - q| ≤ sig ^ 2 ∧ 0 < 1 + r * (T / (N : α)) ∧
        (∀ x, 0 ≤ expf x) ∧
        (CP = 0 → ∀ c, 1 ≤ c → c ≤ N →
          K * expf (-(r - q) * (T - T / (N : α) * (c : α))) ≤ 5 * S))) :
    ∃ p, fdmChecked expf EA CP S K T sig r q M0 N = some p ∧
      fdm expf EA CP S K T sig r q M0 N = some p ∧ 0 ≤ p := by
  have hfdm := fdmCore_eq true expf EA CP S K T sig r q M0 N hM
  have hE := gridPrice_european_nonneg expf CP S K T sig r q M0 N hM hN hCP
  rcases hcond with ⟨h, hp⟩ | ⟨h, hsig, hr, hexp, hb⟩
  · refine ⟨_, (fdmChecked_eq expf EA CP S K T sig r q M0 N hM hp).trans hfdm, hfdm, ?_⟩
    rw [h]; exact hE
  · have hp : ∀ j, 1 ≤ j → j < adjM M0 → fdmPivot sig r q (T / (N : α)) (adjM M0) j ≠ 0 :=
      fun j h1 h2 => (fdmPivot_pos sig r q (T / (N : α)) (adjM M0) (step_pos T N hT hN).le
        hsig hr j h1 h2).ne.symm
    refine ⟨_, (fdmChecked_eq expf EA CP S K T sig r q M0 N hM hp).trans hfdm, hfdm, ?_⟩
    rw [h]
    exact le_trans hE
      (gridPrice_european_le expf CP S K T sig r q M0 N hT hN hCP hK.le hsig hr hexp hb)

/-- C3, amended, instances with `S = 100`, `K = 120`, `T = 1`, `sigma = 1/2`, `r = 1/10`,
`q = 1/20` on the grid `priceSteps = 5`, `timeSteps = 1`: a European put, where the four
pivots `51/10`, `987/340`, `1787/940` and `2349/1787` are non-zero, and an American call. -/
theorem C3_nonneg_output_witness :
    (∀ j, 1 ≤ j → j < adjM 5 →
        fdmPivot (1 / 2 : ℝ) (1 / 10) (1 / 20) (1 / ((1 : ℕ) : ℝ)) (adjM 5) j ≠ 0) ∧
      |(1 / 10 : ℝ) - 1 / 20| ≤ (1 / 2) ^ 2 ∧ (120 : ℝ) * Real.exp 0 ≤ 5 * 100 ∧
      (∃ p, fdmChecked Real.exp (0 : ℝ) 1 100 120 1 (1 / 2) (1 / 10) (1 / 20) 5 1 = some p ∧
        fdm Real.exp (0 : ℝ) 1 100 120 1 (1 / 2) (1 / 10) (1 / 20) 5 1 = some p ∧ 0 ≤ p) ∧
      ∃ p, fdmChecked Real.exp (1 : ℝ) 0 100 120 1 (1 / 2) (1 / 10) (1 / 20) 5 1 = some p ∧
        fdm Real.exp (1 : ℝ) 0 100 120 1 (1 / 2) (1 / 10) (1 / 20) 5 1 = some p ∧ 0 ≤ p := by
  have h0 : ∀ j, 1 ≤ j → j < adjM 5 →
      fdmPivot (1 / 2 : ℝ) (1 / 10) (1 / 20) (1 / ((1 : ℕ) : ℝ)) (adjM 5) j ≠ 0 := by
    intro j h1 h2
    have h5 : adjM 5 = 5 := rfl
    rw [h5] at h2 ⊢
    interval_cases j <;> norm_num [fdmPivot, pivot, subD, diagD, supD, aj, bj, cj]
  have h1 : |(1 / 10 : ℝ) - 1 / 20| ≤ (1 / 2) ^ 2 := by
    rw [abs_le]; constructor <;> norm_num
  have h2 : (120 : ℝ) * Real.exp 0 ≤ 5 * 100 := by norm_num [Real.exp_zero]
  refine ⟨h0, h1, h2,
    C3_nonneg_output Real.exp (0 : ℝ) 1 100 120 1 (1 / 2) (1 / 10) (1 / 20) 5 1
      (by decide) (by decide) (Or.inr rfl) (by norm_num) (by norm_num) (Or.inl ⟨rfl, h0⟩),
    C3_nonneg_output Real.exp (1 : ℝ) 0 100 120 1 (1 / 2) (1 / 10) (1 / 20) 5 1
      (by decide) (by decide) (Or.inl rfl) (by norm_num) (by norm_num)
      (Or.inr ⟨rfl, h1, by norm_num, fun x => (Real.exp_pos x).le, ?_⟩)⟩
  intro _ c hc1 hc2
  have hc : c = 1 := Nat.le_antisymm hc2 hc1
  subst hc
  norm_num [Real.exp_zero]

/-- C4 (grid sizing): for a requested `M0 ≥ 5` the corrected `M = M0 - M0 % 5` is the
largest multiple of 5 that does not exceed `M0`, the spot row `M - M/5` is an interior
row, the price `(M - (M - M/5)) * s` of that row is exactly `S` for `s = 5*S/M`, and the
price `M * s` of row `0` is `Smax = 5*S`. -/
theorem C4_grid_sizing (M0 : ℕ) (S : α) (h : 5 ≤ M0) :
    adjM M0 = M0 - M0 % 5 ∧ adjM M0 % 5 = 0 ∧ adjM M0 ≤ M0 ∧
    (∀ m, m % 5 = 0 → m ≤ M0 → m ≤ adjM M0) ∧
    spotRow (adjM M0) = adjM M0 - adjM M0 / 5 ∧
    1 ≤ spotRow (adjM M0) ∧ spotRow (adjM M0) ≤ adjM M0 - 1 ∧
    rowPrice (adjM M0) (spotRow (adjM M0)) (5 * S / (adjM M0 : α)) = S ∧
    rowPrice (adjM M0) 0 (5 * S / (adjM M0 : α)) = 5 * S := by
  obtain ⟨h5, hdiv, hle⟩ := adjM_facts M0 h
  have hsp := spotRow_interior (adjM M0) h5
  have hrp := rowPrice_spotRow (adjM M0) S h5 hdiv
  refine ⟨rfl, hdiv, hle, ?_, rfl, hsp.1, hsp.2, ?_, ?_⟩
  · intro m hm1 hm2
    unfold adjM mult
    omega
  · simpa [mult] using hrp
  · exact rowPrice_zero (adjM M0) S (by omega)

/-- C4, instance: `M0 = 7`, `S = 3`. -/
theorem C4_grid_sizing_witness :
    (5 ≤ 7) ∧ adjM 7 = 5 ∧ spotRow (adjM 7) = 4 ∧
      rowPrice (adjM 7) (spotRow (adjM 7)) (5 * (3 : ℚ) / (adjM 7 : ℚ)) = 3 :=
  ⟨by decide, by decide, by decide, (C4_grid_sizing 7 (3 : ℚ) (by decide)).2.2.2.2.2.2.2.1⟩

/-- C5 (index safety): with at least one time step, a run with `priceSteps ≥ 5` makes no
access outside `g`, `A` or `d` (the checked solver returns a value), whereas for
`priceSteps < 5` the corrected `M` is `0`, the cells `d[1]` and `A(1,0)` lie outside the
arrays of that size, and the run fails. -/
theorem C5_index_safety (expf : α → α) (EA CP S K T sig r q : α) (M0 N : ℕ) (hN : 1 ≤ N) :
    (5 ≤ M0 → ∃ p, fdm expf EA CP S K T sig r q M0 N = some p) ∧
    (M0 < 5 → adjM M0 = 0 ∧
      (∀ d : Vec α, d.size = adjM M0 + 1 → d.read 1 = none) ∧
      (∀ A : Matrix α, A.rows = adjM M0 + 1 → A.read 1 0 = none) ∧
      fdm expf EA CP S K T sig r q M0 N = none) := by
  refine ⟨fun hM => ⟨_, fdmCore_eq true expf EA CP S K T sig r q M0 N hM⟩, fun hM => ?_⟩
  have hadj : adjM M0 = 0 := by unfold adjM mult; omega
  refine ⟨hadj, ?_, ?_, fdmCore_small true expf EA CP S K T sig r q M0 N hM hN⟩
  · intro d hd
    exact Vec.vread_of_le d 1 (by omega)
  · intro A hA
    have : ¬(1 < A.rows) := by omega
    simp [Matrix.read, this]

/-- C5, instance: five price steps and one time step run through, four price steps fail. -/
theorem C5_index_safety_witness :
    (1 ≤ 1) ∧ (∃ p, fdm (fun _ => (1 : ℚ)) 1 0 100 120 1 1 0 0 5 1 = some p) ∧
      fdm (fun _ => (1 : ℚ)) 1 0 100 120 1 1 0 0 4 1 = none :=
  ⟨by decide, (C5_index_safety (fun _ => (1 : ℚ)) 1 0 100 120 1 1 0 0 5 1 (by decide)).1
      (by decide),
    ((C5_index_safety (fun _ => (1 : ℚ)) 1 0 100 120 1 1 0 0 4 1 (by decide)).2
      (by decide)).2.2.2⟩

/-- C6 (price extraction and anchor): for `priceSteps ≥ 5` and `timeSteps ≥ 1` the value
returned by `fdm` is the cell `(M - M/5, 0)` of the final grid; that cell is the clamp of
the value solved for that row from column `1` in the last backward step, and the
procedure without the two anchor writes returns the same price. -/
theorem C6_anchor_irrelevant (expf : α → α) (EA CP S K T sig r q : α) (M0 N : ℕ)
    (hM : 5 ≤ M0) (hN : 1 ≤ N) :
    ∃ g, fdmGrid true expf EA CP S K T sig r q M0 N = some g ∧
      fdm expf EA CP S K T sig r q M0 N = some (g.cell (adjM M0 - adjM M0 / 5) 0) ∧
      g.cell (adjM M0 - adjM M0 / 5) 0 =
        clampValue EA CP K (5 * S / (adjM M0 : α)) (adjM M0) (adjM M0 - adjM M0 / 5)
          (solved sig r q (T / (N : α)) (adjM M0) (fun j => g.cell j 1)
            (adjM M0 - adjM M0 / 5)) ∧
      fdmNoAnchor expf EA CP S K T sig r q M0 N = some (g.cell (adjM M0 - adjM M0 / 5) 0) := by
  obtain ⟨h5, _, _⟩ := adjM_facts M0 hM
  have hsp := spotRow_interior (adjM M0) h5
  have a2 : spotRow (adjM M0) < adjM M0 := by omega
  have a3 : adjM M0 ≠ 0 := by omega
  have a4 : N - (N - 1) = 1 := by omega
  have a5 : N - 0 = N - 1 + 1 := by omega
  have hsr : adjM M0 - adjM M0 / 5 = spotRow (adjM M0) := rfl
  have hcast : (5 : α) = ((mult : ℕ) : α) := by simp [mult]
  obtain ⟨g, e, hr, hc, ht, hb, hv⟩ := fdmGrid_spec true expf EA CP S K T sig r q M0 N hM
  have hcell : g.cell (spotRow (adjM M0)) 0 = gridPrice expf EA CP S K T sig r q M0 N := by
    rw [hv 0 (Nat.zero_le _) _ hsp.1 a2]; rfl
  refine ⟨g, e, ?_, ?_, ?_⟩
  · rw [hsr, hcell]; exact fdmCore_eq true expf EA CP S K T sig r q M0 N hM
  · rw [hsr, hcell, gridPrice_last expf EA CP S K T sig r q M0 N hM hN, hcast]
    congr 1
    apply solved_congr
    intro j hj
    rcases Nat.eq_zero_or_pos j with h0 | h0
    · subst h0
      rw [ht 1 hN, colK_top, a4]
    · rcases Nat.lt_or_ge j (adjM M0) with hlt | hge
      · rw [hv 1 hN j h0 hlt]
      · have : j = adjM M0 := Nat.le_antisymm hj hge
        subst this
        rw [hb 1 hN, colK_bottom _ _ _ _ _ _ _ _ _ _ _ _ _ _ a3, a4]
  · rw [hsr, hcell]; exact fdmCore_eq false expf EA CP S K T sig r q M0 N hM

/-- C6, instance: `M0 = 5`, `N = 1`. -/
theorem C6_anchor_irrelevant_witness :
    (5 ≤ 5) ∧ (1 ≤ 1) ∧ ∃ g, fdmGrid true (fun _ => (1 : ℚ)) 1 0 100 120 1 1 0 0 5 1 = some g ∧
      fdm (fun _ => (1 : ℚ)) 1 0 100 120 1 1 0 0 5 1 = some (g.cell (adjM 5 - adjM 5 / 5) 0) ∧
      fdmNoAnchor (fun _ => (1 : ℚ)) 1 0 100 120 1 1 0 0 5 1 =
        some (g.cell (adjM 5 - adjM 5 / 5) 0) := by
  obtain ⟨g, h1, h2, _, h4⟩ :=
    C6_anchor_irrelevant (fun _ => (1 : ℚ)) 1 0 100 120 1 1 0 0 5 1 (by decide) (by decide)
  exact ⟨by decide, by decide, g, h1, h2, h4⟩

/-- C7, as stated, fails: for the American put with `S = 100`, `K = 120`, `T = 1`,
`sigma = 0`, `r = q = -1` on the grid `priceSteps = 5`, `timeSteps = 1` the diagonal entry
`bj(1) = 1 + (sigma*4)²*t + r*t` is `0`, it is the pivot `A(1,1)` of the first iteration
of the forward pass, and line 213 divides by it: the run has no value, so no price
`≥ K - S = 20` is returned. -/
theorem C7_counterexample :
    bj 1 5 (0 : ℝ) (-1) (-1) 1 = 0 ∧
      fdmPivot (0 : ℝ) (-1) (-1) (1 / ((1 : ℕ) : ℝ)) (adjM 5) 1 = 0 ∧
      fdmChecked Real.exp (1 : ℝ) 1 100 120 1 0 (-1) (-1) 5 1 = none ∧
      ¬ ∃ p, fdmChecked Real.exp (1 : ℝ) 1 100 120 1 0 (-1) (-1) 5 1 = some p ∧
        (120 : ℝ) - 100 ≤ p := by
  have hb : bj 1 5 (0 : ℝ) (-1) (-1) 1 = 0 := by norm_num [bj]
  have h5 : adjM 5 = 5 := rfl
  have hp : fdmPivot (0 : ℝ) (-1) (-1) (1 / ((1 : ℕ) : ℝ)) (adjM 5) 1 = 0 := by
    rw [h5]
    norm_num [fdmPivot, pivot, subD, diagD, supD, aj, bj, cj]
  have hn : fdmChecked Real.exp (1 : ℝ) 1 100 120 1 0 (-1) (-1) 5 1 = none :=
    fdmChecked_none Real.exp (1 : ℝ) 1 100 120 1 0 (-1) (-1) 5 1 (by decide) (by decide)
      ⟨1, by decide, by decide, hp⟩
  refine ⟨hb, hp, hn, ?_⟩
  rintro ⟨p, h, _⟩
  rw [hn] at h
  cases h

/-- C7, amended (American price dominates immediate exercise at the spot): with `EA = 1`,
`priceSteps ≥ 5` and `timeSteps = N ≥ 1`, provided no pivot `A(j,j)` of the forward pass,
`j = 1..M-1`, is zero, the solver returns a price that is at least `S - K` for a call
(`CP = 0`) and at least `K - S` for a put (`CP = 1`). The price is the one returned with
the division of line 213 checked, and `fdm` returns the same. -/
theorem C7_american_ge_exercise (expf : α → α) (S K T sig r q : α) (M0 N : ℕ)
    (hM : 5 ≤ M0) (hN : 1 ≤ N)
    (hp : ∀ j, 1 ≤ j → j < adjM M0 → fdmPivot sig r q (T / (N : α)) (adjM M0) j ≠ 0) :
    (∃ p, fdmChecked expf 1 0 S K T sig r q M0 N = some p ∧
      fdm expf 1 0 S K T sig r q M0 N = some p ∧ S - K ≤ p) ∧
    (∃ p, fdmChecked expf 1 1 S K T sig r q M0 N = some p ∧
      fdm expf 1 1 S K T sig r q M0 N = some p ∧ K - S ≤ p) := by
  obtain ⟨h5, hdiv, _⟩ := adjM_facts M0 hM
  have hrp := rowPrice_spotRow (adjM M0) S h5 hdiv
  constructor
  · have hfdm := fdmCore_eq true expf 1 0 S K T sig r q M0 N hM
    refine ⟨_, (fdmChecked_eq expf 1 0 S K T sig r q M0 N hM hp).trans hfdm, hfdm, ?_⟩
    rw [gridPrice_last expf 1 0 S K T sig r q M0 N hM hN, clampValue_call, hrp, one_mul]
    exact le_max_right _ _
  · have hfdm := fdmCore_eq true expf 1 1 S K T sig r q M0 N hM
    refine ⟨_, (fdmChecked_eq expf 1 1 S K T sig r q M0 N hM hp).trans hfdm, hfdm, ?_⟩
    rw [gridPrice_last expf 1 1 S K T sig r q M0 N hM hN, clampValue_put, hrp, one_mul]
    exact le_max_right _ _

/-- C7, amended, instance: the American put with `S = 100`, `K = 120`, `T = 1`,
`sigma = 1`, `r = q = 0` on the grid `priceSteps = 5`, `timeSteps = 1`, where the four
pivots are `17`, `134/17`, `517/134` and `900/517`. -/
theorem C7_american_ge_exercise_witness :
    (∀ j, 1 ≤ j → j < adjM 5 → fdmPivot (1 : ℚ) 0 0 (1 / ((1 : ℕ) : ℚ)) (adjM 5) j ≠ 0) ∧
      ∃ p, fdmChecked (fun _ => (1 : ℚ)) 1 1 100 120 1 1 0 0 5 1 = some p ∧
        fdm (fun _ => (1 : ℚ)) 1 1 100 120 1 1 0 0 5 1 = some p ∧ (120 : ℚ) - 100 ≤ p := by
  have hp : ∀ j, 1 ≤ j → j < adjM 5 →
      fdmPivot (1 : ℚ) 0 0 (1 / ((1 : ℕ) : ℚ)) (adjM 5) j ≠ 0 := by
    intro j h1 h2
    have h5 : adjM 5 = 5 := rfl
    rw [h5] at h2 ⊢
    interval_cases j <;> norm_num [fdmPivot, pivot, subD, diagD, supD, aj, bj, cj]
  exact ⟨hp, (C7_american_ge_exercise (fun _ => (1 : ℚ)) 100 120 1 1 0 0 5 1 (by decide)
    (by decide) hp).2⟩

/-- C8 (European mode is non-negative): with `EA = 0`, `priceSteps ≥ 5`, `timeSteps ≥ 1`
and either option type the solver returns a price `≥ 0`, because the clamp is then
`max(solved, 0)`; no condition on the pivots is needed in the total model, where a
division by a zero pivot yields `0`. -/
theorem C8_european_nonneg (expf : α → α) (CP S K T sig r q : α) (M0 N : ℕ)
    (hM : 5 ≤ M0) (hN : 1 ≤ N) (hCP : CP = 0 ∨ CP = 1) :
    ∃ p, fdm expf 0 CP S K T sig r q M0 N = some p ∧ 0 ≤ p := by
  refine ⟨_, fdmCore_eq true expf 0 CP S K T sig r q M0 N hM, ?_⟩
  rw [gridPrice_last expf 0 CP S K T sig r q M0 N hM hN]
  rcases hCP with h | h
  · rw [h, clampValue_call, zero_mul]; exact le_max_right _ _
  · rw [h, clampValue_put, zero_mul]; exact le_max_right _ _

/-- C8, instance: a European put with `M0 = 5`, `N = 1`. -/
theorem C8_european_nonneg_witness :
    (5 ≤ 5) ∧ (1 ≤ 1) ∧ ((1 : ℚ) = 0 ∨ (1 : ℚ) = 1) ∧
      ∃ p, fdm (fun _ => (1 : ℚ)) 0 1 100 120 1 1 0 0 5 1 = some p ∧ 0 ≤ p :=
  ⟨by decide, by decide, Or.inr rfl,
    C8_european_nonneg (fun _ => (1 : ℚ)) 1 100 120 1 1 0 0 5 1 (by decide) (by decide)
      (Or.inr rfl)⟩

/-- C9 (the result depends on `priceSteps` through its rounded-down multiple of 5): for
`M0 ≥ 5` the solver returns the same price for `M0` and for `M0 - M0 % 5`, and the price
of row `0` (the maximum grid price) is `5*S` in both grids. -/
theorem C9_rounding (expf : α → α) (EA CP S K T sig r q : α) (M0 N : ℕ) (hM : 5 ≤ M0) :
    (∃ p, fdm expf EA CP S K T sig r q M0 N = some p ∧
      fdm expf EA CP S K T sig r q (M0 - M0 % 5) N = some p) ∧
    rowPrice (adjM M0) 0 (5 * S / (adjM M0 : α)) = 5 * S ∧
    rowPrice (adjM (M0 - M0 % 5)) 0 (5 * S / (adjM (M0 - M0 % 5) : α)) = 5 * S := by
  have hadj : adjM (M0 - M0 % 5) = adjM M0 := by unfold adjM mult; omega
  have hM' : 5 ≤ M0 - M0 % 5 := by omega
  have h5 := (adjM_facts M0 hM).1
  have h0 := rowPrice_zero (adjM M0) S (by omega)
  refine ⟨⟨_, fdmCore_eq true expf EA CP S K T sig r q M0 N hM, ?_⟩, h0, ?_⟩
  · rw [fdm, fdmCore_eq true expf EA CP S K T sig r q (M0 - M0 % 5) N hM']
    simp only [gridPrice, hadj]
  · rw [hadj]; exact h0

/-- C9, instance: `M0 = 9` against `M0 - M0 % 5 = 5`. -/
theorem C9_rounding_witness :
    (5 ≤ 9) ∧ ∃ p, fdm (fun _ => (1 : ℚ)) 1 0 100 120 1 1 0 0 9 1 = some p ∧
      fdm (fun _ => (1 : ℚ)) 1 0 100 120 1 1 0 0 (9 - 9 % 5) 1 = some p :=
  ⟨by decide, (C9_rounding (fun _ => (1 : ℚ)) 1 0 100 120 1 1 0 0 9 1 (by decide)).1⟩

/-- C10 (Thomas solve): for `M ≥ 5` a multiple of 5 and a backward step at column `i`
with `1 ≤ i ≤ N`, started from any grid and any content of `A` and `d`, the solve
succeeds, and if every pivot `A(j,j)` the forward pass divides by is non-zero, the vector
`x` left in `d` after the back-substitution satisfies `x_0 = g(0,i)`, `x_M = g(M,i)` and
`aj(j)*x_{j-1} + bj(j)*x_j + cj(j)*x_{j+1} = g(j,i)` for every interior row `j`. -/
theorem C10_thomas_solve (sig r q t : α) (M N i : ℕ) (g : Matrix α) (Ad : Matrix α × Vec α)
    (hM : 5 ≤ M) (_hdiv : M % 5 = 0) (_hi1 : 1 ≤ i) (hiN : i ≤ N)
    (hgr : g.rows = M + 1) (hgc : g.cols = N + 1)
    (hr : Ad.1.rows = M + 1) (hc : Ad.1.cols = M + 1) (hd : Ad.2.size = M + 1)
    (hp : ∀ j, 1 ≤ j → j < M → pivotAt sig r q t M g i Ad j ≠ some 0) :
    ∃ Ad', solveColumn sig r q t M g i Ad = some Ad' ∧
      Ad'.2.cell 0 = g.cell 0 i ∧ Ad'.2.cell M = g.cell M i ∧
      ∀ j, 1 ≤ j → j < M →
        aj j M sig r q t * Ad'.2.cell (j - 1) + bj j M sig r q t * Ad'.2.cell j +
          cj j M sig r q t * Ad'.2.cell (j + 1) = g.cell j i := by
  have a1 : 1 ≤ M := by omega
  have a2 : i < g.cols := by omega
  have a3 : ∀ j, j < M → j - 1 ≤ M ∧ j ≤ M ∧ j + 1 ≤ M := fun j hj => by omega
  obtain ⟨Ad', e, _, _, _, hv⟩ := solveColumn_spec sig r q t M g i Ad a1 hgr a2 hr hc hd
  refine ⟨Ad', e, ?_, ?_, ?_⟩
  · rw [hv 0 (Nat.zero_le _)]
    exact solution_zero _ _ _ _ M a1 (supD_zero sig r q t M)
  · rw [hv M (le_refl _)]
    exact solution_top _ _ _ _ M
  · intro j hj1 hj2
    have hpj : pivot (subD sig r q t M) (diagD sig r q t M) (supD sig r q t M) j ≠ 0 := by
      intro h0
      apply hp j hj1 hj2
      rw [pivotAt_eq sig r q t M g i Ad j hj1 (Nat.le_of_lt hj2) hgr a2 hr hc hd, h0]
    have h := solution_eqn (subD sig r q t M) (diagD sig r q t M) (supD sig r q t M)
      (fun j => g.cell j i) M j hj1 hj2 hpj
    obtain ⟨b1, b2, b3⟩ := a3 j hj2
    rw [hv (j - 1) b1, hv j b2, hv (j + 1) b3]
    simpa [subD, diagD, supD, hj1, hj2, solved] using h

/-- C10, instance: `M = 5`, `N = 1`, `i = 1`, `sig = 1`, `r = q = 0`, `t = 1`, where the
four pivots are `17`, `134/17`, `517/134` and `900/517`. -/
theorem C10_thomas_solve_witness :
    (∀ j, 1 ≤ j → j < 5 → pivotAt (1 : ℚ) 0 0 1 5 ⟨6, 2, fun j _ => (j : ℚ)⟩ 1
        (Matrix.alloc 6 6, Vec.alloc 6) j ≠ some 0) ∧
      ∃ Ad', solveColumn (1 : ℚ) 0 0 1 5 ⟨6, 2, fun j _ => (j : ℚ)⟩ 1
          (Matrix.alloc 6 6, Vec.alloc 6) = some Ad' ∧
        Ad'.2.cell 0 = 0 ∧ Ad'.2.cell 5 = 5 ∧
        aj 1 5 (1 : ℚ) 0 0 1 * Ad'.2.cell 0 + bj 1 5 (1 : ℚ) 0 0 1 * Ad'.2.cell 1 +
          cj 1 5 (1 : ℚ) 0 0 1 * Ad'.2.cell 2 = 1 := by
  have hp : ∀ j, 1 ≤ j → j < 5 → pivotAt (1 : ℚ) 0 0 1 5 ⟨6, 2, fun j _ => (j : ℚ)⟩ 1
      (Matrix.alloc 6 6, Vec.alloc 6) j ≠ some 0 := by
    intro j h1 h2
    rw [pivotAt_eq (1 : ℚ) 0 0 1 5 _ 1 _ j h1 (Nat.le_of_lt h2) rfl (by decide) rfl rfl rfl]
    interval_cases j <;> norm_num [pivot, subD, diagD, supD, aj, bj, cj]
  obtain ⟨Ad', e, h0, h5, hj⟩ := C10_thomas_solve (1 : ℚ) 0 0 1 5 1 1 ⟨6, 2, fun j _ => (j : ℚ)⟩
    (Matrix.alloc 6 6, Vec.alloc 6) (by decide) (by decide) (by decide) (by decide) rfl rfl
    rfl rfl rfl hp
  refine ⟨hp, Ad', e, by simpa using h0, by simpa using h5, ?_⟩
  simpa using hj 1 (by decide) (by decide)

/-- C11, as stated, fails: in the American call run with `S = 1`, `K = 100`, `T = 1`,
`sigma = 1/5`, `r = q = 1/20` on the grid `priceSteps = 5`, `timeSteps = 1` (so `s = 1`,
`t = 1`) the value solved for row `4` is `-19456/6747981`; the clamp stores that value
unchanged in the grid, whereas `max(d_4, intrinsic_4)` with the intrinsic value
`max((M-4)*s - K, 0) = 0` is `0`. -/
theorem C11_counterexample :
    ∃ g, fdmGrid true Real.exp (1 : ℝ) 0 1 100 1 (1 / 5) (1 / 20) (1 / 20) 5 1 = some g ∧
      solved (1 / 5 : ℝ) (1 / 20) (1 / 20) 1 5 (fun j => g.cell j 1) 4 = -19456 / 6747981 ∧
      g.cell 4 0 = clampValue (1 : ℝ) 0 100 1 5 4
        (solved (1 / 5 : ℝ) (1 / 20) (1 / 20) 1 5 (fun j => g.cell j 1) 4) ∧
      g.cell 4 0 = -19456 / 6747981 ∧
      max (-19456 / 6747981 : ℝ) (max (rowPrice 5 4 (1 : ℝ) - 100) 0) = 0 := by
  obtain ⟨g, e, hcong, hcl⟩ := fdmGrid_last_step true Real.exp (1 : ℝ) 0 1 100 1 (1 / 5)
    (1 / 20) (1 / 20) 5 1 (by decide) (by decide)
  have hadj : adjM 5 = 5 := rfl
  have e1 : (1 : ℝ) / ((1 : ℕ) : ℝ) = 1 := by norm_num
  have e2 : ((mult : ℕ) : ℝ) * 1 / ((5 : ℕ) : ℝ) = 1 := by norm_num [mult]
  rw [hadj, e1, e2] at hcong hcl
  have hs : solved (1 / 5 : ℝ) (1 / 20) (1 / 20) 1 5 (fun j => g.cell j 1) 4 =
      -19456 / 6747981 := by
    rw [hcong 4]
    norm_num [colK, mult, solved, solution, backVal, dnorm, upper, pivot, subD, diagD, supD,
      aj, bj, cj, payoff, rowPrice, topValue, bottomValue, Real.exp_zero]
  have hc := hcl 4 (by decide) (by decide)
  refine ⟨g, e, hs, hc, ?_, ?_⟩
  · rw [hc, hs]
    norm_num [clampValue, rowPrice]
  · norm_num [rowPrice]

/-- C11, amended (early-exercise clamp): with `EA = 1` the clamp step replaces `d_j`, for
every row `j` in `0..M`, by `max(d_j, (M-j)*s - K)` for a call and by
`max(d_j, K - (M-j)*s)` for a put; the exercise value is not floored at `0`. Every
clamped value is at least `d_j` and at least that exercise value, and when `d_j ≥ 0` it
equals `max(d_j, intrinsic_j)` and is at least the non-negative intrinsic value. -/
theorem C11_clamp_american (CP K s : α) (M : ℕ) (d : Vec α) (hd : d.size = M + 1)
    (hCP : CP = 0 ∨ CP = 1) :
    ∃ d', clampD 1 CP K s M d = some d' ∧ ∀ j, j ≤ M →
      (CP = 0 → d'.cell j = max (d.cell j) (rowPrice M j s - K) ∧
        (0 ≤ d.cell j → d'.cell j = max (d.cell j) (max (rowPrice M j s - K) 0) ∧
          max (rowPrice M j s - K) 0 ≤ d'.cell j)) ∧
      (CP = 1 → d'.cell j = max (d.cell j) (K - rowPrice M j s) ∧
        (0 ≤ d.cell j → d'.cell j = max (d.cell j) (max (K - rowPrice M j s) 0) ∧
          max (K - rowPrice M j s) 0 ≤ d'.cell j)) ∧
      d.cell j ≤ d'.cell j := by
  obtain ⟨d', e, _, hv⟩ := clampD_spec 1 CP K s M d hd
  refine ⟨d', e, fun j hj => ⟨?_, ?_, ?_⟩⟩
  · intro h
    have h1 : d'.cell j = max (d.cell j) (rowPrice M j s - K) := by
      rw [hv j hj, h, clampValue_call, one_mul]
    refine ⟨h1, fun h0 => ?_⟩
    have h2 : max (d.cell j) (max (rowPrice M j s - K) 0) =
        max (d.cell j) (rowPrice M j s - K) := by
      rw [max_comm (rowPrice M j s - K) 0, ← max_assoc, max_eq_left h0]
    rw [h2]
    exact ⟨h1, h1 ▸ max_le (le_max_right _ _) (le_trans h0 (le_max_left _ _))⟩
  · intro h
    have h1 : d'.cell j = max (d.cell j) (K - rowPrice M j s) := by
      rw [hv j hj, h, clampValue_put, one_mul]
    refine ⟨h1, fun h0 => ?_⟩
    have h2 : max (d.cell j) (max (K - rowPrice M j s) 0) =
        max (d.cell j) (K - rowPrice M j s) := by
      rw [max_comm (K - rowPrice M j s) 0, ← max_assoc, max_eq_left h0]
    rw [h2]
    exact ⟨h1, h1 ▸ max_le (le_max_right _ _) (le_trans h0 (le_max_left _ _))⟩
  · rw [hv j hj]
    exact clampValue_ge 1 CP K s M j _ hCP

/-- C11, amended, instance: a call with `K = 3`, `s = 1`, `M = 5` and `d = (0,1,2,3,4,5)`;
row `0` (price `5`) is clamped to `max(0, 5 - 3) = 2`. -/
theorem C11_clamp_american_witness :
    ((0 : ℚ) = 0 ∨ (0 : ℚ) = 1) ∧
      ∃ d', clampD (1 : ℚ) 0 3 1 5 ⟨6, fun j => (j : ℚ)⟩ = some d' ∧ d'.cell 0 = 2 := by
  obtain ⟨d', e, h⟩ := C11_clamp_american (0 : ℚ) 3 1 5 ⟨6, fun j => (j : ℚ)⟩ rfl (Or.inl rfl)
  refine ⟨Or.inl rfl, d', e, ?_⟩
  rw [((h 0 (by decide)).1 rfl).1]
  norm_num [rowPrice]

/-- C13, as stated, fails: for a put (`CP = 1`) with `S = 100`, `K = 120`, `T = 1`,
`r = q = 0` on the grid `priceSteps = 5`, `timeSteps = 1` the boundary set-up leaves `0`
in the row-0 cell of column `0`, not `Smax - K*exp(0) = 380`, and `120` in the row-M
cell, not `0`. -/
theorem C13_counterexample :
    ∃ gb, boundaryGrid Real.exp (1 : ℝ) 100 120 1 0 0 5 1 = some gb ∧
      gb.cell 0 0 = 0 ∧
      (5 : ℝ) * 100 - 120 * Real.exp (-(0 - 0) * (1 - 1 / 1 * 0)) = 380 ∧
      gb.cell 5 0 = 120 := by
  obtain ⟨gb, e, _, _, ht, hb, _⟩ :=
    boundaryGrid_spec Real.exp (1 : ℝ) 100 120 1 0 0 5 1 (by decide)
  have hadj : adjM 5 = 5 := rfl
  rw [hadj] at hb
  refine ⟨gb, e, ?_, ?_, ?_⟩
  · rw [ht 0 (by decide)]
    norm_num [topValue]
  · norm_num [Real.exp_zero]
  · rw [hb 0 (by decide)]
    norm_num [bottomValue, Real.exp_zero]

/-- C13, amended (boundary conditions): for `priceSteps ≥ 5` and `timeSteps = N ≥ 1`,
after the boundary set-up and for every column `c` in `0..N` (with `t = T/N`,
`Smax = 5*S`): for a call (`CP = 0`) the row-0 cell is `Smax - K*exp(-(r-q)*(T - t*c))`
and the row-M cell is `0`; for a put (`CP = 1`) the row-0 cell is `0` and the row-M cell
is `K*exp(-(r-q)*(T - t*c))`. -/
theorem C13_boundary (expf : α → α) (CP S K T r q : α) (M0 N : ℕ) (hM : 5 ≤ M0)
    (_hN : 1 ≤ N) :
    ∃ gb, boundaryGrid expf CP S K T r q M0 N = some gb ∧ ∀ c, c ≤ N →
      (CP = 0 →
        gb.cell 0 c = 5 * S - K * expf (-(r - q) * (T - T / (N : α) * (c : α))) ∧
        gb.cell (adjM M0) c = 0) ∧
      (CP = 1 →
        gb.cell 0 c = 0 ∧
        gb.cell (adjM M0) c = K * expf (-(r - q) * (T - T / (N : α) * (c : α)))) := by
  obtain ⟨gb, e, _, _, ht, hb, _⟩ := boundaryGrid_spec expf CP S K T r q M0 N hM
  have hcast : ((mult : ℕ) : α) = 5 := by simp [mult]
  refine ⟨gb, e, fun c hc => ⟨fun h => ?_, fun h => ?_⟩⟩
  · rw [ht c hc, hb c hc, h]
    simp [topValue, bottomValue, hcast]
  · rw [ht c hc, hb c hc, h]
    simp [topValue, bottomValue]

/-- C13, amended, instance: a call with `S = 100`, `K = 120`, `T = 1`, `r = q = 0` on the
grid `priceSteps = 5`, `timeSteps = 1`: the row-0 cell of column `1` is `380`. -/
theorem C13_boundary_witness :
    (5 ≤ 5) ∧ (1 ≤ 1) ∧
      ∃ gb, boundaryGrid Real.exp (0 : ℝ) 100 120 1 0 0 5 1 = some gb ∧
        gb.cell 0 1 = 380 ∧ gb.cell (adjM 5) 1 = 0 := by
  obtain ⟨gb, e, h⟩ := C13_boundary Real.exp (0 : ℝ) 100 120 1 0 0 5 1 (by decide) (by decide)
  obtain ⟨h1, h2⟩ := (h 1 (by decide)).1 rfl
  refine ⟨by decide, by decide, gb, e, ?_, h2⟩
  rw [h1]
  norm_num [Real.exp_zero]

/-- C14 (terminal condition): for `priceSteps ≥ 5`, `timeSteps = N ≥ 1` and every interior
row `i` in `1..M-1` (the spot row after the anchor writes included) the cell of column
`N` is `max((M-i)*s - K, 0)` for a call and `max(K - (M-i)*s, 0)` for a put, in the grid
`g0` from which the backward loop starts and in the grid `g` that `fdm` reads its result
from. -/
theorem C14_terminal (expf : α → α) (EA CP S K T sig r q : α) (M0 N : ℕ) (hM : 5 ≤ M0)
    (_hN : 1 ≤ N) :
    ∃ g0 g, setupGrid true expf CP S K T r q M0 N = some g0 ∧
      sweepFrom EA CP S K T sig r q M0 N g0 = some g ∧
      fdmGrid true expf EA CP S K T sig r q M0 N = some g ∧
      ∀ i, 1 ≤ i → i < adjM M0 →
        (CP = 0 →
          g0.cell i N = max (rowPrice (adjM M0) i (5 * S / (adjM M0 : α)) - K) 0 ∧
          g.cell i N = max (rowPrice (adjM M0) i (5 * S / (adjM M0 : α)) - K) 0) ∧
        (CP = 1 →
          g0.cell i N = max (K - rowPrice (adjM M0) i (5 * S / (adjM M0 : α))) 0 ∧
          g.cell i N = max (K - rowPrice (adjM M0) i (5 * S / (adjM M0 : α))) 0) := by
  have a1 : ∀ j, 1 ≤ j → j < adjM M0 → j ≠ 0 ∧ j ≠ adjM M0 := fun j h1 h2 => by omega
  have hcast : ((mult : ℕ) : α) = 5 := by simp [mult]
  obtain ⟨g0, e0, elink, _, _, _, _, _, _, _, h0⟩ :=
    setupGrid_spec true expf EA CP S K T sig r q M0 N hM
  obtain ⟨g, e, _, _, _, _, hv⟩ := fdmGrid_spec true expf EA CP S K T sig r q M0 N hM
  have hcol : ∀ i, 1 ≤ i → i < adjM M0 →
      g0.cell i N = payoff CP K (rowPrice (adjM M0) i (5 * S / (adjM M0 : α))) ∧
      g.cell i N = payoff CP K (rowPrice (adjM M0) i (5 * S / (adjM M0 : α))) := by
    intro i hi1 hi2
    obtain ⟨b1, b2⟩ := a1 i hi1 hi2
    have k0 := h0 N (le_refl _) (le_refl _) i hi1 hi2
    have k1 := hv N (le_refl _) i hi1 hi2
    simp only [Nat.sub_self, colK, if_neg b1, if_neg b2, hcast] at k0 k1
    exact ⟨k0, k1⟩
  refine ⟨g0, g, e0, elink ▸ e, e, fun i hi1 hi2 => ⟨fun h => ?_, fun h => ?_⟩⟩
  · obtain ⟨k0, k1⟩ := hcol i hi1 hi2
    rw [k0, k1, h, payoff_call]
    exact ⟨rfl, rfl⟩
  · obtain ⟨k0, k1⟩ := hcol i hi1 hi2
    rw [k0, k1, h, payoff_put]
    exact ⟨rfl, rfl⟩

/-- C14, instance: a call with `S = 100`, `K = 120` on the grid `priceSteps = 5`,
`timeSteps = 1`; row `1` has price `4 * 100 = 400` and pay-off `280`. -/
theorem C14_terminal_witness :
    (5 ≤ 5) ∧ (1 ≤ 1) ∧
      ∃ g, fdmGrid true (fun _ => (1 : ℚ)) 1 0 100 120 1 1 0 0 5 1 = some g ∧
        g.cell 1 1 = 280 := by
  obtain ⟨_, g, _, _, e, h⟩ :=
    C14_terminal (fun _ => (1 : ℚ)) 1 0 100 120 1 1 0 0 5 1 (by decide) (by decide)
  refine ⟨by decide, by decide, g, e, ?_⟩
  have hadj : adjM 5 = 5 := rfl
  rw [((h 1 (by decide) (by decide)).1 rfl).2]
  rw [hadj]
  norm_num [rowPrice]

/-- C15 (frame of a backward step): for `M ≥ 5` a backward step at column `i` with
`1 ≤ i ≤ N` changes only the grid cells `(j, i-1)` with `1 ≤ j ≤ M-1`: the cells of rows
`0` and `M` and the cells of every column other than `i-1` keep their values, although
the clamp is also computed for `d[0]` and `d[M]`. Hence, for `priceSteps ≥ 5`, rows `0`
and `M` of the grid `fdm` reads its result from still hold the values of the boundary
set-up. -/
theorem C15_frame (expf : α → α) (EA CP S K T sig r q s t : α) (M M0 N i : ℕ) (w : Work α)
    (hM : 5 ≤ M) (hM0 : 5 ≤ M0) (_hi1 : 1 ≤ i) (hi : i ≤ N)
    (hgr : w.g.rows = M + 1) (hgc : w.g.cols = N + 1) (hAr : w.A.rows = M + 1)
    (hAc : w.A.cols = M + 1) (hd : w.d.size = M + 1) :
    (∃ w', backwardStep EA CP K sig r q s t M i w = some w' ∧
      (∀ j c, ¬(1 ≤ j ∧ j < M ∧ c = i - 1) → w'.g.cell j c = w.g.cell j c) ∧
      (∀ c, w'.g.cell 0 c = w.g.cell 0 c ∧ w'.g.cell M c = w.g.cell M c) ∧
      (∀ j c, c ≠ i - 1 → w'.g.cell j c = w.g.cell j c) ∧
      w'.d.cell 0 = clampValue EA CP K s M 0 (w.g.cell 0 i) ∧
      w'.d.cell M = clampValue EA CP K s M M (w.g.cell M i)) ∧
    (∃ gb g, boundaryGrid expf CP S K T r q M0 N = some gb ∧
      fdmGrid true expf EA CP S K T sig r q M0 N = some g ∧
      ∀ c, c ≤ N → g.cell 0 c = gb.cell 0 c ∧ g.cell (adjM M0) c = gb.cell (adjM M0) c) := by
  have hM1 : 1 ≤ M := by omega
  have hMpos : 0 < M := by omega
  constructor
  · obtain ⟨w', e, _, _, hdv, _, hf⟩ :=
      backwardStep_full EA CP K sig r q s t M N i w hM1 hi hgr hgc hAr hAc hd
    refine ⟨w', e, hf, ?_, ?_, ?_, ?_⟩
    · intro c
      exact ⟨hf 0 c (fun h => absurd h.1 (by decide)),
        hf M c (fun h => absurd h.2.1 (lt_irrefl M))⟩
    · intro j c hc
      exact hf j c (fun h => hc h.2.2)
    · rw [hdv 0 (Nat.zero_le _), solved_zero sig r q t M _ hMpos]
    · rw [hdv M (le_refl _), solved_top]
  · obtain ⟨gb, eb, _, _, tb, bb, _⟩ := boundaryGrid_spec expf CP S K T r q M0 N hM0
    obtain ⟨g, e, _, _, ht, hb, _⟩ := fdmGrid_spec true expf EA CP S K T sig r q M0 N hM0
    refine ⟨gb, g, eb, e, fun c hc => ?_⟩
    rw [ht c hc, hb c hc, tb c hc, bb c hc]
    exact ⟨rfl, rfl⟩

/-- C15, instance: the step at column `1` of a `6 x 2` grid. -/
theorem C15_frame_witness :
    (5 ≤ 5) ∧ (1 ≤ 1) ∧
      ∃ w', backwardStep (1 : ℚ) 0 120 1 0 0 100 1 5 1
          ⟨⟨6, 2, fun j _ => (j : ℚ)⟩, Matrix.alloc 6 6, Vec.alloc 6⟩ = some w' ∧
        w'.g.cell 0 0 = 0 ∧ w'.g.cell 5 0 = 5 ∧ w'.g.cell 3 1 = 3 := by
  obtain ⟨⟨w', e, _, h0, h1, _⟩, _⟩ := C15_frame (fun _ => (1 : ℚ)) 1 0 100 120 1 1 0 0 100 1
    5 5 1 1 ⟨⟨6, 2, fun j _ => (j : ℚ)⟩, Matrix.alloc 6 6, Vec.alloc 6⟩
    (by decide) (by decide) (by decide) (by decide) rfl rfl rfl rfl rfl
  refine ⟨by decide, by decide, w', e, ?_, ?_, ?_⟩
  · rw [(h0 0).1]; norm_num
  · rw [(h0 0).2]; norm_num
  · rw [h1 3 1 (by decide)]; norm_num

/-- C16 (no zero pivot under diagonal dominance): for `M ≥ 5` a multiple of 5, `t > 0`,
`r ≥ 0` and `sigma² ≥ |r - q|`, every interior row `j` has `aj(j) ≤ 0` and `cj(j) ≤ 0`,
and the pivot `A(j,j)` that iteration `j` of the forward pass divides by, for
`j = 1..M-1`, is at least `1 + r*t` and strictly positive. -/
theorem C16_pivot_positive (sig r q t : α) (M N i : ℕ) (g : Matrix α)
    (Ad : Matrix α × Vec α) (_hM : 5 ≤ M) (_hdiv : M % 5 = 0) (ht : 0 < t) (hr : 0 ≤ r)
    (hsig : |r - q| ≤ sig ^ 2) (hi : i ≤ N)
    (hgr : g.rows = M + 1) (hgc : g.cols = N + 1)
    (hAr : Ad.1.rows = M + 1) (hAc : Ad.1.cols = M + 1) (hd : Ad.2.size = M + 1) :
    ∀ j, 1 ≤ j → j < M →
      aj j M sig r q t ≤ 0 ∧ cj j M sig r q t ≤ 0 ∧
      ∃ p, pivotAt sig r q t M g i Ad j = some p ∧ 1 + r * t ≤ p ∧ 0 < p := by
  have a2 : i < g.cols := by omega
  have hρ : 0 < 1 + r * t := by nlinarith
  have hD := coeff_diagDominant sig r q t M ht.le hsig hρ
  intro j hj1 hj2
  obtain ⟨ha, hc, _⟩ := hD.2.2 j hj1 hj2
  obtain ⟨hp, _, _⟩ := pivot_upper_bounds _ _ _ M _ hD j hj2
  obtain ⟨hp1, hp2⟩ := hp hj1
  simp only [subD, supD, hj1, hj2, and_self, if_true] at ha hc hp1
  refine ⟨ha, hc, _, pivotAt_eq sig r q t M g i Ad j hj1 (Nat.le_of_lt hj2) hgr a2 hAr hAc hd,
    ?_, hp2⟩
  linarith

/-- C16, instance: `M = 5`, `sigma = 1/2`, `r = 1/10`, `q = 1/20`, `t = 1`, row `1`. -/
theorem C16_pivot_positive_witness :
    (5 ≤ 5) ∧ ((0 : ℚ) < 1) ∧ |(1 / 10 : ℚ) - 1 / 20| ≤ (1 / 2) ^ 2 ∧
      ∃ p, pivotAt (1 / 2 : ℚ) (1 / 10) (1 / 20) 1 5 ⟨6, 2, fun _ _ => 0⟩ 1
          (Matrix.alloc 6 6, Vec.alloc 6) 1 = some p ∧ 1 + 1 / 10 * 1 ≤ p ∧ 0 < p := by
  have h1 : |(1 / 10 : ℚ) - 1 / 20| ≤ (1 / 2) ^ 2 := by
    rw [abs_le]; constructor <;> norm_num
  exact ⟨by decide, by norm_num, h1,
    (C16_pivot_positive (1 / 2 : ℚ) (1 / 10) (1 / 20) 1 5 1 1 ⟨6, 2, fun _ _ => 0⟩
      (Matrix.alloc 6 6, Vec.alloc 6) (by decide) (by decide) (by norm_num) (by norm_num) h1
      (by decide) rfl rfl rfl rfl rfl 1 (by decide) (by decide)).2.2⟩

/-- C17 (symmetry of `phi` and put-call parity of `bs`): `phi(-x) = 1 - phi(x)` for every
`x ≠ 0`; at `x = 0`, where `exp(0) = 1`, `phi(0) = 0.5*(1 + (1 - (a1+a2+a3+a4+a5)))
= 0.5000000005`, so that `phi(-0) = 1 - phi(0)` fails; and `bs` for a call minus `bs` for
a put is `S*exp(-a*tau) - K*exp(-r*tau)` whenever `d1 ≠ 0` and `d2 ≠ 0`. -/
theorem C17_phi_symmetry (expf sqrtf logf : α → α) (hexp : expf 0 = 1) :
    (∀ x, x ≠ 0 → phi expf sqrtf (-x) = 1 - phi expf sqrtf x) ∧
    phi expf sqrtf 0 = 1 / 2 * (1 + (1 - (254829592 / 1000000000 - 284496736 / 1000000000 +
      1421413741 / 1000000000 - 1453152027 / 1000000000 + 1061405429 / 1000000000))) ∧
    phi expf sqrtf 0 = 5000000005 / 10000000000 ∧
    phi expf sqrtf 0 ≠ 1 / 2 ∧
    phi expf sqrtf (-0) ≠ 1 - phi expf sqrtf 0 ∧
    (∀ (CP : ℤ) (S K tau sigma r a : α), CP ≠ 0 →
      bsD1 sqrtf logf S K tau sigma r a ≠ 0 → bsD2 sqrtf logf S K tau sigma r a ≠ 0 →
      bs expf sqrtf logf 0 S K tau sigma r a - bs expf sqrtf logf CP S K tau sigma r a =
        S * expf (-a * tau) - K * expf (-r * tau)) := by
  have h0 := phi_zero expf sqrtf hexp
  refine ⟨phi_neg expf sqrtf, ?_, h0, ?_, ?_, ?_⟩
  · rw [h0]; norm_num
  · rw [h0]; norm_num
  · rw [neg_zero, h0]; norm_num
  · intro CP S K tau sigma r a hCP h1 h2
    exact bs_parity expf sqrtf logf CP S K tau sigma r a hCP h1 h2

/-- C17, instance: the reals with `Real.exp`, `Real.sqrt` and `Real.log`, at `x = 1`. -/
theorem C17_phi_symmetry_witness :
    Real.exp 0 = 1 ∧
      phi Real.exp Real.sqrt (-1) = 1 - phi Real.exp Real.sqrt 1 ∧
      phi Real.exp Real.sqrt 0 = 5000000005 / 10000000000 := by
  have h := C17_phi_symmetry Real.exp Real.sqrt Real.log Real.exp_zero
  exact ⟨Real.exp_zero, h.1 1 one_ne_zero, h.2.2.1⟩

end Pricer
